import Mathlib

/-!
# Steffen monotonic interpolation (interpolation/steffen.c)

A shallow embedding of `interpolation/steffen.c`, first in exact rational
arithmetic, then on IEEE 754 binary64 values.

* C arrays (`const double x_array[]`, `double a[]`, ...) are total maps from
  indices to values, `Nat → ℚ`; the length travels separately as `size`,
  exactly as in the C signatures.
* In the first translation `double` is `ℚ`: its statements are about exact
  arithmetic and say so.  The second translation (names ending in `_double`)
  runs the same statements on the type `double`, with rounding to nearest,
  infinities and NaN; it carries the statements about what rounding and
  overflow do to the values the code stores and returns.
* `size_t` is `Nat`.  The only subtractions on sizes are `size - 1` and
  `size - 2`, which agree with the C values for every `size ≥ 2`.
* Division is the division of `ℚ`; a quotient by a zero width carries no
  meaning, and every statement that depends on one assumes strictly
  increasing abscissae.
* A `for` loop with a trip count known on entry is a structural recursion on
  the number of iterations.
* A nullable `gsl_interp_accel *` is an `Option gsl_interp_accel`, and the
  mutation through the pointer is returned next to the result.
-/

namespace Steffen

/-! ## Status codes -/

/-- Status codes of gsl_errno.h that the sampled sources return. -/
inductive gsl_status where
  | GSL_SUCCESS
  | GSL_EDOM
  | GSL_EINVAL
  | GSL_ENOMEM
  | GSL_EBADLEN
  deriving DecidableEq, Repr

open gsl_status

/-! ## libm helpers used by `steffen_calc` -/

/-- The C call `copysign(1.0, v)`: magnitude one with the sign of `v`.
An exact zero carries a positive sign. -/
def copysign1 (v : ℚ) : ℚ := if v < 0 then -1 else 1

/-- The C function `fabs`. -/
def fabs (v : ℚ) : ℚ := if v < 0 then -v else v

/-- The C function `fmin`. -/
def fmin (u v : ℚ) : ℚ := if u ≤ v then u else v

/-! ## Index lookup (declared in gsl_interp.h) -/

/-- Modelled from the spec: the loop of `gsl_interp_bsearch`, which is declared
in gsl_interp.h and not among the sources.  Bisection on `[ilo, ihi]`: while the
bracket is wider than one segment, halve it, keeping `x_array[ilo] <= x` on the
left and `x < x_array[ihi]` on the right (spec §4.1: a query equal to a sample
goes to the segment that starts there). -/
def gsl_interp_bsearch_loop (x_array : Nat → ℚ) (x : ℚ) : Nat → Nat → Nat → Nat
  | 0, ilo, _ => ilo
  | fuel + 1, ilo, ihi =>
    if ihi > ilo + 1 then
      let i := (ihi + ilo) / 2
      if x_array i > x then
        gsl_interp_bsearch_loop x_array x fuel ilo i
      else
        gsl_interp_bsearch_loop x_array x fuel i ihi
    else ilo

/-- Modelled from the spec: `gsl_interp_bsearch (x_array, x, index_lo, index_hi)`
of gsl_interp.h (spec §4.1, Bounded Binary Search).  Returns an index `j` in
`[index_lo, index_hi - 1]` with `x_array[j] <= x < x_array[j+1]` when `x` is in
range, `index_lo` below the range and `index_hi - 1` at or above it.  Every
iteration shrinks the bracket, so `index_hi - index_lo` iterations suffice. -/
def gsl_interp_bsearch (x_array : Nat → ℚ) (x : ℚ) (index_lo index_hi : Nat) : Nat :=
  gsl_interp_bsearch_loop x_array x (index_hi - index_lo) index_lo index_hi

/-- Modelled from the spec: the lookup accelerator `gsl_interp_accel` of
gsl_interp.h (spec §3, §4.2): one cached interval index, `none` while cold, and
the hit and miss counters the spec calls implementation-internal. -/
structure gsl_interp_accel where
  cache : Option Nat
  hit_count : Nat
  miss_count : Nat
  deriving DecidableEq, Repr

/-- Modelled from the spec: `gsl_interp_accel_find (a, x_array, size, x)` of
gsl_interp.h (spec §4.2).  When warm with cached index `k`, the bounds of `k`
are validated first; if `x` lies in segment `k` or in an adjacent segment that
index is returned and cached; otherwise the full bounded binary search runs and
its result is cached. -/
def gsl_interp_accel_find (a : gsl_interp_accel) (x_array : Nat → ℚ) (size : Nat) (x : ℚ) :
    Nat × gsl_interp_accel :=
  let miss : Nat × gsl_interp_accel :=
    let j := gsl_interp_bsearch x_array x 0 (size - 1)
    (j, { cache := some j, hit_count := a.hit_count, miss_count := a.miss_count + 1 })
  match a.cache with
  | none => miss
  | some k =>
    if k + 1 < size ∧ x_array k ≤ x ∧ x < x_array (k + 1) then
      (k, { a with hit_count := a.hit_count + 1 })
    else if k + 2 < size ∧ x_array (k + 1) ≤ x ∧ x < x_array (k + 2) then
      (k + 1, { cache := some (k + 1), hit_count := a.hit_count + 1, miss_count := a.miss_count })
    else if 0 < k ∧ k < size ∧ x_array (k - 1) ≤ x ∧ x < x_array k then
      (k - 1, { cache := some (k - 1), hit_count := a.hit_count + 1, miss_count := a.miss_count })
    else miss

/-! ## State and fit (`steffen_state_t`, `steffen_calc`, `steffen_init`) -/

/-- The struct `steffen_state_t`: four coefficient arrays. -/
structure steffen_state_t where
  a : Nat → ℚ
  b : Nat → ℚ
  c : Nat → ℚ
  d : Nat → ℚ

/-- The four variable-length temporaries `s`, `h`, `y_prime`, `p` that
`steffen_calc` declares on its stack. -/
structure steffen_tmp where
  s : Nat → ℚ
  h : Nat → ℚ
  y_prime : Nat → ℚ
  p : Nat → ℚ

/-- Lines 117-119 of `steffen_calc`: interval and slope of the left boundary. -/
def steffen_calc_left (x_array y_array : Nat → ℚ) (t : steffen_tmp) : steffen_tmp :=
  let h := Function.update t.h 0 (x_array 1 - x_array 0)
  let s := Function.update t.s 0 ((y_array 1 - y_array 0) / h 0)
  let y_prime := Function.update t.y_prime 0 (s 0)
  { s := s, h := h, y_prime := y_prime, p := t.p }

/-- Body of the first loop of `steffen_calc` (lines 125-132) at index `i`. -/
def steffen_calc_body1 (x_array y_array : Nat → ℚ) (i : Nat) (t : steffen_tmp) : steffen_tmp :=
  let h := Function.update t.h i (x_array (i + 1) - x_array i)
  let s := Function.update t.s i ((y_array (i + 1) - y_array i) / h i)
  let p := Function.update t.p i ((s (i - 1) * h i + s i * h (i - 1)) / (h (i - 1) + h i))
  let y_prime := Function.update t.y_prime i
    ((copysign1 (s (i - 1)) + copysign1 (s i)) *
      fmin (fabs (s (i - 1))) (fmin (fabs (s i)) ((1 / 2) * fabs (p i))))
  { s := s, h := h, y_prime := y_prime, p := p }

/-- The loop `for (i = 1; i < size - 1; i++)` of `steffen_calc` after `k`
iterations, that is after the bodies at `i = 1, ..., k`. -/
def steffen_calc_loop1 (x_array y_array : Nat → ℚ) : Nat → steffen_tmp → steffen_tmp
  | 0, t => t
  | k + 1, t => steffen_calc_body1 x_array y_array (k + 1) (steffen_calc_loop1 x_array y_array k t)

/-- Line 137 of `steffen_calc`: `y_prime[size-1] = s[size-2]`. -/
def steffen_calc_right (size : Nat) (t : steffen_tmp) : steffen_tmp :=
  { t with y_prime := Function.update t.y_prime (size - 1) (t.s (size - 2)) }

/-- Body of the second loop of `steffen_calc` (lines 143-146) at index `i`. -/
def steffen_calc_body2 (y_array : Nat → ℚ) (t : steffen_tmp) (i : Nat) (st : steffen_state_t) :
    steffen_state_t :=
  { a := Function.update st.a i ((t.y_prime i + t.y_prime (i + 1) - 2 * t.s i) / t.h i / t.h i)
    b := Function.update st.b i ((3 * t.s i - 2 * t.y_prime i - t.y_prime (i + 1)) / t.h i)
    c := Function.update st.c i (t.y_prime i)
    d := Function.update st.d i (y_array i) }

/-- The loop `for (i = 0; i < size - 1; i++)` of `steffen_calc` after `k`
iterations, that is after the bodies at `i = 0, ..., k - 1`. -/
def steffen_calc_loop2 (y_array : Nat → ℚ) (t : steffen_tmp) : Nat → steffen_state_t → steffen_state_t
  | 0, st => st
  | k + 1, st => steffen_calc_body2 y_array t k (steffen_calc_loop2 y_array t k st)

/-- The temporaries of `steffen_calc` when its second loop starts.  `t0` is
whatever the stack held when the arrays were declared. -/
def steffen_calc_tmp (t0 : steffen_tmp) (x_array y_array : Nat → ℚ) (size : Nat) : steffen_tmp :=
  steffen_calc_right size
    (steffen_calc_loop1 x_array y_array (size - 1 - 1) (steffen_calc_left x_array y_array t0))

/-- The function `steffen_calc`: fills `a`, `b`, `c`, `d` at `0 .. size-2`. -/
def steffen_calc (t0 : steffen_tmp) (x_array y_array : Nat → ℚ) (st : steffen_state_t)
    (size : Nat) : steffen_state_t :=
  steffen_calc_loop2 y_array (steffen_calc_tmp t0 x_array y_array size) (size - 1) st

/-- The function `steffen_init`: runs `steffen_calc` and returns `GSL_SUCCESS`. -/
def steffen_init (t0 : steffen_tmp) (vstate : steffen_state_t) (x_array y_array : Nat → ℚ)
    (size : Nat) : gsl_status × steffen_state_t :=
  (GSL_SUCCESS, steffen_calc t0 x_array y_array vstate size)

/-! ## Evaluation (`steffen_eval`, `steffen_eval_deriv`, `steffen_eval_deriv2`) -/

/-- The function `steffen_eval`: resolve the interval index, with the
accelerator when one is given and by bisection otherwise, then evaluate the
cubic of that segment by Horner's scheme.  Returns the status, `*y` and the
accelerator after the call. -/
def steffen_eval (state : steffen_state_t) (x_array _y_array : Nat → ℚ) (size : Nat) (x : ℚ)
    (a : Option gsl_interp_accel) : gsl_status × ℚ × Option gsl_interp_accel :=
  let r : Nat × Option gsl_interp_accel :=
    match a with
    | some acc => ((gsl_interp_accel_find acc x_array size x).1,
                   some (gsl_interp_accel_find acc x_array size x).2)
    | none => (gsl_interp_bsearch x_array x 0 (size - 1), none)
  let index := r.1
  let x_lo := x_array index
  let delx := x - x_lo
  let a := state.a index
  let b := state.b index
  let c := state.c index
  let d := state.d index
  (GSL_SUCCESS, d + delx * (c + delx * (b + delx * a)), r.2)

/-- The function `steffen_eval_deriv`: same lookup, first derivative of the
cubic.  Returns the status, `*dydx` and the accelerator after the call. -/
def steffen_eval_deriv (state : steffen_state_t) (x_array _y_array : Nat → ℚ) (size : Nat) (x : ℚ)
    (a : Option gsl_interp_accel) : gsl_status × ℚ × Option gsl_interp_accel :=
  let r : Nat × Option gsl_interp_accel :=
    match a with
    | some acc => ((gsl_interp_accel_find acc x_array size x).1,
                   some (gsl_interp_accel_find acc x_array size x).2)
    | none => (gsl_interp_bsearch x_array x 0 (size - 1), none)
  let index := r.1
  let x_lo := x_array index
  let delx := x - x_lo
  let a := state.a index
  let b := state.b index
  let c := state.c index
  (GSL_SUCCESS, c + delx * (2 * b + delx * 3 * a), r.2)

/-- The function `steffen_eval_deriv2`: same lookup, second derivative of the
cubic.  Returns the status, `*y_pp` and the accelerator after the call. -/
def steffen_eval_deriv2 (state : steffen_state_t) (x_array _y_array : Nat → ℚ) (size : Nat)
    (x : ℚ) (a : Option gsl_interp_accel) : gsl_status × ℚ × Option gsl_interp_accel :=
  let r : Nat × Option gsl_interp_accel :=
    match a with
    | some acc => ((gsl_interp_accel_find acc x_array size x).1,
                   some (gsl_interp_accel_find acc x_array size x).2)
    | none => (gsl_interp_bsearch x_array x 0 (size - 1), none)
  let index := r.1
  let x_lo := x_array index
  let delx := x - x_lo
  let a := state.a index
  let b := state.b index
  (GSL_SUCCESS, 6 * a * delx + 2 * b, r.2)

/-! ## Integration (`steffen_eval_integ`) -/

/-- The summation loop `for (i = index_a; i <= index_b; i++)` of
`steffen_eval_integ` (lines 318-342), entered at index `i` with the running sum
`result`; the first argument bounds the iterations still to run.  A zero-width
segment resets the sum and returns `GSL_EINVAL` at once. -/
def steffen_eval_integ_loop (state : steffen_state_t) (x_array y_array : Nat → ℚ) (a b : ℚ)
    (index_a index_b : Nat) : Nat → Nat → ℚ → gsl_status × ℚ
  | 0, _, result => (GSL_SUCCESS, result)
  | fuel + 1, i, result =>
    if i ≤ index_b then
      let x_hi := x_array (i + 1)
      let x_lo := x_array i
      let _y_lo := y_array i
      let dx := x_hi - x_lo
      if dx ≠ 0 then
        let x1 := if i = index_a then a else x_lo
        let x2 := if i = index_b then b else x_hi
        steffen_eval_integ_loop state x_array y_array a b index_a index_b fuel (i + 1)
          (result + ((1 / 4) * state.a i * (x2 * x2 * x2 * x2 - x1 * x1 * x1 * x1)
            + (1 / 3) * state.b i * (x2 * x2 * x2 - x1 * x1 * x1)
            + (1 / 2) * state.c i * (x2 * x2 - x1 * x1)
            + state.d i * (x2 - x1)))
      else (GSL_EINVAL, 0)
    else (GSL_SUCCESS, result)

/-- The index pair `(index_a, index_b)` and the accelerator after the two
lookups at the head of `steffen_eval_integ` (lines 303-312). -/
def steffen_eval_integ_indices (x_array : Nat → ℚ) (size : Nat) (acc : Option gsl_interp_accel)
    (a b : ℚ) : Nat × Nat × Option gsl_interp_accel :=
  match acc with
  | some ac =>
    let ra := gsl_interp_accel_find ac x_array size a
    let rb := gsl_interp_accel_find ra.2 x_array size b
    (ra.1, rb.1, some rb.2)
  | none =>
    (gsl_interp_bsearch x_array a 0 (size - 1), gsl_interp_bsearch x_array b 0 (size - 1), none)

/-- The function `steffen_eval_integ`: resolve the segments of the two bounds,
then sum the per-segment terms from `index_a` to `index_b`.  The loop runs at
most `index_b + 1 - index_a` times.  Returns the status, `*result` and the
accelerator after the call. -/
def steffen_eval_integ (state : steffen_state_t) (x_array y_array : Nat → ℚ) (size : Nat)
    (acc : Option gsl_interp_accel) (a b : ℚ) : gsl_status × ℚ × Option gsl_interp_accel :=
  let idx := steffen_eval_integ_indices x_array size acc a b
  let index_a := idx.1
  let index_b := idx.2.1
  let r := steffen_eval_integ_loop state x_array y_array a b index_a index_b
    (index_b + 1 - index_a) index_a 0
  (r.1, r.2, idx.2.2)

/-! ## Test fixtures -/

/-- A C array literal read as a map from indices; indices past the end read 0. -/
def ofList (l : List ℚ) : Nat → ℚ := fun i => l.getD i 0

/-- Zeroed temporaries, one possible content of the stack on entry. -/
def tmp0 : steffen_tmp := { s := fun _ => 0, h := fun _ => 0, y_prime := fun _ => 0, p := fun _ => 0 }

/-- Zeroed coefficient arrays, one possible content of a fresh `steffen_alloc`. -/
def state0 : steffen_state_t := { a := fun _ => 0, b := fun _ => 0, c := fun _ => 0, d := fun _ => 0 }

/-- The sample abscissae and ordinates of `test_steffen` (test.c lines 970-971). -/
def test_steffen_data : Nat → ℚ := ofList [0, 1, 2, 3, 4]

/-! ## Closed forms of what `steffen_calc` stores -/

/-- A table is strictly increasing on its `size` entries. -/
def StrictlyIncreasing (x_array : Nat → ℚ) (size : Nat) : Prop :=
  ∀ i, i + 1 < size → x_array i < x_array (i + 1)

/-- The value `steffen_calc` leaves in `h[i]` (lines 117 and 125). -/
def steffen_h (x_array : Nat → ℚ) (i : Nat) : ℚ := x_array (i + 1) - x_array i

/-- The value `steffen_calc` leaves in `s[i]` (lines 118 and 126). -/
def steffen_s (x_array y_array : Nat → ℚ) (i : Nat) : ℚ :=
  (y_array (i + 1) - y_array i) / steffen_h x_array i

/-- The value `steffen_calc` leaves in `p[i]` (line 128). -/
def steffen_p (x_array y_array : Nat → ℚ) (i : Nat) : ℚ :=
  (steffen_s x_array y_array (i - 1) * steffen_h x_array i
    + steffen_s x_array y_array i * steffen_h x_array (i - 1))
  / (steffen_h x_array (i - 1) + steffen_h x_array i)

/-- The value the first loop of `steffen_calc` leaves in `y_prime[i]`
(lines 131-132). -/
def steffen_y_prime_interior (x_array y_array : Nat → ℚ) (i : Nat) : ℚ :=
  (copysign1 (steffen_s x_array y_array (i - 1)) + copysign1 (steffen_s x_array y_array i)) *
    fmin (fabs (steffen_s x_array y_array (i - 1)))
      (fmin (fabs (steffen_s x_array y_array i)) ((1 / 2) * fabs (steffen_p x_array y_array i)))

/-- The value `y_prime[i]` holds when the second loop of `steffen_calc` starts:
the boundary slopes at the two ends (lines 119 and 137), the loop value between. -/
def steffen_y_prime (x_array y_array : Nat → ℚ) (size : Nat) (i : Nat) : ℚ :=
  if i = size - 1 then steffen_s x_array y_array (size - 2)
  else if i = 0 then steffen_s x_array y_array 0
  else steffen_y_prime_interior x_array y_array i

/-- The antiderivative that `steffen_eval_integ` evaluates at both bounds of
segment `i` (lines 332-335): each power of the bound with its coefficient. -/
def steffen_integ_prim (state : steffen_state_t) (i : Nat) (t : ℚ) : ℚ :=
  (1 / 4) * state.a i * (t * t * t * t) + (1 / 3) * state.b i * (t * t * t)
    + (1 / 2) * state.c i * (t * t) + state.d i * t

/-- The term that `steffen_eval_integ` adds for segment `i` (lines 329-335). -/
def steffen_integ_term (state : steffen_state_t) (x_array : Nat → ℚ) (a b : ℚ)
    (index_a index_b : Nat) (i : Nat) : ℚ :=
  steffen_integ_prim state i (if i = index_b then b else x_array (i + 1))
    - steffen_integ_prim state i (if i = index_a then a else x_array i)

/-- The derivative estimate `v` at an end of a segment of slope `s` has the sign
of `s` and at most twice its size (Steffen's sufficient condition). -/
def SlopeBounded (s v : ℚ) : Prop :=
  (0 ≤ s → 0 ≤ v ∧ v ≤ 2 * s) ∧ (s ≤ 0 → 2 * s ≤ v ∧ v ≤ 0)

/-- The term of spec §4.5 for segment `i`: the antiderivative of
`a_i t^3 + b_i t^2 + c_i t + d_i` between the segment-local bounds
`t1 = lo - x_i` and `t2 = hi - x_i`, where `lo` is `a` on the first touched
segment and `x_i` otherwise, and `hi` is `b` on the last touched segment and
`x_{i+1}` otherwise. -/
def spec_integ_term (state : steffen_state_t) (x_array : Nat → ℚ) (a b : ℚ)
    (index_a index_b : Nat) (i : Nat) : ℚ :=
  let lo := if i = index_a then a else x_array i
  let hi := if i = index_b then b else x_array (i + 1)
  let t1 := lo - x_array i
  let t2 := hi - x_array i
  state.a i / 4 * (t2 ^ 4 - t1 ^ 4) + state.b i / 3 * (t2 ^ 3 - t1 ^ 3)
    + state.c i / 2 * (t2 ^ 2 - t1 ^ 2) + state.d i * (t2 - t1)

/-- The definite integral of spec §4.3 and §4.5: the sum of the segment-local
terms over the touched segments `index_a .. index_b`, the indices resolved by
the bounded binary search. -/
def spec_integ (state : steffen_state_t) (x_array : Nat → ℚ) (size : Nat) (a b : ℚ) : ℚ :=
  ∑ i ∈ Finset.Ico (gsl_interp_bsearch x_array a 0 (size - 1))
      (gsl_interp_bsearch x_array b 0 (size - 1) + 1),
    spec_integ_term state x_array a b (gsl_interp_bsearch x_array a 0 (size - 1))
      (gsl_interp_bsearch x_array b 0 (size - 1)) i

/-! ## Spec-side definitions for the derivative estimate (spec §4.4) -/

/-- The mathematical sign of spec §4.4: `-1`, `0` or `1`. -/
def spec_sign (v : ℚ) : ℚ := if v < 0 then -1 else if v = 0 then 0 else 1

/-- Step 1 of spec §4.4: `h_i = x_{i+1} - x_i`. -/
def spec_h (x : Nat → ℚ) (i : Nat) : ℚ := x (i + 1) - x i

/-- Step 1 of spec §4.4: `s_i = (y_{i+1} - y_i) / h_i`. -/
def spec_s (x y : Nat → ℚ) (i : Nat) : ℚ := (y (i + 1) - y i) / spec_h x i

/-- Step 3 of spec §4.4: the weighted parabola slope
`p_i = (s_{i-1} h_i + s_i h_{i-1}) / (h_{i-1} + h_i)`. -/
def spec_p (x y : Nat → ℚ) (i : Nat) : ℚ :=
  (spec_s x y (i - 1) * spec_h x i + spec_s x y i * spec_h x (i - 1))
    / (spec_h x (i - 1) + spec_h x i)

/-- Step 3 of spec §4.4: the monotonicity-preserving derivative
`y'_i = (sign(s_{i-1}) + sign(s_i)) * min(|s_{i-1}|, |s_i|, 0.5 |p_i|)`, with the
sign function given as an argument. -/
def spec_y_prime (sign : ℚ → ℚ) (x y : Nat → ℚ) (i : Nat) : ℚ :=
  (sign (spec_s x y (i - 1)) + sign (spec_s x y i))
    * min |spec_s x y (i - 1)| (min |spec_s x y i| ((1 / 2) * |spec_p x y i|))

/-! ## Sorted tables, accelerator runs and the queries of `test_bsearch` -/

/-- The entries `x_array[lo .. hi]` are sorted (non-decreasing). -/
def SortedOn (x_array : Nat → ℚ) (lo hi : Nat) : Prop :=
  ∀ i j, lo ≤ i → i ≤ j → j ≤ hi → x_array i ≤ x_array j

/-- Modelled from the spec: `gsl_interp_accel_alloc` of gsl_interp.h (spec §4.2):
a freshly constructed accelerator is cold, with no cached index. -/
def gsl_interp_accel_alloc : gsl_interp_accel := { cache := none, hit_count := 0, miss_count := 0 }

/-- Modelled from the spec: `gsl_interp_accel_reset` of gsl_interp.h (spec §4.2):
forces the cold state. -/
def gsl_interp_accel_reset (_a : gsl_interp_accel) : gsl_interp_accel :=
  { cache := none, hit_count := 0, miss_count := 0 }

/-- The indices that `gsl_interp_accel_find` returns when the queries are issued
in order to one accelerator, each call starting from the state the previous
call left. -/
def gsl_interp_accel_find_all (a : gsl_interp_accel) (x_array : Nat → ℚ) (size : Nat) :
    List ℚ → List Nat
  | [] => []
  | x :: xs =>
    (gsl_interp_accel_find a x_array size x).1
      :: gsl_interp_accel_find_all (gsl_interp_accel_find a x_array size x).2 x_array size xs

/-- The sixteen query points `r` of `test_bsearch` (test.c lines 83-87). -/
def test_bsearch_points : List ℚ :=
  [-1 / 5, 0, 1 / 10, 7 / 10, 1, 13 / 10, 19 / 10, 2, 11 / 5, 27 / 10, 3, 31 / 10, 18 / 5, 4,
    41 / 10, 49 / 10]

/-- The queries of the accelerator loop of `test_bsearch` (test.c lines 93-106)
in the order issued: for every `k2` and every `k1`, first `r[k2]`, then `r[k1]`. -/
def test_bsearch_queries : List ℚ :=
  test_bsearch_points.flatMap fun q2 => test_bsearch_points.flatMap fun q1 => [q2, q1]

/-! ## The descriptor (`steffen_alloc`, `steffen_free`, `steffen_type`) -/

/-- The function `steffen_alloc`: five calls of `malloc`, for the state block and
for the arrays `a`, `b`, `c`, `d`.  `ok k` tells whether call number `k`
succeeds, `fresh` is the undefined content of the new arrays.  A failed call
frees what was allocated before it and returns `NULL`, here `none`. -/
def steffen_alloc (ok : Nat → Bool) (fresh : steffen_state_t) (_size : Nat) :
    Option steffen_state_t :=
  if ok 0 = false then none
  else if ok 1 = false then none
  else if ok 2 = false then none
  else if ok 3 = false then none
  else if ok 4 = false then none
  else some fresh

/-- The function `steffen_free`: releases the four arrays and the state block. -/
def steffen_free (_vstate : steffen_state_t) : Unit := ()

/-- Modelled from the spec: the descriptor type `gsl_interp_type` of
gsl_interp.h (spec §2, §3): a name, a minimum sample count and the entry points
allocate, init, eval, eval_deriv, eval_deriv2, eval_integ and free, in the order
of the initialiser in steffen.c. -/
structure gsl_interp_type where
  name : String
  min_size : Nat
  alloc : (Nat → Bool) → steffen_state_t → Nat → Option steffen_state_t
  init : steffen_tmp → steffen_state_t → (Nat → ℚ) → (Nat → ℚ) → Nat →
    gsl_status × steffen_state_t
  eval : steffen_state_t → (Nat → ℚ) → (Nat → ℚ) → Nat → ℚ → Option gsl_interp_accel →
    gsl_status × ℚ × Option gsl_interp_accel
  eval_deriv : steffen_state_t → (Nat → ℚ) → (Nat → ℚ) → Nat → ℚ → Option gsl_interp_accel →
    gsl_status × ℚ × Option gsl_interp_accel
  eval_deriv2 : steffen_state_t → (Nat → ℚ) → (Nat → ℚ) → Nat → ℚ → Option gsl_interp_accel →
    gsl_status × ℚ × Option gsl_interp_accel
  eval_integ : steffen_state_t → (Nat → ℚ) → (Nat → ℚ) → Nat → Option gsl_interp_accel →
    ℚ → ℚ → gsl_status × ℚ × Option gsl_interp_accel
  free : steffen_state_t → Unit

/-- The static descriptor `steffen_type` (steffen.c lines 348-359), the
initialiser read positionally. -/
def steffen_type : gsl_interp_type :=
  ⟨"steffen", 3, steffen_alloc, steffen_init, steffen_eval, steffen_eval_deriv,
    steffen_eval_deriv2, steffen_eval_integ, steffen_free⟩

/-- The exported pointer `gsl_interp_steffen` (steffen.c line 361). -/
def gsl_interp_steffen : gsl_interp_type := steffen_type

/-- Modelled from the spec: `gsl_interp_type_min_size` of interp.c, which is not
among the sources (spec §6, §8): the minimum size reported for a type is the
`min_size` of its descriptor. -/
def gsl_interp_type_min_size (T : gsl_interp_type) : Nat := T.min_size

/-! ## The evaluate blocks and the spec-side coefficients (spec §4.4, §4.5) -/

/-- The block `/* evaluate */` of `steffen_eval` (lines 199-211) for a resolved
index: the value written to `*y`. -/
def steffen_eval_block (state : steffen_state_t) (x_array : Nat → ℚ) (index : Nat) (x : ℚ) : ℚ :=
  let x_lo := x_array index
  let delx := x - x_lo
  let a := state.a index
  let b := state.b index
  let c := state.c index
  let d := state.d index
  d + delx * (c + delx * (b + delx * a))

/-- The block `/* evaluate */` of `steffen_eval_deriv` (lines 238-248) for a
resolved index: the value written to `*dydx`. -/
def steffen_eval_deriv_block (state : steffen_state_t) (x_array : Nat → ℚ) (index : Nat)
    (x : ℚ) : ℚ :=
  let x_lo := x_array index
  let delx := x - x_lo
  let a := state.a index
  let b := state.b index
  let c := state.c index
  c + delx * (2 * b + delx * 3 * a)

/-- The block `/* evaluate */` of `steffen_eval_deriv2` (lines 276-283) for a
resolved index: the value written to `*y_pp`. -/
def steffen_eval_deriv2_block (state : steffen_state_t) (x_array : Nat → ℚ) (index : Nat)
    (x : ℚ) : ℚ :=
  let x_lo := x_array index
  let delx := x - x_lo
  let a := state.a index
  let b := state.b index
  6 * a * delx + 2 * b

/-- The index that `steffen_eval`, `steffen_eval_deriv` and `steffen_eval_deriv2`
resolve for the query `x` (lines 189-196, 228-235, 266-273). -/
def steffen_lookup (x_array : Nat → ℚ) (size : Nat) (x : ℚ) (a : Option gsl_interp_accel) : Nat :=
  match a with
  | some acc => (gsl_interp_accel_find acc x_array size x).1
  | none => gsl_interp_bsearch x_array x 0 (size - 1)

/-- The faults a run on checked memory can stop with. -/
inductive calc_fault where
  | out_of_bounds
  | uninitialised
  | division_by_zero
  deriving DecidableEq, Repr

/-- A C array of `size` doubles; a cell is `none` until it is first written. -/
structure checked_array where
  size : Nat
  cell : Nat → Option ℚ

/-- The read `arr[i]`. -/
def checked_read (arr : checked_array) (i : Nat) : Except calc_fault ℚ :=
  if i < arr.size then
    match arr.cell i with
    | some v => Except.ok v
    | none => Except.error calc_fault.uninitialised
  else Except.error calc_fault.out_of_bounds

/-- The write `arr[i] = v`. -/
def checked_write (arr : checked_array) (i : Nat) (v : ℚ) : Except calc_fault checked_array :=
  if i < arr.size then Except.ok { arr with cell := Function.update arr.cell i (some v) }
  else Except.error calc_fault.out_of_bounds

/-- The quotient `u / v` of two doubles. -/
def checked_div (u v : ℚ) : Except calc_fault ℚ :=
  if v = 0 then Except.error calc_fault.division_by_zero else Except.ok (u / v)

/-- An array of the caller holding `size` doubles, all initialised. -/
def checked_input (arr : Nat → ℚ) (size : Nat) : checked_array :=
  { size := size, cell := fun i => some (arr i) }

/-- A new array of `size` doubles with no cell written: a variable-length
array on the stack, or a block from `malloc`. -/
def checked_fresh (size : Nat) : checked_array := { size := size, cell := fun _ => none }

/-- The memory `steffen_calc` works on: the four temporaries and the four
coefficient arrays. -/
structure checked_mem where
  s : checked_array
  h : checked_array
  y_prime : checked_array
  p : checked_array
  a : checked_array
  b : checked_array
  c : checked_array
  d : checked_array

/-- Lines 117-119 of `steffen_calc` on checked memory. -/
def steffen_calc_checked_left (x_array y_array : checked_array) (m : checked_mem) :
    Except calc_fault checked_mem := do
  let x1 ← checked_read x_array 1
  let x0 ← checked_read x_array 0
  let h ← checked_write m.h 0 (x1 - x0)
  let y1 ← checked_read y_array 1
  let y0 ← checked_read y_array 0
  let h0 ← checked_read h 0
  let q ← checked_div (y1 - y0) h0
  let s ← checked_write m.s 0 q
  let s0 ← checked_read s 0
  let y_prime ← checked_write m.y_prime 0 s0
  pure { m with s := s, h := h, y_prime := y_prime }

/-- Body of the first loop of `steffen_calc` (lines 125-132) at index `i` on
checked memory. -/
def steffen_calc_checked_body1 (x_array y_array : checked_array) (i : Nat) (m : checked_mem) :
    Except calc_fault checked_mem := do
  let xi1 ← checked_read x_array (i + 1)
  let xi ← checked_read x_array i
  let h ← checked_write m.h i (xi1 - xi)
  let yi1 ← checked_read y_array (i + 1)
  let yi ← checked_read y_array i
  let hi ← checked_read h i
  let q ← checked_div (yi1 - yi) hi
  let s ← checked_write m.s i q
  let sp ← checked_read s (i - 1)
  let hi ← checked_read h i
  let si ← checked_read s i
  let hp ← checked_read h (i - 1)
  let hp2 ← checked_read h (i - 1)
  let hi2 ← checked_read h i
  let q ← checked_div (sp * hi + si * hp) (hp2 + hi2)
  let p ← checked_write m.p i q
  let sp ← checked_read s (i - 1)
  let si ← checked_read s i
  let sp2 ← checked_read s (i - 1)
  let si2 ← checked_read s i
  let pi ← checked_read p i
  let y_prime ← checked_write m.y_prime i
    ((copysign1 sp + copysign1 si) * fmin (fabs sp2) (fmin (fabs si2) ((1 / 2) * fabs pi)))
  pure { m with s := s, h := h, y_prime := y_prime, p := p }

/-- The first loop of `steffen_calc` on checked memory after `k` iterations. -/
def steffen_calc_checked_loop1 (x_array y_array : checked_array) :
    Nat → checked_mem → Except calc_fault checked_mem
  | 0, m => pure m
  | k + 1, m => do
    let m1 ← steffen_calc_checked_loop1 x_array y_array k m
    steffen_calc_checked_body1 x_array y_array (k + 1) m1

/-- Line 137 of `steffen_calc` on checked memory. -/
def steffen_calc_checked_right (size : Nat) (m : checked_mem) : Except calc_fault checked_mem := do
  let sl ← checked_read m.s (size - 2)
  let y_prime ← checked_write m.y_prime (size - 1) sl
  pure { m with y_prime := y_prime }

/-- Body of the second loop of `steffen_calc` (lines 143-146) at index `i` on
checked memory. -/
def steffen_calc_checked_body2 (y_array : checked_array) (i : Nat) (m : checked_mem) :
    Except calc_fault checked_mem := do
  let yp ← checked_read m.y_prime i
  let yp1 ← checked_read m.y_prime (i + 1)
  let si ← checked_read m.s i
  let hi ← checked_read m.h i
  let q1 ← checked_div (yp + yp1 - 2 * si) hi
  let hi2 ← checked_read m.h i
  let q2 ← checked_div q1 hi2
  let a ← checked_write m.a i q2
  let si ← checked_read m.s i
  let yp ← checked_read m.y_prime i
  let yp1 ← checked_read m.y_prime (i + 1)
  let hi ← checked_read m.h i
  let q ← checked_div (3 * si - 2 * yp - yp1) hi
  let b ← checked_write m.b i q
  let yp ← checked_read m.y_prime i
  let c ← checked_write m.c i yp
  let yi ← checked_read y_array i
  let d ← checked_write m.d i yi
  pure { m with a := a, b := b, c := c, d := d }

/-- The second loop of `steffen_calc` on checked memory after `k` iterations. -/
def steffen_calc_checked_loop2 (y_array : checked_array) :
    Nat → checked_mem → Except calc_fault checked_mem
  | 0, m => pure m
  | k + 1, m => do
    let m1 ← steffen_calc_checked_loop2 y_array k m
    steffen_calc_checked_body2 y_array k m1

/-- The function `steffen_calc` on checked memory: the arrays of the caller
hold `size` samples, the temporaries are variable-length arrays of `size`
doubles, and `a`, `b`, `c`, `d` are the blocks of `size` doubles that
`steffen_alloc` obtains; nothing but the samples is written on entry. -/
def steffen_calc_checked (x_array y_array : Nat → ℚ) (size : Nat) :
    Except calc_fault checked_mem := do
  let x := checked_input x_array size
  let y := checked_input y_array size
  let m0 : checked_mem :=
    { s := checked_fresh size, h := checked_fresh size, y_prime := checked_fresh size,
      p := checked_fresh size, a := checked_fresh size, b := checked_fresh size,
      c := checked_fresh size, d := checked_fresh size }
  let m1 ← steffen_calc_checked_left x y m0
  let m2 ← steffen_calc_checked_loop1 x y (size - 1 - 1) m1
  let m3 ← steffen_calc_checked_right size m2
  steffen_calc_checked_loop2 y (size - 1) m3

/-- An array of `size` doubles whose cells `lo .. hi - 1` have been written with
the values of `f` and no others. -/
def checked_filled (size lo hi : Nat) (f : Nat → ℚ) : checked_array :=
  { size := size, cell := fun j => if lo ≤ j ∧ j < hi then some (f j) else none }

/-! ## The C type `double` (IEEE 754 binary64)

A second translation of the fit and of the evaluators, on doubles with their
rounding, their infinities and NaN, for the statements that exact arithmetic
cannot decide. -/

/-- A value of the C type `double`: a finite value given by its sign bit and its
magnitude (so there are two zeros), an infinity with its sign, or a NaN. -/
inductive double where
  | fin (negative : Bool) (mag : ℚ)
  | inf (negative : Bool)
  | nan
  deriving DecidableEq

/-- The number of binary digits of `n`, counted in at most `fuel` steps. -/
def double_bit_length : Nat → Nat → Nat
  | 0, _ => 0
  | fuel + 1, n => if n = 0 then 0 else double_bit_length fuel (n / 2) + 1

/-- The integer part of the base-2 logarithm of `n / d`, for `n, d > 0`. -/
def double_ilog2 (n d : Nat) : Int :=
  let a := double_bit_length n n - 1
  let b := double_bit_length d d - 1
  if (if b ≤ a then d * 2 ^ (a - b) ≤ n else d ≤ n * 2 ^ (b - a)) then (a : Int) - b
  else (a : Int) - b - 1

/-- Rounding of a non-zero real result to binary64, to nearest with ties to
even: 53 significant bits, the spacing of the subnormals (`2^-1074`) below
`2^-1022`, an infinity when the rounded magnitude reaches `2^1024`, a zero with
the sign of the result when it rounds to nothing. -/
def double_round (q : ℚ) : double :=
  let negative := decide (q.num < 0)
  let n := q.num.natAbs
  let d := q.den
  let k := max (double_ilog2 n d) (-1022) - 52
  let N := n * 2 ^ (-k).toNat
  let D := d * 2 ^ k.toNat
  let f := N / D
  let r := N % D
  let m := if 2 * r < D then f else if D < 2 * r then f + 1 else if f % 2 = 0 then f else f + 1
  if 2 ^ 1024 ≤ m * 2 ^ k.toNat then double.inf negative
  else double.fin negative (mkRat (m * 2 ^ k.toNat) (2 ^ (-k).toNat))

/-- The double for the real result `q` of an operation; `zero_negative` is the
sign the operation gives to an exact zero. -/
def double_of_rat (zero_negative : Bool) (q : ℚ) : double :=
  if q.num = 0 then double.fin zero_negative 0 else double_round q

/-- The real value of a finite double given by sign bit and magnitude. -/
def double_signed (negative : Bool) (mag : ℚ) : ℚ := if negative = true then -mag else mag

/-- The real value of a finite double; an infinity or a NaN has none. -/
def double_real : double → Option ℚ
  | double.fin s m => some (double_signed s m)
  | _ => none

/-- The sum `u + v` of two doubles. -/
def double_add : double → double → double
  | double.fin s m, double.fin t n =>
    double_of_rat (s && t) (double_signed s m + double_signed t n)
  | double.fin _ _, double.inf t => double.inf t
  | double.inf s, double.fin _ _ => double.inf s
  | double.inf s, double.inf t => if s = t then double.inf s else double.nan
  | _, _ => double.nan

/-- The negation `-v` of a double. -/
def double_neg : double → double
  | double.fin s m => double.fin (!s) m
  | double.inf s => double.inf (!s)
  | double.nan => double.nan

/-- The difference `u - v` of two doubles. -/
def double_sub (u v : double) : double := double_add u (double_neg v)

/-- The product `u * v` of two doubles. -/
def double_mul : double → double → double
  | double.fin s m, double.fin t n =>
    double_of_rat (xor s t) (double_signed s m * double_signed t n)
  | double.fin s m, double.inf t => if m.num = 0 then double.nan else double.inf (xor s t)
  | double.inf s, double.fin t n => if n.num = 0 then double.nan else double.inf (xor s t)
  | double.inf s, double.inf t => double.inf (xor s t)
  | _, _ => double.nan

/-- The quotient `u / v` of two doubles. -/
def double_div : double → double → double
  | double.fin s m, double.fin t n =>
    if n.num = 0 then (if m.num = 0 then double.nan else double.inf (xor s t))
    else double_of_rat (xor s t) (double_signed s m / double_signed t n)
  | double.fin s _, double.inf t => double.fin (xor s t) 0
  | double.inf s, double.fin t _ => double.inf (xor s t)
  | _, _ => double.nan

instance : Add double := ⟨double_add⟩

instance : Sub double := ⟨double_sub⟩

instance : Mul double := ⟨double_mul⟩

instance : Div double := ⟨double_div⟩

/-- An integer constant of the source converted to `double`. -/
instance (n : Nat) : OfNat double n := ⟨double_of_rat false n⟩

/-- The comparison `u <= v` of two doubles: false when either is a NaN. -/
def double_le : double → double → Bool
  | double.fin s m, double.fin t n => decide (double_signed s m ≤ double_signed t n)
  | double.fin _ _, double.inf t => !t
  | double.inf s, double.fin _ _ => s
  | double.inf s, double.inf t => s || !t
  | _, _ => false

/-- The comparison `u < v` of two doubles: false when either is a NaN. -/
def double_lt (u v : double) : Bool := double_le u v && !double_le v u

/-- The C call `copysign(1.0, v)` on doubles; the sign of a NaN is not kept and
reads as positive. -/
def copysign1_double : double → double
  | double.fin s _ => double.fin s 1
  | double.inf s => double.fin s 1
  | double.nan => double.fin false 1

/-- The C function `fabs` on doubles. -/
def fabs_double : double → double
  | double.fin _ m => double.fin false m
  | double.inf _ => double.inf false
  | double.nan => double.nan

/-- The C function `fmin` on doubles: a NaN argument is treated as missing. -/
def fmin_double : double → double → double
  | double.nan, v => v
  | u, double.nan => u
  | u, v => if double_le u v = true then u else v

/-! ## The lookup, the fit and the evaluators on doubles -/

/-- Modelled from the spec: the loop of `gsl_interp_bsearch` on doubles. -/
def gsl_interp_bsearch_loop_double (x_array : Nat → double) (x : double) : Nat → Nat → Nat → Nat
  | 0, ilo, _ => ilo
  | fuel + 1, ilo, ihi =>
    if ihi > ilo + 1 then
      let i := (ihi + ilo) / 2
      if double_lt x (x_array i) = true then
        gsl_interp_bsearch_loop_double x_array x fuel ilo i
      else
        gsl_interp_bsearch_loop_double x_array x fuel i ihi
    else ilo

/-- Modelled from the spec: `gsl_interp_bsearch` on doubles. -/
def gsl_interp_bsearch_double (x_array : Nat → double) (x : double) (index_lo index_hi : Nat) :
    Nat :=
  gsl_interp_bsearch_loop_double x_array x (index_hi - index_lo) index_lo index_hi

/-- Modelled from the spec: `gsl_interp_accel_find` on doubles. -/
def gsl_interp_accel_find_double (a : gsl_interp_accel) (x_array : Nat → double) (size : Nat)
    (x : double) : Nat × gsl_interp_accel :=
  let miss : Nat × gsl_interp_accel :=
    let j := gsl_interp_bsearch_double x_array x 0 (size - 1)
    (j, { cache := some j, hit_count := a.hit_count, miss_count := a.miss_count + 1 })
  match a.cache with
  | none => miss
  | some k =>
    if k + 1 < size ∧ double_le (x_array k) x = true ∧ double_lt x (x_array (k + 1)) = true then
      (k, { a with hit_count := a.hit_count + 1 })
    else if k + 2 < size ∧ double_le (x_array (k + 1)) x = true
        ∧ double_lt x (x_array (k + 2)) = true then
      (k + 1, { cache := some (k + 1), hit_count := a.hit_count + 1, miss_count := a.miss_count })
    else if 0 < k ∧ k < size ∧ double_le (x_array (k - 1)) x = true
        ∧ double_lt x (x_array k) = true then
      (k - 1, { cache := some (k - 1), hit_count := a.hit_count + 1, miss_count := a.miss_count })
    else miss

/-- The struct `steffen_state_t` with its arrays of doubles. -/
structure steffen_state_double where
  a : Nat → double
  b : Nat → double
  c : Nat → double
  d : Nat → double

/-- The temporaries `s`, `h`, `y_prime`, `p` of `steffen_calc` as arrays of
doubles. -/
structure steffen_tmp_double where
  s : Nat → double
  h : Nat → double
  y_prime : Nat → double
  p : Nat → double

/-- Lines 117-119 of `steffen_calc` on doubles. -/
def steffen_calc_left_double (x_array y_array : Nat → double) (t : steffen_tmp_double) :
    steffen_tmp_double :=
  let h := Function.update t.h 0 (x_array 1 - x_array 0)
  let s := Function.update t.s 0 ((y_array 1 - y_array 0) / h 0)
  let y_prime := Function.update t.y_prime 0 (s 0)
  { s := s, h := h, y_prime := y_prime, p := t.p }

/-- Body of the first loop of `steffen_calc` (lines 125-132) on doubles. -/
def steffen_calc_body1_double (x_array y_array : Nat → double) (i : Nat)
    (t : steffen_tmp_double) : steffen_tmp_double :=
  let h := Function.update t.h i (x_array (i + 1) - x_array i)
  let s := Function.update t.s i ((y_array (i + 1) - y_array i) / h i)
  let p := Function.update t.p i ((s (i - 1) * h i + s i * h (i - 1)) / (h (i - 1) + h i))
  let y_prime := Function.update t.y_prime i
    ((copysign1_double (s (i - 1)) + copysign1_double (s i)) *
      fmin_double (fabs_double (s (i - 1)))
        (fmin_double (fabs_double (s i)) ((1 / 2) * fabs_double (p i))))
  { s := s, h := h, y_prime := y_prime, p := p }

/-- The first loop of `steffen_calc` on doubles after `k` iterations. -/
def steffen_calc_loop1_double (x_array y_array : Nat → double) :
    Nat → steffen_tmp_double → steffen_tmp_double
  | 0, t => t
  | k + 1, t =>
    steffen_calc_body1_double x_array y_array (k + 1) (steffen_calc_loop1_double x_array y_array k t)

/-- Line 137 of `steffen_calc` on doubles. -/
def steffen_calc_right_double (size : Nat) (t : steffen_tmp_double) : steffen_tmp_double :=
  { t with y_prime := Function.update t.y_prime (size - 1) (t.s (size - 2)) }

/-- Body of the second loop of `steffen_calc` (lines 143-146) on doubles. -/
def steffen_calc_body2_double (y_array : Nat → double) (t : steffen_tmp_double) (i : Nat)
    (st : steffen_state_double) : steffen_state_double :=
  { a := Function.update st.a i ((t.y_prime i + t.y_prime (i + 1) - 2 * t.s i) / t.h i / t.h i)
    b := Function.update st.b i ((3 * t.s i - 2 * t.y_prime i - t.y_prime (i + 1)) / t.h i)
    c := Function.update st.c i (t.y_prime i)
    d := Function.update st.d i (y_array i) }

/-- The second loop of `steffen_calc` on doubles after `k` iterations. -/
def steffen_calc_loop2_double (y_array : Nat → double) (t : steffen_tmp_double) :
    Nat → steffen_state_double → steffen_state_double
  | 0, st => st
  | k + 1, st => steffen_calc_body2_double y_array t k (steffen_calc_loop2_double y_array t k st)

/-- The function `steffen_calc` on doubles. -/
def steffen_calc_double (t0 : steffen_tmp_double) (x_array y_array : Nat → double)
    (st : steffen_state_double) (size : Nat) : steffen_state_double :=
  steffen_calc_loop2_double y_array
    (steffen_calc_right_double size
      (steffen_calc_loop1_double x_array y_array (size - 1 - 1)
        (steffen_calc_left_double x_array y_array t0)))
    (size - 1) st

/-- The function `steffen_init` on doubles. -/
def steffen_init_double (t0 : steffen_tmp_double) (vstate : steffen_state_double)
    (x_array y_array : Nat → double) (size : Nat) : gsl_status × steffen_state_double :=
  (GSL_SUCCESS, steffen_calc_double t0 x_array y_array vstate size)

/-- The index that the evaluators resolve for the query `x`, on doubles. -/
def steffen_lookup_double (x_array : Nat → double) (size : Nat) (x : double)
    (a : Option gsl_interp_accel) : Nat × Option gsl_interp_accel :=
  match a with
  | some acc => ((gsl_interp_accel_find_double acc x_array size x).1,
                 some (gsl_interp_accel_find_double acc x_array size x).2)
  | none => (gsl_interp_bsearch_double x_array x 0 (size - 1), none)

/-- The block `/* evaluate */` of `steffen_eval` (lines 199-211) on doubles. -/
def steffen_eval_block_double (state : steffen_state_double) (x_array : Nat → double)
    (index : Nat) (x : double) : double :=
  let x_lo := x_array index
  let delx := x - x_lo
  let a := state.a index
  let b := state.b index
  let c := state.c index
  let d := state.d index
  d + delx * (c + delx * (b + delx * a))

/-- The block `/* evaluate */` of `steffen_eval_deriv` (lines 238-248) on
doubles. -/
def steffen_eval_deriv_block_double (state : steffen_state_double) (x_array : Nat → double)
    (index : Nat) (x : double) : double :=
  let x_lo := x_array index
  let delx := x - x_lo
  let a := state.a index
  let b := state.b index
  let c := state.c index
  c + delx * (2 * b + delx * 3 * a)

/-- The function `steffen_eval` on doubles. -/
def steffen_eval_double (state : steffen_state_double) (x_array _y_array : Nat → double)
    (size : Nat) (x : double) (a : Option gsl_interp_accel) :
    gsl_status × double × Option gsl_interp_accel :=
  let r := steffen_lookup_double x_array size x a
  (GSL_SUCCESS, steffen_eval_block_double state x_array r.1 x, r.2)

/-- The function `steffen_eval_deriv` on doubles. -/
def steffen_eval_deriv_double (state : steffen_state_double) (x_array _y_array : Nat → double)
    (size : Nat) (x : double) (a : Option gsl_interp_accel) :
    gsl_status × double × Option gsl_interp_accel :=
  let r := steffen_lookup_double x_array size x a
  (GSL_SUCCESS, steffen_eval_deriv_block_double state x_array r.1 x, r.2)

/-- A C array literal of doubles read as a map from indices; indices past the
end read `+0`. -/
def ofList_double (l : List double) : Nat → double := fun i => l.getD i (double.fin false 0)

/-- The double that a decimal constant `q` of a source text denotes: the one
nearest to `q`. -/
def double_literal (q : ℚ) : double := double_of_rat false q

/-- Temporaries holding `+0`, one possible content of the stack on entry. -/
def tmp0_double : steffen_tmp_double :=
  { s := fun _ => double.fin false 0, h := fun _ => double.fin false 0,
    y_prime := fun _ => double.fin false 0, p := fun _ => double.fin false 0 }

/-- Coefficient arrays holding `+0`. -/
def state0_double : steffen_state_double :=
  { a := fun _ => double.fin false 0, b := fun _ => double.fin false 0,
    c := fun _ => double.fin false 0, d := fun _ => double.fin false 0 }

/-! ## Tables of doubles -/

/-- The abscissae `[0, 1, 2]`. -/
def test_double_x3 : Nat → double := ofList_double [0, 1, 2]

/-- The abscissae `[0, 1, 2, 3]`. -/
def test_double_x4 : Nat → double := ofList_double [0, 1, 2, 3]

/-- The abscissae `[0, 3, 6]`. -/
def test_double_x036 : Nat → double := ofList_double [0, 3, 6]

/-- The abscissae `[0, 3]`. -/
def test_double_x03 : Nat → double := ofList_double [0, 3]

/-- The ordinates `[0.1, 0.3, 0.5]`, increasing. -/
def test_double_rising : Nat → double :=
  ofList_double [double_literal (1 / 10), double_literal (3 / 10), double_literal (5 / 10)]

/-- The ordinates `[0, 0.7, 0.3, 0]`. -/
def test_double_bump : Nat → double :=
  ofList_double [0, double_literal (7 / 10), double_literal (3 / 10), 0]

/-- The ordinates `[0, 0.1, 0.1, 0.5]`. -/
def test_double_step : Nat → double :=
  ofList_double [0, double_literal (1 / 10), double_literal (1 / 10), double_literal (5 / 10)]

/-- The ordinates `[-1e308, 1e308, -1e308]`. -/
def test_double_huge : Nat → double :=
  ofList_double [double_neg (double_literal (10 ^ 308)), double_literal (10 ^ 308),
    double_neg (double_literal (10 ^ 308))]

/-- The query `0.9999999999999999`, the double next below `1`. -/
def test_double_query : double := double_literal (9999999999999999 / 10000000000000000)

end Steffen

/-! # Sparse matrix-vector product (sparse/spdgemv.c)

`gsl_vector` and `gsl_spmatrix` carry the fields the function reads.  The data
blocks are total maps from offsets to values; the vectors `x` and `y` and the
matrix own separate blocks. -/

namespace Spblas

open Steffen Steffen.gsl_status

/-- The struct `gsl_vector` of gsl_vector.h, as far as `gsl_spblas_dgemv` reads
it: length, stride and data block. -/
structure gsl_vector where
  size : Nat
  stride : Nat
  data : Nat → ℚ

/-- The struct `gsl_spmatrix` of gsl_spmatrix.h, as far as `gsl_spblas_dgemv`
reads it: the dimensions, the row indices `i`, the values `data`, the array `p`
(column pointers in compressed-column storage, column indices in triplet
storage), the number `nz` of stored entries and the storage flags. -/
structure gsl_spmatrix where
  size1 : Nat
  size2 : Nat
  i : Nat → Nat
  data : Nat → ℚ
  p : Nat → Nat
  nz : Nat
  flags : Nat

/-- The loop `for (j = 0; j < M; ++j) { Y[jy] = 0.0; jy += incY; }`
(lines 73-78) after `k` iterations, on the pair of the block and `jy`. -/
def dgemv_zero_loop (incY : Nat) : Nat → (Nat → ℚ) × Nat → (Nat → ℚ) × Nat
  | 0, s => s
  | k + 1, s =>
    let s1 := dgemv_zero_loop incY k s
    (Function.update s1.1 s1.2 0, s1.2 + incY)

/-- The loop `for (j = 0; j < M; ++j) { Y[jy] *= beta; jy += incY; }`
(lines 82-87) after `k` iterations, on the pair of the block and `jy`. -/
def dgemv_scale_loop (beta : ℚ) (incY : Nat) : Nat → (Nat → ℚ) × Nat → (Nat → ℚ) × Nat
  | 0, s => s
  | k + 1, s =>
    let s1 := dgemv_scale_loop beta incY k s
    (Function.update s1.1 s1.2 (s1.1 s1.2 * beta), s1.2 + incY)

/-- The inner loop `for (p = Ap[j]; p < Ap[j + 1]; ++p)` of the
compressed-column branch (lines 104-107) after `cnt` iterations from `p0`. -/
def dgemv_ccs_inner (alpha : ℚ) (Ai : Nat → Nat) (Ad X : Nat → ℚ) (incX incY : Nat) (j p0 : Nat) :
    Nat → (Nat → ℚ) → (Nat → ℚ)
  | 0, Y => Y
  | cnt + 1, Y =>
    let Y1 := dgemv_ccs_inner alpha Ai Ad X incX incY j p0 cnt Y
    let p := p0 + cnt
    Function.update Y1 (Ai p * incY) (Y1 (Ai p * incY) + alpha * Ad p * X (j * incX))

/-- The outer loop `for (j = 0; j < N; ++j)` of the compressed-column branch
(lines 102-108) after `k` iterations. -/
def dgemv_ccs_loop (alpha : ℚ) (Ap Ai : Nat → Nat) (Ad X : Nat → ℚ) (incX incY : Nat) :
    Nat → (Nat → ℚ) → (Nat → ℚ)
  | 0, Y => Y
  | k + 1, Y =>
    dgemv_ccs_inner alpha Ai Ad X incX incY k (Ap k) (Ap (k + 1) - Ap k)
      (dgemv_ccs_loop alpha Ap Ai Ad X incX incY k Y)

/-- The loop `for (p = 0; p < A->nz; ++p)` of the triplet branch
(lines 115-118) after `k` iterations. -/
def dgemv_triplet_loop (alpha : ℚ) (Ai Aj : Nat → Nat) (Ad X : Nat → ℚ) (incX incY : Nat) :
    Nat → (Nat → ℚ) → (Nat → ℚ)
  | 0, Y => Y
  | k + 1, Y =>
    let Y1 := dgemv_triplet_loop alpha Ai Aj Ad X incX incY k Y
    Function.update Y1 (Ai k * incY) (Y1 (Ai k * incY) + alpha * Ad k * X (Aj k * incX))

/-- The function `gsl_spblas_dgemv`.  The macro `GSLSP_ISCCS` and the constant
`GSL_SPMATRIX_TRIPLET` of gsl_spmatrix.h are arguments; the test
`A->flags & GSL_SPMATRIX_TRIPLET` is true when the bitwise and is not zero.
Returns the status and the vector `y` after the call. -/
def gsl_spblas_dgemv (GSLSP_ISCCS : gsl_spmatrix → Bool) (GSL_SPMATRIX_TRIPLET : Nat)
    (alpha : ℚ) (A : gsl_spmatrix) (x : gsl_vector) (beta : ℚ) (y : gsl_vector) :
    gsl_status × gsl_vector :=
  let M := A.size1
  let N := A.size2
  if N ≠ x.size then (GSL_EBADLEN, y)
  else if M ≠ y.size then (GSL_EBADLEN, y)
  else
    let Y := y.data
    let incY := y.stride
    let Y1 : Nat → ℚ :=
      if beta = 0 then (dgemv_zero_loop incY M (Y, 0)).1
      else if beta ≠ 1 then (dgemv_scale_loop beta incY M (Y, 0)).1
      else Y
    if alpha = 0 then (GSL_SUCCESS, { y with data := Y1 })
    else
      let Ap := A.p
      let Ad := A.data
      let X := x.data
      let incX := x.stride
      if GSLSP_ISCCS A = true then
        let Ai := A.i
        (GSL_SUCCESS, { y with data := dgemv_ccs_loop alpha Ap Ai Ad X incX incY N Y1 })
      else if A.flags &&& GSL_SPMATRIX_TRIPLET ≠ 0 then
        let Ai := A.i
        let Aj := A.p
        (GSL_SUCCESS,
          { y with data := dgemv_triplet_loop alpha Ai Aj Ad X incX incY A.nz Y1 })
      else (GSL_EINVAL, { y with data := Y1 })

/-- The sum over the stored entries `(i, j, v)` of row `i` of `v * x[j]`: in
compressed-column storage the entries of column `j` are those at positions
`p[j] .. p[j+1] - 1`, in triplet storage entry `p` sits in column `p[p]`. -/
def stored_row_dot (ccs : Bool) (A : gsl_spmatrix) (x : gsl_vector) (i : Nat) : ℚ :=
  if ccs = true then
    ∑ j ∈ Finset.range A.size2, ∑ p ∈ Finset.Ico (A.p j) (A.p (j + 1)),
      if A.i p = i then A.data p * x.data (j * x.stride) else 0
  else
    ∑ p ∈ Finset.range A.nz,
      if A.i p = i then A.data p * x.data (A.p p * x.stride) else 0

/-- A 2 x 3 matrix with the entries `(0,0,1)`, `(1,0,2)`, `(0,2,3)`, `(1,2,4)`,
`(1,2,5)` in compressed-column storage: column pointers `[0,2,2,5]`. -/
def test_ccs : gsl_spmatrix :=
  { size1 := 2, size2 := 3, i := fun p => [0, 1, 0, 1, 1].getD p 0,
    data := ofList [1, 2, 3, 4, 5], p := fun j => [0, 2, 2, 5].getD j 0, nz := 5, flags := 2 }

/-- The same entries in triplet storage: column indices `[0,0,2,2,2]`. -/
def test_triplet : gsl_spmatrix :=
  { size1 := 2, size2 := 3, i := fun p => [0, 1, 0, 1, 1].getD p 0,
    data := ofList [1, 2, 3, 4, 5], p := fun p => [0, 0, 2, 2, 2].getD p 0, nz := 5, flags := 1 }

/-- A matrix with no storage flag set. -/
def test_noflag : gsl_spmatrix := { test_triplet with flags := 0 }

/-- One reading of the macro `GSLSP_ISCCS`: bit 1 of the flags. -/
def test_isccs (A : gsl_spmatrix) : Bool := A.flags &&& 2 ≠ 0

/-- The vector `[1, 10, 100]` with stride 1. -/
def test_x : gsl_vector := { size := 3, stride := 1, data := ofList [1, 10, 100] }

/-- The vector `[7, 9]` stored with stride 2. -/
def test_y : gsl_vector := { size := 2, stride := 2, data := ofList [7, 0, 9] }

end Spblas

/-! # Symmetric matrix-vector product (cblas/source_symv.h)

The body of source_symv.h with `BASE` read as exact rationals.  The index
variables of type `size_t` are integers, the blocks `X` and `Y` are total maps
from integer offsets to values, and `A` is a total map from offsets
`lda * i + j`.  The macro `OFFSET` of cblas.h is an argument. -/

namespace Cblas

/-- The enumeration `CBLAS_ORDER` of cblas.h. -/
inductive CBLAS_ORDER where
  | CblasRowMajor
  | CblasColMajor
  deriving DecidableEq, Repr

/-- The enumeration `CBLAS_UPLO` of cblas.h. -/
inductive CBLAS_UPLO where
  | CblasUpper
  | CblasLower
  deriving DecidableEq, Repr

open CBLAS_ORDER CBLAS_UPLO

/-- The variables an inner loop of the kernel changes: the block `Y`, `temp2`,
`jx` and `jy`. -/
structure symv_inner_state where
  Y : Int → ℚ
  temp2 : ℚ
  jx : Int
  jy : Int

/-- The variables an outer loop of the kernel changes: the block `Y`, `ix` and
`iy`. -/
structure symv_outer_state where
  Y : Int → ℚ
  ix : Int
  iy : Int

/-- The loop `for (i = 0; i < N; i++) { Y[iy] = 0.0; iy += incY; }`
(lines 34-37) after `k` iterations, on the pair of the block and `iy`. -/
def symv_zero_loop (incY : Int) : Nat → (Int → ℚ) × Int → (Int → ℚ) × Int
  | 0, s => s
  | k + 1, s =>
    let s1 := symv_zero_loop incY k s
    (Function.update s1.1 s1.2 0, s1.2 + incY)

/-- The loop `for (i = 0; i < N; i++) { Y[iy] *= beta; iy += incY; }`
(lines 40-43) after `k` iterations, on the pair of the block and `iy`. -/
def symv_scale_loop (beta : ℚ) (incY : Int) : Nat → (Int → ℚ) × Int → (Int → ℚ) × Int
  | 0, s => s
  | k + 1, s =>
    let s1 := symv_scale_loop beta incY k s
    (Function.update s1.1 s1.2 (s1.1 s1.2 * beta), s1.2 + incY)

/-- The inner loop `for (j = j_min; j < j_max; j++)` (lines 63-68 and 85-90)
after `t` iterations. -/
def symv_inner (A : Nat → ℚ) (lda : Nat) (X : Int → ℚ) (incX incY : Int) (temp1 : ℚ)
    (i j_min : Nat) : Nat → symv_inner_state → symv_inner_state
  | 0, s => s
  | t + 1, s =>
    let s1 := symv_inner A lda X incX incY temp1 i j_min t s
    let j := j_min + t
    { Y := Function.update s1.Y s1.jy (s1.Y s1.jy + temp1 * A (lda * i + j))
      temp2 := s1.temp2 + X s1.jx * A (lda * i + j)
      jx := s1.jx + incX
      jy := s1.jy + incY }

/-- The body of an outer loop up to the update of `ix` and `iy` (lines 56-69
and 78-91), for row `i` with the column range `j_min .. j_max - 1`. -/
def symv_row (OFFSET : Nat → Int → Int) (N : Nat) (alpha : ℚ) (A : Nat → ℚ) (lda : Nat)
    (X : Int → ℚ) (incX incY : Int) (i j_min j_max : Nat) (Y : Int → ℚ) (ix iy : Int) :
    Int → ℚ :=
  let temp1 := alpha * X ix
  let temp2 : ℚ := 0
  let jx := OFFSET N incX + j_min * incX
  let jy := OFFSET N incY + j_min * incY
  let Y1 := Function.update Y iy (Y iy + temp1 * A (lda * i + i))
  let r := symv_inner A lda X incX incY temp1 i j_min (j_max - j_min)
    { Y := Y1, temp2 := temp2, jx := jx, jy := jy }
  Function.update r.Y iy (r.Y iy + alpha * r.temp2)

/-- The loop `for (i = 0; i < N; i++)` of the first branch (lines 55-72) after
`k` iterations: rows `0 .. k - 1`, columns `i + 1 .. N - 1` of each. -/
def symv_upper_loop (OFFSET : Nat → Int → Int) (N : Nat) (alpha : ℚ) (A : Nat → ℚ) (lda : Nat)
    (X : Int → ℚ) (incX incY : Int) : Nat → symv_outer_state → symv_outer_state
  | 0, s => s
  | k + 1, s =>
    let s1 := symv_upper_loop OFFSET N alpha A lda X incX incY k s
    let i := k
    { Y := symv_row OFFSET N alpha A lda X incX incY i (i + 1) N s1.Y s1.ix s1.iy
      ix := s1.ix + incX
      iy := s1.iy + incY }

/-- The loop `for (i = N; i > 0 && i--;)` of the second branch (lines 77-94)
after `k` iterations: rows `N - 1` down to `N - k`, columns `0 .. i - 1` of
each. -/
def symv_lower_loop (OFFSET : Nat → Int → Int) (N : Nat) (alpha : ℚ) (A : Nat → ℚ) (lda : Nat)
    (X : Int → ℚ) (incX incY : Int) : Nat → symv_outer_state → symv_outer_state
  | 0, s => s
  | k + 1, s =>
    let s1 := symv_lower_loop OFFSET N alpha A lda X incX incY k s
    let i := N - 1 - k
    { Y := symv_row OFFSET N alpha A lda X incX incY i 0 i s1.Y s1.ix s1.iy
      ix := s1.ix - incX
      iy := s1.iy - incY }

/-- The body of source_symv.h.  Returns the block `Y` after the call, or `none`
where the kernel calls `BLAS_ERROR`. -/
def source_symv (OFFSET : Nat → Int → Int) (order : CBLAS_ORDER) (Uplo : CBLAS_UPLO) (N : Nat)
    (alpha : ℚ) (A : Nat → ℚ) (lda : Nat) (X : Int → ℚ) (incX : Int) (beta : ℚ) (Y : Int → ℚ)
    (incY : Int) : Option (Int → ℚ) :=
  if alpha = 0 ∧ beta = 1 then some Y
  else
    let Y1 : Int → ℚ :=
      if beta = 0 then (symv_zero_loop incY N (Y, OFFSET N incY)).1
      else if beta ≠ 1 then (symv_scale_loop beta incY N (Y, OFFSET N incY)).1
      else Y
    if alpha = 0 then some Y1
    else if (order = CblasRowMajor ∧ Uplo = CblasUpper)
        ∨ (order = CblasColMajor ∧ Uplo = CblasLower) then
      some (symv_upper_loop OFFSET N alpha A lda X incX incY N
        { Y := Y1, ix := OFFSET N incX, iy := OFFSET N incY }).Y
    else if (order = CblasRowMajor ∧ Uplo = CblasLower)
        ∨ (order = CblasColMajor ∧ Uplo = CblasUpper) then
      some (symv_lower_loop OFFSET N alpha A lda X incX incY N
        { Y := Y1, ix := OFFSET N incX + ((N : Int) - 1) * incX,
          iy := OFFSET N incY + ((N : Int) - 1) * incY }).Y
    else none

/-- The entry `S[k][j]` of the symmetric matrix that one triangle of `A`
stands for: `A[lda*min(k,j) + max(k,j)]` for (RowMajor, Upper) and
(ColMajor, Lower), `A[lda*max(k,j) + min(k,j)]` for (RowMajor, Lower) and
(ColMajor, Upper). -/
def symv_entry (order : CBLAS_ORDER) (Uplo : CBLAS_UPLO) (A : Nat → ℚ) (lda : Nat)
    (k j : Nat) : ℚ :=
  if (order = CblasRowMajor ∧ Uplo = CblasUpper)
      ∨ (order = CblasColMajor ∧ Uplo = CblasLower) then
    A (lda * min k j + max k j)
  else A (lda * max k j + min k j)

/-- What row `i` with the column range `j_min .. j_max - 1` adds to element `m`
of `Y`, before the factor `alpha`; `Xl j` is element `j` of `X`. -/
def symv_row_term (A : Nat → ℚ) (lda : Nat) (Xl : Nat → ℚ) (i j_min j_max m : Nat) : ℚ :=
  (if m = i then Xl i * A (lda * i + i) + ∑ j ∈ Finset.Ico j_min j_max, Xl j * A (lda * i + j)
    else 0)
  + (if j_min ≤ m ∧ m < j_max then Xl i * A (lda * i + m) else 0)

/-- The macro `OFFSET` as cblas.h defines it, for the examples. -/
def test_OFFSET (N : Nat) (inc : Int) : Int := if inc > 0 then 0 else ((N : Int) - 1) * (-inc)

/-- A 3 x 3 block with leading dimension 3, entries `1 .. 9` row by row. -/
def test_A : Nat → ℚ := Steffen.ofList [1, 2, 3, 4, 5, 6, 7, 8, 9]

/-- The vector `[1, 10, 100]` at offsets `0, 1, 2`. -/
def test_X : Int → ℚ := fun z => Steffen.ofList [1, 10, 100] z.toNat

/-- The vector `[7, 8, 9]` at offsets `0, 2, 4`. -/
def test_Y : Int → ℚ := fun z => Steffen.ofList [7, 0, 8, 0, 9] z.toNat

/-- The matrices `A` and `A'` agree on the triangle that (order, Uplo) refers
to, diagonal included: at the positions `lda*i + j` with `i <= j < N` for
(RowMajor, Upper) and (ColMajor, Lower), at the positions `lda*i + j` with
`j <= i < N` for (RowMajor, Lower) and (ColMajor, Upper). -/
def agree_on_triangle (order : CBLAS_ORDER) (Uplo : CBLAS_UPLO) (N lda : Nat) (A A' : Nat → ℚ) :
    Prop :=
  if (order = CblasRowMajor ∧ Uplo = CblasUpper)
      ∨ (order = CblasColMajor ∧ Uplo = CblasLower) then
    ∀ i j, i ≤ j → j < N → A (lda * i + j) = A' (lda * i + j)
  else ∀ i j, j ≤ i → i < N → A (lda * i + j) = A' (lda * i + j)

/-- A block whose entries off the upper triangle are changed: `test_A` with
the entries below the diagonal replaced by `-1`. -/
def test_A_upper : Nat → ℚ := Steffen.ofList [1, 2, 3, -1, 5, 6, -1, -1, 9]

/-- A symmetric 3 x 3 block with leading dimension 3. -/
def test_A_sym : Nat → ℚ := Steffen.ofList [1, 2, 3, 2, 5, 6, 3, 6, 9]

end Cblas

/-! # The Gaussian variates (randist/gauss.c) -/

namespace Randist

/-! The type `gsl_rng` and the call `gsl_rng_uniform` of gsl_rng.h, and the
functions `sqrt` and `log` of math.h, are arguments: a generator state of any
type with a draw that returns a value and the state after it, and two
functions from doubles to doubles. -/

/-- The loop `do { ... } while (r2 > 1.0 || r2 == 0);` of `gsl_ran_gaussian`
(lines 11-21) run for at most `fuel` iterations: the locals `x`, `y`, `r2` on
exit and the generator after the draws, or `none` if no iteration within the
fuel ends the loop. -/
def gsl_ran_gaussian_loop {gsl_rng : Type} (gsl_rng_uniform : gsl_rng → ℚ × gsl_rng) :
    Nat → gsl_rng → Option (ℚ × ℚ × ℚ × gsl_rng)
  | 0, _ => none
  | fuel + 1, r =>
    let d1 := gsl_rng_uniform r
    let x := -1 + 2 * d1.1
    let d2 := gsl_rng_uniform d1.2
    let y := -1 + 2 * d2.1
    let r2 := x * x + y * y
    if r2 > 1 ∨ r2 = 0 then gsl_ran_gaussian_loop gsl_rng_uniform fuel d2.2
    else some (x, y, r2, d2.2)

/-- The function `gsl_ran_gaussian` (lines 6-24): the returned value and the
generator after the call, or `none` if the loop does not end within the fuel. -/
def gsl_ran_gaussian {gsl_rng : Type} (gsl_rng_uniform : gsl_rng → ℚ × gsl_rng) (sqrt log : ℚ → ℚ) (fuel : Nat)
    (r : gsl_rng) : Option (ℚ × gsl_rng) :=
  match gsl_ran_gaussian_loop gsl_rng_uniform fuel r with
  | none => none
  | some (_, y, r2, r1) => some (y * sqrt (-2 * log r2 / r2), r1)

/-- The loop of `gsl_ran_bivariate_gaussian` (lines 38-48) run for at most
`fuel` iterations: the locals `u`, `v`, `r2` on exit and the generator after the
draws, or `none` if no iteration within the fuel ends the loop. -/
def gsl_ran_bivariate_gaussian_loop {gsl_rng : Type} (gsl_rng_uniform : gsl_rng → ℚ × gsl_rng) :
    Nat → gsl_rng → Option (ℚ × ℚ × ℚ × gsl_rng)
  | 0, _ => none
  | fuel + 1, r =>
    let d1 := gsl_rng_uniform r
    let u := -1 + 2 * d1.1
    let d2 := gsl_rng_uniform d1.2
    let v := -1 + 2 * d2.1
    let r2 := u * u + v * v
    if r2 > 1 ∨ r2 = 0 then gsl_ran_bivariate_gaussian_loop gsl_rng_uniform fuel d2.2
    else some (u, v, r2, d2.2)

/-- The function `gsl_ran_bivariate_gaussian` (lines 33-54): the values written
to `*x` and `*y` and the generator after the call, or `none` if the loop does
not end within the fuel. -/
def gsl_ran_bivariate_gaussian {gsl_rng : Type} (gsl_rng_uniform : gsl_rng → ℚ × gsl_rng) (sqrt log : ℚ → ℚ)
    (fuel : Nat) (r : gsl_rng) : Option (ℚ × ℚ × gsl_rng) :=
  match gsl_ran_bivariate_gaussian_loop gsl_rng_uniform fuel r with
  | none => none
  | some (u, v, r2, r1) =>
    let scale := sqrt (-2 * log r2 / r2)
    some (u * scale, v * scale, r1)

/-- A generator that hands out the values `0, 0, 1/2, 1/2, 3/4, 3/4` in turn
(then zeros); its state is the number of values handed out. -/
def test_rng (r : Nat) : ℚ × Nat := (Steffen.ofList [0, 0, 1 / 2, 1 / 2, 3 / 4, 3 / 4] r, r + 1)

/-- A generator that hands out `1/2`, then `0`, then zeros. -/
def test_rng_boundary (r : Nat) : ℚ × Nat := (Steffen.ofList [1 / 2, 0] r, r + 1)

/-- A generator that always hands out `0`. -/
def test_rng_zero (r : Nat) : ℚ × Nat := (0, r + 1)

/-- A stand-in for `log` on doubles that is `<= 0` on `(0, 1]`. -/
def test_log (t : ℚ) : ℚ := t - 1

/-- A stand-in for `sqrt` on doubles: `3/2` for the root of `2`, zero elsewhere. -/
def test_sqrt (t : ℚ) : ℚ := if t = 2 then 3 / 2 else 0

end Randist

/-! # Theorems about the Steffen interpolation -/

namespace Steffen

open gsl_status

/-! ## Facts about the index lookup -/

/-- Loop invariant of the bisection, for any array: the result stays inside
the bracket, and each side of the returned segment either is the bracket's own
end or bounds the query. -/
theorem gsl_interp_bsearch_loop_inv (x_array : Nat → ℚ) (x : ℚ) (lo hi : Nat) :
    ∀ (fuel ilo ihi : Nat), ihi - ilo ≤ fuel → lo ≤ ilo → ilo < ihi → ihi ≤ hi →
      (ilo = lo ∨ x_array ilo ≤ x) → (ihi = hi ∨ x < x_array ihi) →
      lo ≤ gsl_interp_bsearch_loop x_array x fuel ilo ihi ∧
      gsl_interp_bsearch_loop x_array x fuel ilo ihi < hi ∧
      (gsl_interp_bsearch_loop x_array x fuel ilo ihi = lo ∨
        x_array (gsl_interp_bsearch_loop x_array x fuel ilo ihi) ≤ x) ∧
      (gsl_interp_bsearch_loop x_array x fuel ilo ihi + 1 = hi ∨
        x < x_array (gsl_interp_bsearch_loop x_array x fuel ilo ihi + 1)) := by
  intro fuel
  induction fuel with
  | zero =>
    intro ilo ihi hf _ hlt
    omega
  | succ n ih =>
    intro ilo ihi hf hlo hlt hhi hL hR
    unfold gsl_interp_bsearch_loop
    by_cases hw : ihi > ilo + 1
    · have hm1 : ilo < (ihi + ilo) / 2 := by omega
      have hm2 : (ihi + ilo) / 2 < ihi := by omega
      simp only [hw, if_true]
      by_cases hc : x_array ((ihi + ilo) / 2) > x
      · simp only [hc, if_true]
        exact ih ilo ((ihi + ilo) / 2) (by omega) hlo hm1 (by omega) hL (Or.inr hc)
      · simp only [hc, if_false]
        exact ih ((ihi + ilo) / 2) ihi (by omega) (by omega) hm2 hhi
          (Or.inr (not_lt.mp hc)) hR
    · simp only [hw, if_false]
      have he : ilo + 1 = ihi := by omega
      refine ⟨hlo, by omega, hL, ?_⟩
      rw [he]
      exact hR

/-- Contract of `gsl_interp_bsearch` (spec §4.1) on a non-empty bracket. -/
theorem gsl_interp_bsearch_inv (x_array : Nat → ℚ) (x : ℚ) (lo hi : Nat) (h : lo < hi) :
    lo ≤ gsl_interp_bsearch x_array x lo hi ∧
    gsl_interp_bsearch x_array x lo hi < hi ∧
    (gsl_interp_bsearch x_array x lo hi = lo ∨
      x_array (gsl_interp_bsearch x_array x lo hi) ≤ x) ∧
    (gsl_interp_bsearch x_array x lo hi + 1 = hi ∨
      x < x_array (gsl_interp_bsearch x_array x lo hi + 1)) :=
  gsl_interp_bsearch_loop_inv x_array x lo hi (hi - lo) lo hi le_rfl le_rfl h le_rfl
    (Or.inl rfl) (Or.inl rfl)

theorem StrictlyIncreasing.lt {x_array : Nat → ℚ} {size : Nat}
    (hx : StrictlyIncreasing x_array size) :
    ∀ {i j : Nat}, i < j → j < size → x_array i < x_array j := by
  intro i j hij
  induction j with
  | zero => omega
  | succ k ih =>
    intro hk
    rcases Nat.lt_succ_iff_lt_or_eq.mp hij with h | h
    · exact lt_trans (ih h (by omega)) (hx k hk)
    · subst h
      exact hx i hk

theorem StrictlyIncreasing.le {x_array : Nat → ℚ} {size : Nat}
    (hx : StrictlyIncreasing x_array size) {i j : Nat} (hij : i ≤ j) (hj : j < size) :
    x_array i ≤ x_array j := by
  rcases Nat.lt_or_eq_of_le hij with h | h
  · exact le_of_lt (hx.lt h hj)
  · subst h
    exact le_rfl

/-- On a strictly increasing table the search finds the segment holding `x`:
any segment `i` with `x_array[i] <= x < x_array[i+1]` is the one returned. -/
theorem gsl_interp_bsearch_eq_of_mem {x_array : Nat → ℚ} {size : Nat}
    (hx : StrictlyIncreasing x_array size) {x : ℚ} {i : Nat} (hi : i + 1 < size)
    (h1 : x_array i ≤ x) (h2 : x < x_array (i + 1)) :
    gsl_interp_bsearch x_array x 0 (size - 1) = i := by
  obtain ⟨_, hb, hL, hR⟩ := gsl_interp_bsearch_inv x_array x 0 (size - 1) (by omega)
  generalize gsl_interp_bsearch x_array x 0 (size - 1) = j at hb hL hR
  rcases Nat.lt_trichotomy j i with hlt | heq | hgt
  · exfalso
    rcases hR with hR | hR
    · omega
    · have := hx.le (show j + 1 ≤ i by omega) (by omega)
      linarith
  · exact heq
  · exfalso
    rcases hL with hL | hL
    · omega
    · have := hx.le (show i + 1 ≤ j by omega) (by omega)
      linarith

/-- At or above the last sample the search returns the last segment. -/
theorem gsl_interp_bsearch_eq_last {x_array : Nat → ℚ} {size : Nat}
    (hx : StrictlyIncreasing x_array size) {x : ℚ} (hs : 2 ≤ size)
    (h1 : x_array (size - 1) ≤ x) :
    gsl_interp_bsearch x_array x 0 (size - 1) = size - 2 := by
  obtain ⟨_, hb, _, hR⟩ := gsl_interp_bsearch_inv x_array x 0 (size - 1) (by omega)
  generalize gsl_interp_bsearch x_array x 0 (size - 1) = j at hb hR
  rcases hR with hR | hR
  · omega
  · exfalso
    have := hx.le (show j + 1 ≤ size - 1 by omega) (by omega)
    linarith

/-- Below the second sample the search returns the first segment. -/
theorem gsl_interp_bsearch_eq_first {x_array : Nat → ℚ} {size : Nat}
    (hx : StrictlyIncreasing x_array size) {x : ℚ} (hs : 2 ≤ size)
    (h1 : x < x_array 1) :
    gsl_interp_bsearch x_array x 0 (size - 1) = 0 := by
  obtain ⟨_, hb, hL, _⟩ := gsl_interp_bsearch_inv x_array x 0 (size - 1) (by omega)
  generalize gsl_interp_bsearch x_array x 0 (size - 1) = j at hb hL
  rcases hL with hL | hL
  · exact hL
  · by_contra hne
    have := hx.le (show 1 ≤ j by omega) (by omega)
    linarith

/-- The search is monotone in the query on a strictly increasing table. -/
theorem gsl_interp_bsearch_mono {x_array : Nat → ℚ} {size : Nat}
    (hx : StrictlyIncreasing x_array size) (hs : 2 ≤ size) {u v : ℚ} (huv : u ≤ v) :
    gsl_interp_bsearch x_array u 0 (size - 1) ≤ gsl_interp_bsearch x_array v 0 (size - 1) := by
  obtain ⟨_, hbu, hLu, _⟩ := gsl_interp_bsearch_inv x_array u 0 (size - 1) (by omega)
  obtain ⟨_, hbv, _, hRv⟩ := gsl_interp_bsearch_inv x_array v 0 (size - 1) (by omega)
  generalize gsl_interp_bsearch x_array u 0 (size - 1) = ju at hbu hLu
  generalize gsl_interp_bsearch x_array v 0 (size - 1) = jv at hbv hRv
  by_contra hlt
  rcases hLu with hLu | hLu
  · omega
  · rcases hRv with hRv | hRv
    · omega
    · have := hx.le (show jv + 1 ≤ ju by omega) (by omega)
      linarith

/-! ## The fit: what the loops of `steffen_calc` leave behind -/

/-- After `k` iterations of the first loop, `h` and `s` hold their closed forms
at `0 .. k`, `y_prime[0]` is the first slope and `y_prime[1 .. k]` hold the loop
value, whatever the stack held before. -/
theorem steffen_calc_loop1_spec (x_array y_array : Nat → ℚ) (t0 : steffen_tmp) :
    ∀ k : Nat,
      (∀ j, j ≤ k →
        (steffen_calc_loop1 x_array y_array k (steffen_calc_left x_array y_array t0)).h j
            = steffen_h x_array j ∧
        (steffen_calc_loop1 x_array y_array k (steffen_calc_left x_array y_array t0)).s j
            = steffen_s x_array y_array j) ∧
      (steffen_calc_loop1 x_array y_array k (steffen_calc_left x_array y_array t0)).y_prime 0
          = steffen_s x_array y_array 0 ∧
      (∀ j, 1 ≤ j → j ≤ k →
        (steffen_calc_loop1 x_array y_array k (steffen_calc_left x_array y_array t0)).y_prime j
            = steffen_y_prime_interior x_array y_array j) := by
  intro k
  induction k with
  | zero =>
    refine ⟨?_, ?_, ?_⟩
    · intro j hj
      have : j = 0 := by omega
      subst this
      simp [steffen_calc_loop1, steffen_calc_left, steffen_h, steffen_s]
    · simp [steffen_calc_loop1, steffen_calc_left, steffen_h, steffen_s]
    · intro j h1 h2
      omega
  | succ n ih =>
    obtain ⟨ihhs, ih0, ihy⟩ := ih
    have hn := ihhs n le_rfl
    have hh : (steffen_calc_body1 x_array y_array (n + 1)
        (steffen_calc_loop1 x_array y_array n (steffen_calc_left x_array y_array t0))).h
          (n + 1) = steffen_h x_array (n + 1) := by
      simp [steffen_calc_body1, steffen_h]
    have hs : (steffen_calc_body1 x_array y_array (n + 1)
        (steffen_calc_loop1 x_array y_array n (steffen_calc_left x_array y_array t0))).s
          (n + 1) = steffen_s x_array y_array (n + 1) := by
      simp [steffen_calc_body1, steffen_h, steffen_s]
    refine ⟨?_, ?_, ?_⟩
    · intro j hj
      rcases Nat.lt_or_eq_of_le hj with hlt | heq
      · have hne : j ≠ n + 1 := by omega
        have := ihhs j (by omega)
        simpa [steffen_calc_loop1, steffen_calc_body1, Function.update_noteq hne] using this
      · subst heq
        exact ⟨hh, hs⟩
    · have hne : (0 : Nat) ≠ n + 1 := by omega
      simpa [steffen_calc_loop1, steffen_calc_body1, Function.update_noteq hne] using ih0
    · intro j h1 hj
      rcases Nat.lt_or_eq_of_le hj with hlt | heq
      · have hne : j ≠ n + 1 := by omega
        have := ihy j h1 (by omega)
        simpa [steffen_calc_loop1, steffen_calc_body1, Function.update_noteq hne] using this
      · subst heq
        have hne : n ≠ n + 1 := by omega
        have e : n + 1 - 1 = n := rfl
        simp only [steffen_calc_loop1, steffen_calc_body1, Function.update_apply, e, hne,
          if_true, if_false]
        rw [hn.1, hn.2]
        simp only [steffen_y_prime_interior, steffen_p, steffen_s, steffen_h, e]

/-- The temporaries when the second loop starts: closed forms of `h` and `s` at
`0 .. size-2` and of `y_prime` at `0 .. size-1`. -/
theorem steffen_calc_tmp_spec (t0 : steffen_tmp) (x_array y_array : Nat → ℚ) (size : Nat)
    (hs : 2 ≤ size) :
    (∀ j, j + 1 < size →
      (steffen_calc_tmp t0 x_array y_array size).h j = steffen_h x_array j ∧
      (steffen_calc_tmp t0 x_array y_array size).s j = steffen_s x_array y_array j) ∧
    (∀ j, j < size →
      (steffen_calc_tmp t0 x_array y_array size).y_prime j
        = steffen_y_prime x_array y_array size j) := by
  obtain ⟨hhs, h0, hy⟩ := steffen_calc_loop1_spec x_array y_array t0 (size - 1 - 1)
  refine ⟨?_, ?_⟩
  · intro j hj
    have := hhs j (by omega)
    simpa [steffen_calc_tmp, steffen_calc_right] using this
  · intro j hj
    unfold steffen_y_prime
    by_cases h1 : j = size - 1
    · subst h1
      have := (hhs (size - 2) (by omega)).2
      simpa [steffen_calc_tmp, steffen_calc_right] using this
    · by_cases h2 : j = 0
      · subst h2
        simpa [steffen_calc_tmp, steffen_calc_right, Function.update_noteq h1, h1] using h0
      · have := hy j (by omega) (by omega)
        simpa [steffen_calc_tmp, steffen_calc_right, Function.update_noteq h1, h1, h2] using this

/-- After `k` iterations the second loop has written the four coefficients at
`0 .. k-1` from the temporaries and left every other entry as it was. -/
theorem steffen_calc_loop2_spec (y_array : Nat → ℚ) (t : steffen_tmp) (st : steffen_state_t) :
    ∀ k : Nat,
      (∀ i, i < k →
        (steffen_calc_loop2 y_array t k st).a i
            = (t.y_prime i + t.y_prime (i + 1) - 2 * t.s i) / t.h i / t.h i ∧
        (steffen_calc_loop2 y_array t k st).b i
            = (3 * t.s i - 2 * t.y_prime i - t.y_prime (i + 1)) / t.h i ∧
        (steffen_calc_loop2 y_array t k st).c i = t.y_prime i ∧
        (steffen_calc_loop2 y_array t k st).d i = y_array i) ∧
      (∀ i, k ≤ i →
        (steffen_calc_loop2 y_array t k st).a i = st.a i ∧
        (steffen_calc_loop2 y_array t k st).b i = st.b i ∧
        (steffen_calc_loop2 y_array t k st).c i = st.c i ∧
        (steffen_calc_loop2 y_array t k st).d i = st.d i) := by
  intro k
  induction k with
  | zero =>
    refine ⟨?_, ?_⟩
    · intro i hi
      omega
    · intro i _
      simp [steffen_calc_loop2]
  | succ n ih =>
    obtain ⟨ih1, ih2⟩ := ih
    refine ⟨?_, ?_⟩
    · intro i hi
      rcases Nat.lt_or_eq_of_le (Nat.lt_succ_iff.mp hi) with hlt | heq
      · have hne : i ≠ n := by omega
        have := ih1 i hlt
        simpa [steffen_calc_loop2, steffen_calc_body2, Function.update_noteq hne] using this
      · subst heq
        simp [steffen_calc_loop2, steffen_calc_body2]
    · intro i hi
      have hne : i ≠ n := by omega
      have := ih2 i (by omega)
      simpa [steffen_calc_loop2, steffen_calc_body2, Function.update_noteq hne] using this

/-- The coefficients `steffen_calc` stores for segment `i` of a table with at
least two samples, in closed form. -/
theorem steffen_calc_coeffs (t0 : steffen_tmp) (x_array y_array : Nat → ℚ) (st : steffen_state_t)
    (size : Nat) (hs : 2 ≤ size) (i : Nat) (hi : i + 1 < size) :
    (steffen_calc t0 x_array y_array st size).a i
      = (steffen_y_prime x_array y_array size i + steffen_y_prime x_array y_array size (i + 1)
          - 2 * steffen_s x_array y_array i) / steffen_h x_array i / steffen_h x_array i ∧
    (steffen_calc t0 x_array y_array st size).b i
      = (3 * steffen_s x_array y_array i - 2 * steffen_y_prime x_array y_array size i
          - steffen_y_prime x_array y_array size (i + 1)) / steffen_h x_array i ∧
    (steffen_calc t0 x_array y_array st size).c i = steffen_y_prime x_array y_array size i ∧
    (steffen_calc t0 x_array y_array st size).d i = y_array i := by
  obtain ⟨hhs, hy⟩ := steffen_calc_tmp_spec t0 x_array y_array size hs
  have h := (steffen_calc_loop2_spec y_array (steffen_calc_tmp t0 x_array y_array size) st
    (size - 1)).1 i (by omega)
  rw [(hhs i hi).1, (hhs i hi).2, hy i (by omega), hy (i + 1) hi] at h
  exact h

/-! ## Steffen's bounds on the derivative estimates -/

theorem fabs_eq_abs (v : ℚ) : fabs v = |v| := by
  unfold fabs
  split_ifs with h
  · exact (abs_of_neg h).symm
  · exact (abs_of_nonneg (not_lt.mp h)).symm

theorem fmin_eq_min (u v : ℚ) : fmin u v = min u v := by
  unfold fmin
  split_ifs with h
  · exact (min_eq_left h).symm
  · exact (min_eq_right (le_of_lt (not_le.mp h))).symm

/-- The loop value of `y_prime` is bounded by each of the two slopes it is
computed from. -/
theorem y_prime_interior_bounded (s1 s2 p : ℚ) :
    SlopeBounded s1
      ((copysign1 s1 + copysign1 s2) * fmin (fabs s1) (fmin (fabs s2) ((1 / 2) * fabs p))) ∧
    SlopeBounded s2
      ((copysign1 s1 + copysign1 s2) * fmin (fabs s1) (fmin (fabs s2) ((1 / 2) * fabs p))) := by
  have hm0 : 0 ≤ fmin (fabs s1) (fmin (fabs s2) ((1 / 2) * fabs p)) := by
    simp only [fmin_eq_min, fabs_eq_abs]
    exact le_min (abs_nonneg _) (le_min (abs_nonneg _) (by positivity))
  have hm1 : fmin (fabs s1) (fmin (fabs s2) ((1 / 2) * fabs p)) ≤ |s1| := by
    simp only [fmin_eq_min, fabs_eq_abs]
    exact min_le_left _ _
  have hm2 : fmin (fabs s1) (fmin (fabs s2) ((1 / 2) * fabs p)) ≤ |s2| := by
    simp only [fmin_eq_min, fabs_eq_abs]
    exact le_trans (min_le_right _ _) (min_le_left _ _)
  generalize fmin (fabs s1) (fmin (fabs s2) ((1 / 2) * fabs p)) = m at hm0 hm1 hm2
  unfold SlopeBounded copysign1
  by_cases h1 : s1 < 0 <;> by_cases h2 : s2 < 0
  · rw [abs_of_neg h1] at hm1
    rw [abs_of_neg h2] at hm2
    simp only [h1, h2, if_true]
    refine ⟨⟨?_, ?_⟩, ⟨?_, ?_⟩⟩ <;> intro hs <;> constructor <;> linarith
  · rw [abs_of_neg h1] at hm1
    rw [abs_of_nonneg (not_lt.mp h2)] at hm2
    simp only [h1, h2, if_true, if_false]
    refine ⟨⟨?_, ?_⟩, ⟨?_, ?_⟩⟩ <;> intro hs <;> constructor <;> linarith
  · rw [abs_of_nonneg (not_lt.mp h1)] at hm1
    rw [abs_of_neg h2] at hm2
    simp only [h1, h2, if_true, if_false]
    refine ⟨⟨?_, ?_⟩, ⟨?_, ?_⟩⟩ <;> intro hs <;> constructor <;> linarith
  · rw [abs_of_nonneg (not_lt.mp h1)] at hm1
    rw [abs_of_nonneg (not_lt.mp h2)] at hm2
    simp only [h1, h2, if_false]
    refine ⟨⟨?_, ?_⟩, ⟨?_, ?_⟩⟩ <;> intro hs <;> constructor <;> linarith

/-- The estimate at the left end of segment `i` is bounded by the slope of
segment `i`. -/
theorem steffen_y_prime_bounded_left (x_array y_array : Nat → ℚ) (size i : Nat)
    (hi : i + 1 < size) :
    SlopeBounded (steffen_s x_array y_array i) (steffen_y_prime x_array y_array size i) := by
  unfold steffen_y_prime
  have h1 : ¬ i = size - 1 := by omega
  rw [if_neg h1]
  by_cases h0 : i = 0
  · rw [if_pos h0]
    subst h0
    constructor <;> intro h <;> constructor <;> linarith
  · rw [if_neg h0]
    exact (y_prime_interior_bounded _ _ _).2

/-- The estimate at the right end of segment `i` is bounded by the slope of
segment `i`. -/
theorem steffen_y_prime_bounded_right (x_array y_array : Nat → ℚ) (size i : Nat)
    (hi : i + 1 < size) :
    SlopeBounded (steffen_s x_array y_array i) (steffen_y_prime x_array y_array size (i + 1)) := by
  unfold steffen_y_prime
  by_cases h1 : i + 1 = size - 1
  · rw [if_pos h1]
    have : size - 2 = i := by omega
    rw [this]
    constructor <;> intro h <;> constructor <;> linarith
  · rw [if_neg h1, if_neg (Nat.succ_ne_zero i)]
    have := (y_prime_interior_bounded (steffen_s x_array y_array i)
      (steffen_s x_array y_array (i + 1)) (steffen_p x_array y_array (i + 1))).1
    simpa [steffen_y_prime_interior] using this

/-! ## The cubic of one segment -/

/-- Derivative of the Hermite cubic in the normalised offset `t`, for a
non-negative slope. -/
theorem hermite_deriv_nonneg {s u v t : ℚ} (hs : 0 ≤ s) (hu0 : 0 ≤ u) (hu : u ≤ 2 * s)
    (hv0 : 0 ≤ v) (hv : v ≤ 2 * s) (ht0 : 0 ≤ t) (ht1 : t ≤ 1) :
    0 ≤ u * ((1 - t) * (1 - 3 * t)) + v * (t * (3 * t - 2)) + 6 * s * (t * (1 - t)) := by
  have h1t : 0 ≤ 1 - t := by linarith
  have hA : 0 ≤ u * ((1 - t) * (1 - 3 * t)) ∨
      2 * s * ((1 - t) * (1 - 3 * t)) ≤ u * ((1 - t) * (1 - 3 * t)) := by
    rcases le_total 0 (1 - 3 * t) with h | h
    · exact Or.inl (mul_nonneg hu0 (mul_nonneg h1t h))
    · exact Or.inr (mul_le_mul_of_nonpos_right hu (mul_nonpos_of_nonneg_of_nonpos h1t h))
  have hB : 0 ≤ v * (t * (3 * t - 2)) ∨
      2 * s * (t * (3 * t - 2)) ≤ v * (t * (3 * t - 2)) := by
    rcases le_total 0 (3 * t - 2) with h | h
    · exact Or.inl (mul_nonneg hv0 (mul_nonneg ht0 h))
    · exact Or.inr (mul_le_mul_of_nonpos_right hv (mul_nonpos_of_nonneg_of_nonpos ht0 h))
  have c00 : 0 ≤ s * (t * (1 - t)) := mul_nonneg hs (mul_nonneg ht0 h1t)
  have c10 : 0 ≤ s * (1 - t) := mul_nonneg hs h1t
  have c01 : 0 ≤ s * t := mul_nonneg hs ht0
  have c11 : 0 ≤ s * (1 - 3 * t + 3 * (t * t)) := by
    apply mul_nonneg hs
    nlinarith [sq_nonneg (t - 1 / 2)]
  rcases hA with hA | hA <;> rcases hB with hB | hB <;> nlinarith

/-- Value of the Hermite cubic in the normalised offset `t`, for a
non-negative slope. -/
theorem hermite_value_bounds {s u v t : ℚ} (hs : 0 ≤ s) (hu0 : 0 ≤ u) (hu : u ≤ 2 * s)
    (hv0 : 0 ≤ v) (hv : v ≤ 2 * s) (ht0 : 0 ≤ t) (ht1 : t ≤ 1) :
    0 ≤ u * (t * ((1 - t) * (1 - t))) + v * (t * t * (t - 1)) + s * (t * t * (3 - 2 * t)) ∧
    u * (t * ((1 - t) * (1 - t))) + v * (t * t * (t - 1)) + s * (t * t * (3 - 2 * t)) ≤ s := by
  have h1t : 0 ≤ 1 - t := by linarith
  have hP : 0 ≤ t * ((1 - t) * (1 - t)) := mul_nonneg ht0 (mul_nonneg h1t h1t)
  have hN : t * t * (t - 1) ≤ 0 :=
    mul_nonpos_of_nonneg_of_nonpos (mul_nonneg ht0 ht0) (by linarith)
  have a1 : 0 ≤ u * (t * ((1 - t) * (1 - t))) := mul_nonneg hu0 hP
  have a2 : u * (t * ((1 - t) * (1 - t))) ≤ 2 * s * (t * ((1 - t) * (1 - t))) :=
    mul_le_mul_of_nonneg_right hu hP
  have b1 : v * (t * t * (t - 1)) ≤ 0 := mul_nonpos_of_nonneg_of_nonpos hv0 hN
  have b2 : 2 * s * (t * t * (t - 1)) ≤ v * (t * t * (t - 1)) :=
    mul_le_mul_of_nonpos_right hv hN
  have c1 : 0 ≤ s * (t * t) := mul_nonneg hs (mul_nonneg ht0 ht0)
  have c2 : 0 ≤ s * ((1 - t) * (1 - t)) := mul_nonneg hs (mul_nonneg h1t h1t)
  constructor <;> nlinarith

/-- The first derivative of a segment's cubic, with the coefficients written as
`steffen_calc` computes them, in the normalised offset `delx / h`. -/
theorem segment_deriv_eq {h s u v delx : ℚ} (hh : h ≠ 0) :
    u + delx * (2 * ((3 * s - 2 * u - v) / h) + delx * 3 * ((u + v - 2 * s) / h / h))
      = u * ((1 - delx / h) * (1 - 3 * (delx / h)))
        + v * (delx / h * (3 * (delx / h) - 2))
        + 6 * s * (delx / h * (1 - delx / h)) := by
  field_simp
  ring

/-- The value of a segment's cubic above its left sample, with the coefficients
written as `steffen_calc` computes them, in the normalised offset `delx / h`. -/
theorem segment_value_eq {h s u v delx : ℚ} (hh : h ≠ 0) :
    delx * (u + delx * ((3 * s - 2 * u - v) / h + delx * ((u + v - 2 * s) / h / h)))
      = h * (u * (delx / h * ((1 - delx / h) * (1 - delx / h)))
        + v * (delx / h * (delx / h) * (delx / h - 1))
        + s * (delx / h * (delx / h) * (3 - 2 * (delx / h)))) := by
  field_simp
  ring

/-- On `0 <= delx <= h` the first derivative of a segment's cubic has the sign
of the segment slope. -/
theorem segment_deriv_sign {h s u v delx : ℚ} (hh : 0 < h) (hu : SlopeBounded s u)
    (hv : SlopeBounded s v) (h0 : 0 ≤ delx) (h1 : delx ≤ h) :
    0 ≤ s * (u + delx * (2 * ((3 * s - 2 * u - v) / h)
      + delx * 3 * ((u + v - 2 * s) / h / h))) := by
  rw [segment_deriv_eq (ne_of_gt hh)]
  have ht0 : 0 ≤ delx / h := div_nonneg h0 (le_of_lt hh)
  have ht1 : delx / h ≤ 1 := (div_le_one hh).mpr h1
  rcases le_total 0 s with hs | hs
  · obtain ⟨hu0, hu2⟩ := hu.1 hs
    obtain ⟨hv0, hv2⟩ := hv.1 hs
    exact mul_nonneg hs (hermite_deriv_nonneg hs hu0 hu2 hv0 hv2 ht0 ht1)
  · obtain ⟨hu2, hu0⟩ := hu.2 hs
    obtain ⟨hv2, hv0⟩ := hv.2 hs
    have key := hermite_deriv_nonneg (s := -s) (u := -u) (v := -v) (t := delx / h)
      (by linarith) (by linarith) (by linarith) (by linarith) (by linarith) ht0 ht1
    apply mul_nonneg_of_nonpos_of_nonpos hs
    linarith

/-- On `0 <= delx <= h` the cubic of a segment stays between its two samples:
its rise above the left sample lies between `0` and `s * h`. -/
theorem segment_value_between {h s u v delx : ℚ} (hh : 0 < h) (hu : SlopeBounded s u)
    (hv : SlopeBounded s v) (h0 : 0 ≤ delx) (h1 : delx ≤ h) :
    (0 ≤ s → 0 ≤ delx * (u + delx * ((3 * s - 2 * u - v) / h
          + delx * ((u + v - 2 * s) / h / h))) ∧
        delx * (u + delx * ((3 * s - 2 * u - v) / h
          + delx * ((u + v - 2 * s) / h / h))) ≤ s * h) ∧
    (s ≤ 0 → s * h ≤ delx * (u + delx * ((3 * s - 2 * u - v) / h
          + delx * ((u + v - 2 * s) / h / h))) ∧
        delx * (u + delx * ((3 * s - 2 * u - v) / h
          + delx * ((u + v - 2 * s) / h / h))) ≤ 0) := by
  rw [segment_value_eq (ne_of_gt hh)]
  have ht0 : 0 ≤ delx / h := div_nonneg h0 (le_of_lt hh)
  have ht1 : delx / h ≤ 1 := (div_le_one hh).mpr h1
  constructor
  · intro hs
    obtain ⟨hu0, hu2⟩ := hu.1 hs
    obtain ⟨hv0, hv2⟩ := hv.1 hs
    obtain ⟨k1, k2⟩ := hermite_value_bounds hs hu0 hu2 hv0 hv2 ht0 ht1
    constructor
    · exact mul_nonneg (le_of_lt hh) k1
    · rw [mul_comm s h]
      exact mul_le_mul_of_nonneg_left k2 (le_of_lt hh)
  · intro hs
    obtain ⟨hu2, hu0⟩ := hu.2 hs
    obtain ⟨hv2, hv0⟩ := hv.2 hs
    obtain ⟨k1, k2⟩ := hermite_value_bounds (s := -s) (u := -u) (v := -v) (t := delx / h)
      (by linarith) (by linarith) (by linarith) (by linarith) (by linarith) ht0 ht1
    have e1 := mul_nonneg (le_of_lt hh) k1
    have e2 := mul_le_mul_of_nonneg_left k2 (le_of_lt hh)
    constructor <;> nlinarith

/-- The width of a segment of a strictly increasing table is positive. -/
theorem steffen_h_pos {x_array : Nat → ℚ} {size : Nat} (hx : StrictlyIncreasing x_array size)
    {i : Nat} (hi : i + 1 < size) : 0 < steffen_h x_array i := by
  unfold steffen_h
  linarith [hx i hi]

/-- The slope of a segment times its width is the rise of the data. -/
theorem steffen_s_mul_h {x_array : Nat → ℚ} {size : Nat} (hx : StrictlyIncreasing x_array size)
    (y_array : Nat → ℚ) {i : Nat} (hi : i + 1 < size) :
    steffen_s x_array y_array i * steffen_h x_array i = y_array (i + 1) - y_array i := by
  unfold steffen_s
  exact div_mul_cancel₀ _ (ne_of_gt (steffen_h_pos hx hi))

/-- What `steffen_eval` returns once the index is known. -/
theorem steffen_eval_none (state : steffen_state_t) (x_array y_array : Nat → ℚ) (size : Nat)
    (x : ℚ) :
    steffen_eval state x_array y_array size x none
      = (GSL_SUCCESS,
          state.d (gsl_interp_bsearch x_array x 0 (size - 1))
            + (x - x_array (gsl_interp_bsearch x_array x 0 (size - 1)))
              * (state.c (gsl_interp_bsearch x_array x 0 (size - 1))
                + (x - x_array (gsl_interp_bsearch x_array x 0 (size - 1)))
                  * (state.b (gsl_interp_bsearch x_array x 0 (size - 1))
                    + (x - x_array (gsl_interp_bsearch x_array x 0 (size - 1)))
                      * state.a (gsl_interp_bsearch x_array x 0 (size - 1)))),
          none) := rfl

/-- What `steffen_eval_deriv` returns once the index is known. -/
theorem steffen_eval_deriv_none (state : steffen_state_t) (x_array y_array : Nat → ℚ)
    (size : Nat) (x : ℚ) :
    steffen_eval_deriv state x_array y_array size x none
      = (GSL_SUCCESS,
          state.c (gsl_interp_bsearch x_array x 0 (size - 1))
            + (x - x_array (gsl_interp_bsearch x_array x 0 (size - 1)))
              * (2 * state.b (gsl_interp_bsearch x_array x 0 (size - 1))
                + (x - x_array (gsl_interp_bsearch x_array x 0 (size - 1))) * 3
                  * state.a (gsl_interp_bsearch x_array x 0 (size - 1))),
          none) := rfl

/-- The cubic of segment `i` of a fitted table reaches the next sample at the
right end of the segment. -/
theorem steffen_calc_right_end (t0 : steffen_tmp) (x_array y_array : Nat → ℚ)
    (st : steffen_state_t) (size : Nat) (hs : 2 ≤ size) (hx : StrictlyIncreasing x_array size)
    (i : Nat) (hi : i + 1 < size) :
    (steffen_calc t0 x_array y_array st size).d i
      + (x_array (i + 1) - x_array i) * ((steffen_calc t0 x_array y_array st size).c i
        + (x_array (i + 1) - x_array i) * ((steffen_calc t0 x_array y_array st size).b i
          + (x_array (i + 1) - x_array i) * (steffen_calc t0 x_array y_array st size).a i))
      = y_array (i + 1) := by
  obtain ⟨ha, hb, hc, hd⟩ := steffen_calc_coeffs t0 x_array y_array st size hs i hi
  rw [ha, hb, hc, hd]
  have hh : steffen_h x_array i ≠ 0 := ne_of_gt (steffen_h_pos hx hi)
  have hsh := steffen_s_mul_h hx y_array hi
  have e : x_array (i + 1) - x_array i = steffen_h x_array i := rfl
  rw [e]
  generalize steffen_y_prime x_array y_array size i = u
  generalize steffen_y_prime x_array y_array size (i + 1) = v
  generalize steffen_s x_array y_array i = s at hsh
  generalize steffen_h x_array i = h at hh hsh
  have : y_array i + h * (u + h * ((3 * s - 2 * u - v) / h + h * ((u + v - 2 * s) / h / h)))
      = y_array i + s * h := by
    field_simp
    ring
  rw [this, hsh]
  ring

/-- The first derivative of the cubic of segment `i` of a fitted table at the
right end of the segment is the derivative estimate of the next sample. -/
theorem steffen_calc_right_end_deriv (t0 : steffen_tmp) (x_array y_array : Nat → ℚ)
    (st : steffen_state_t) (size : Nat) (hs : 2 ≤ size) (hx : StrictlyIncreasing x_array size)
    (i : Nat) (hi : i + 1 < size) :
    (steffen_calc t0 x_array y_array st size).c i
      + (x_array (i + 1) - x_array i) * (2 * (steffen_calc t0 x_array y_array st size).b i
        + (x_array (i + 1) - x_array i) * 3 * (steffen_calc t0 x_array y_array st size).a i)
      = steffen_y_prime x_array y_array size (i + 1) := by
  obtain ⟨ha, hb, hc, _⟩ := steffen_calc_coeffs t0 x_array y_array st size hs i hi
  rw [ha, hb, hc]
  have hh : steffen_h x_array i ≠ 0 := ne_of_gt (steffen_h_pos hx hi)
  have e : x_array (i + 1) - x_array i = steffen_h x_array i := rfl
  rw [e]
  generalize steffen_y_prime x_array y_array size i = u
  generalize steffen_y_prime x_array y_array size (i + 1) = v
  generalize steffen_s x_array y_array i = s
  generalize steffen_h x_array i = h at hh
  field_simp
  ring

/-! ## Claims about the fitted interpolant -/

/-- C1. Exactness at nodes: for every table with at least three samples and
strictly increasing abscissae, and every sample index `i`, the bisection at
`x_array[i]` resolves to segment `i` (to the last segment `size - 2` for the
last sample), and `steffen_eval` on the state filled by `steffen_init` returns
`GSL_SUCCESS` and exactly `y_array[i]`. -/
theorem steffen_eval_exact_at_nodes (t0 : steffen_tmp) (vstate : steffen_state_t)
    (x_array y_array : Nat → ℚ) (size : Nat) (hs : 3 ≤ size)
    (hx : StrictlyIncreasing x_array size) (i : Nat) (hi : i < size) :
    (steffen_init t0 vstate x_array y_array size).1 = GSL_SUCCESS ∧
    gsl_interp_bsearch x_array (x_array i) 0 (size - 1) = (if i < size - 1 then i else size - 2) ∧
    steffen_eval (steffen_init t0 vstate x_array y_array size).2 x_array y_array size
      (x_array i) none = (GSL_SUCCESS, y_array i, none) := by
  refine ⟨rfl, ?_, ?_⟩
  · by_cases h : i < size - 1
    · rw [if_pos h]
      exact gsl_interp_bsearch_eq_of_mem hx (by omega) le_rfl (hx i (by omega))
    · rw [if_neg h]
      have e : i = size - 1 := by omega
      subst e
      exact gsl_interp_bsearch_eq_last hx (by omega) le_rfl
  · rw [steffen_eval_none]
    by_cases h : i < size - 1
    · rw [gsl_interp_bsearch_eq_of_mem hx (show i + 1 < size by omega) le_rfl (hx i (by omega))]
      have hd := (steffen_calc_coeffs t0 x_array y_array vstate size (by omega) i
        (by omega)).2.2.2
      simp only [steffen_init, hd, sub_self, zero_mul, add_zero]
    · have e : i = size - 1 := by omega
      subst e
      rw [gsl_interp_bsearch_eq_last hx (by omega) le_rfl]
      have key := steffen_calc_right_end t0 x_array y_array vstate size (by omega) hx (size - 2)
        (by omega)
      have e2 : size - 2 + 1 = size - 1 := by omega
      rw [e2] at key
      simp only [steffen_init, key]

/-- C1 at the samples of `test_steffen`: the last sample resolves to the last
segment and is reproduced. -/
theorem steffen_eval_exact_at_nodes_witness :
    StrictlyIncreasing test_steffen_data 5 ∧
    gsl_interp_bsearch test_steffen_data (test_steffen_data 4) 0 (5 - 1) = 3 ∧
    steffen_eval (steffen_init tmp0 state0 test_steffen_data test_steffen_data 5).2
      test_steffen_data test_steffen_data 5 (test_steffen_data 4) none
      = (GSL_SUCCESS, test_steffen_data 4, none) := by
  have hx : StrictlyIncreasing test_steffen_data 5 := by
    intro i hi
    have : i = 0 ∨ i = 1 ∨ i = 2 ∨ i = 3 := by omega
    rcases this with h | h | h | h <;> subst h <;> norm_num [test_steffen_data, ofList]
  have h := steffen_eval_exact_at_nodes tmp0 state0 test_steffen_data test_steffen_data 5
    (by decide) hx 4 (by decide)
  exact ⟨hx, h.2.1, h.2.2⟩

/-! ## Linear data -/

/-- The loop value of `y_prime` between two equal slopes `m`, with the parabola
slope `m` as well, is `m`. -/
theorem y_prime_interior_of_equal (m : ℚ) :
    (copysign1 m + copysign1 m) * fmin (fabs m) (fmin (fabs m) ((1 / 2) * fabs m)) = m := by
  have hm : fmin (fabs m) (fmin (fabs m) ((1 / 2) * fabs m)) = (1 / 2) * |m| := by
    simp only [fmin_eq_min, fabs_eq_abs]
    have h : (1 / 2) * |m| ≤ |m| := by linarith [abs_nonneg m]
    rw [min_eq_right h, min_eq_right h]
  rw [hm]
  unfold copysign1
  by_cases h : m < 0
  · simp only [h, if_true]
    rw [abs_of_neg h]
    ring
  · simp only [h, if_false]
    rw [abs_of_nonneg (not_lt.mp h)]
    ring

/-- On samples of the line `m * x + q` every derivative estimate is `m`. -/
theorem steffen_y_prime_of_line {x_array y_array : Nat → ℚ} {size : Nat} (hs : 2 ≤ size)
    (hx : StrictlyIncreasing x_array size) {m q : ℚ}
    (hy : ∀ j, j < size → y_array j = m * x_array j + q) :
    (∀ i, i + 1 < size → steffen_s x_array y_array i = m) ∧
    (∀ i, i < size → steffen_y_prime x_array y_array size i = m) := by
  have hS : ∀ i, i + 1 < size → steffen_s x_array y_array i = m := by
    intro i hi
    have hh : steffen_h x_array i ≠ 0 := ne_of_gt (steffen_h_pos hx hi)
    unfold steffen_s
    rw [div_eq_iff hh, hy i (by omega), hy (i + 1) hi]
    unfold steffen_h
    ring
  refine ⟨hS, ?_⟩
  intro i hi
  unfold steffen_y_prime
  by_cases h1 : i = size - 1
  · rw [if_pos h1]
    exact hS (size - 2) (by omega)
  · rw [if_neg h1]
    by_cases h0 : i = 0
    · rw [if_pos h0]
      exact hS 0 (by omega)
    · rw [if_neg h0]
      have e : i - 1 + 1 = i := by omega
      have hp : steffen_p x_array y_array i = m := by
        unfold steffen_p
        rw [hS (i - 1) (by omega), hS i (by omega)]
        have h1 := steffen_h_pos hx (show i - 1 + 1 < size by omega)
        have h2 := steffen_h_pos hx (show i + 1 < size by omega)
        have hne : steffen_h x_array (i - 1) + steffen_h x_array i ≠ 0 := by
          have : 0 < steffen_h x_array (i - 1) + steffen_h x_array i := add_pos h1 h2
          exact ne_of_gt this
        rw [div_eq_iff hne]
        ring
      unfold steffen_y_prime_interior
      rw [hp, hS (i - 1) (by omega), hS i (by omega)]
      exact y_prime_interior_of_equal m

/-! ## Integration -/

/-- The term the loop adds for segment `i` is the difference of the
antiderivative at the two bounds. -/
theorem steffen_integ_term_eq (state : steffen_state_t) (x_array : Nat → ℚ) (a b : ℚ)
    (index_a index_b i : Nat) :
    (1 / 4) * state.a i
        * ((if i = index_b then b else x_array (i + 1))
              * (if i = index_b then b else x_array (i + 1))
              * (if i = index_b then b else x_array (i + 1))
              * (if i = index_b then b else x_array (i + 1))
            - (if i = index_a then a else x_array i) * (if i = index_a then a else x_array i)
              * (if i = index_a then a else x_array i)
              * (if i = index_a then a else x_array i))
      + (1 / 3) * state.b i
        * ((if i = index_b then b else x_array (i + 1))
              * (if i = index_b then b else x_array (i + 1))
              * (if i = index_b then b else x_array (i + 1))
            - (if i = index_a then a else x_array i) * (if i = index_a then a else x_array i)
              * (if i = index_a then a else x_array i))
      + (1 / 2) * state.c i
        * ((if i = index_b then b else x_array (i + 1))
              * (if i = index_b then b else x_array (i + 1))
            - (if i = index_a then a else x_array i) * (if i = index_a then a else x_array i))
      + state.d i
        * ((if i = index_b then b else x_array (i + 1))
            - (if i = index_a then a else x_array i))
      = steffen_integ_term state x_array a b index_a index_b i := by
  unfold steffen_integ_term steffen_integ_prim
  ring

/-- Without a zero-width segment ahead, the loop runs to `index_b` and adds the
term of every segment it passes. -/
theorem steffen_eval_integ_loop_success (state : steffen_state_t) (x_array y_array : Nat → ℚ)
    (a b : ℚ) (index_a index_b : Nat) :
    ∀ (fuel i : Nat) (result : ℚ), index_b + 1 - i ≤ fuel →
      (∀ j, i ≤ j → j ≤ index_b → x_array (j + 1) ≠ x_array j) →
      steffen_eval_integ_loop state x_array y_array a b index_a index_b fuel i result
        = (GSL_SUCCESS, result + ∑ j ∈ Finset.Ico i (index_b + 1),
            steffen_integ_term state x_array a b index_a index_b j) := by
  intro fuel
  induction fuel with
  | zero =>
    intro i result hf _
    have : index_b + 1 ≤ i := by omega
    simp [steffen_eval_integ_loop, Finset.Ico_eq_empty_of_le this]
  | succ n ih =>
    intro i result hf hne
    unfold steffen_eval_integ_loop
    by_cases hi : i ≤ index_b
    · have hdx : x_array (i + 1) - x_array i ≠ 0 := sub_ne_zero.mpr (hne i le_rfl hi)
      simp only [hi, if_true, ne_eq, hdx, not_false_eq_true]
      rw [steffen_integ_term_eq, ih (i + 1) _ (by omega) (fun j h1 h2 => hne j (by omega) h2),
        Finset.sum_eq_sum_Ico_succ_bot (show i < index_b + 1 by omega), add_assoc]
    · have : index_b + 1 ≤ i := by omega
      simp [hi, Finset.Ico_eq_empty_of_le this]

/-- With a zero-width segment ahead, the loop stops there with `GSL_EINVAL` and
a result of zero. -/
theorem steffen_eval_integ_loop_einval (state : steffen_state_t) (x_array y_array : Nat → ℚ)
    (a b : ℚ) (index_a index_b : Nat) :
    ∀ (fuel i : Nat) (result : ℚ), index_b + 1 - i ≤ fuel →
      (∃ j, i ≤ j ∧ j ≤ index_b ∧ x_array (j + 1) = x_array j) →
      steffen_eval_integ_loop state x_array y_array a b index_a index_b fuel i result
        = (GSL_EINVAL, 0) := by
  intro fuel
  induction fuel with
  | zero =>
    intro i result hf hex
    obtain ⟨j, h1, h2, _⟩ := hex
    omega
  | succ n ih =>
    intro i result hf hex
    obtain ⟨j, h1, h2, h3⟩ := hex
    unfold steffen_eval_integ_loop
    have hi : i ≤ index_b := by omega
    by_cases hdx : x_array (i + 1) - x_array i = 0
    · simp [hi, hdx]
    · simp only [hi, if_true, ne_eq, hdx, not_false_eq_true]
      have hji : j ≠ i := by
        intro e
        subst e
        exact hdx (sub_eq_zero.mpr h3)
      exact ih (i + 1) _ (by omega) ⟨j, by omega, h2, h3⟩

/-- Splitting the range of touched segments at the segment of an intermediate
bound `c`: the terms of `[a, c]` and of `[c, b]` add up to the terms of
`[a, b]`. -/
theorem steffen_integ_term_sum_split (state : steffen_state_t) (x_array : Nat → ℚ)
    (a c b : ℚ) (ia ic ib : Nat) (h1 : ia ≤ ic) (h2 : ic ≤ ib) :
    ∑ j ∈ Finset.Ico ia (ic + 1), steffen_integ_term state x_array a c ia ic j
      + ∑ j ∈ Finset.Ico ic (ib + 1), steffen_integ_term state x_array c b ic ib j
      = ∑ j ∈ Finset.Ico ia (ib + 1), steffen_integ_term state x_array a b ia ib j := by
  rw [Finset.sum_Ico_succ_top h1,
    Finset.sum_eq_sum_Ico_succ_bot (show ic < ib + 1 by omega),
    ← Finset.sum_Ico_consecutive _ h1 (show ic ≤ ib + 1 by omega),
    Finset.sum_eq_sum_Ico_succ_bot (show ic < ib + 1 by omega)
      (fun j => steffen_integ_term state x_array a b ia ib j)]
  have e1 : ∑ j ∈ Finset.Ico ia ic, steffen_integ_term state x_array a c ia ic j
      = ∑ j ∈ Finset.Ico ia ic, steffen_integ_term state x_array a b ia ib j := by
    apply Finset.sum_congr rfl
    intro j hj
    rw [Finset.mem_Ico] at hj
    have n1 : j ≠ ic := by omega
    have n2 : j ≠ ib := by omega
    simp only [steffen_integ_term, n1, n2, if_false]
  have e2 : ∑ j ∈ Finset.Ico (ic + 1) (ib + 1), steffen_integ_term state x_array c b ic ib j
      = ∑ j ∈ Finset.Ico (ic + 1) (ib + 1), steffen_integ_term state x_array a b ia ib j := by
    apply Finset.sum_congr rfl
    intro j hj
    rw [Finset.mem_Ico] at hj
    have n1 : j ≠ ic := by omega
    have n2 : j ≠ ia := by omega
    simp only [steffen_integ_term, n1, n2, if_false]
  have e3 : steffen_integ_term state x_array a c ia ic ic
      + steffen_integ_term state x_array c b ic ib ic
      = steffen_integ_term state x_array a b ia ib ic := by
    simp only [steffen_integ_term, if_true]
    ring
  rw [e1, e2, ← e3]
  ring

/-- What `steffen_eval_integ` returns on a range without zero-width segment:
`GSL_SUCCESS` and the sum of the loop's terms over `index_a .. index_b`. -/
theorem steffen_eval_integ_success (state : steffen_state_t) (x_array y_array : Nat → ℚ)
    (size : Nat) (acc : Option gsl_interp_accel) (a b : ℚ)
    (hne : ∀ j, (steffen_eval_integ_indices x_array size acc a b).1 ≤ j →
      j ≤ (steffen_eval_integ_indices x_array size acc a b).2.1 →
      x_array (j + 1) ≠ x_array j) :
    steffen_eval_integ state x_array y_array size acc a b
      = (GSL_SUCCESS,
          ∑ j ∈ Finset.Ico (steffen_eval_integ_indices x_array size acc a b).1
              ((steffen_eval_integ_indices x_array size acc a b).2.1 + 1),
            steffen_integ_term state x_array a b
              (steffen_eval_integ_indices x_array size acc a b).1
              (steffen_eval_integ_indices x_array size acc a b).2.1 j,
          (steffen_eval_integ_indices x_array size acc a b).2.2) := by
  unfold steffen_eval_integ
  simp only []
  rw [steffen_eval_integ_loop_success state x_array y_array a b _ _ _ _ 0 le_rfl hne, zero_add]

/-- C6. Integral additivity: for every table with at least three samples and
strictly increasing abscissae, fitted by `steffen_init`, and every
`a <= c <= b` (inside the table span or not), the three calls
`steffen_eval_integ (a, c)`, `(c, b)` and `(a, b)` with indices resolved by the
bounded binary search return `GSL_SUCCESS`, the resolved indices are ordered
`index_a <= index_c <= index_b`, and the first two results add up exactly to
the third. -/
theorem steffen_eval_integ_additive (t0 : steffen_tmp) (vstate : steffen_state_t)
    (x_array y_array : Nat → ℚ) (size : Nat) (hs : 3 ≤ size)
    (hx : StrictlyIncreasing x_array size) (a c b : ℚ) (hac : a ≤ c) (hcb : c ≤ b) :
    (steffen_eval_integ (steffen_init t0 vstate x_array y_array size).2 x_array y_array size
      none a c).1 = GSL_SUCCESS ∧
    (steffen_eval_integ (steffen_init t0 vstate x_array y_array size).2 x_array y_array size
      none c b).1 = GSL_SUCCESS ∧
    (steffen_eval_integ (steffen_init t0 vstate x_array y_array size).2 x_array y_array size
      none a b).1 = GSL_SUCCESS ∧
    gsl_interp_bsearch x_array a 0 (size - 1) ≤ gsl_interp_bsearch x_array c 0 (size - 1) ∧
    gsl_interp_bsearch x_array c 0 (size - 1) ≤ gsl_interp_bsearch x_array b 0 (size - 1) ∧
    (steffen_eval_integ (steffen_init t0 vstate x_array y_array size).2 x_array y_array size
        none a c).2.1
      + (steffen_eval_integ (steffen_init t0 vstate x_array y_array size).2 x_array y_array size
        none c b).2.1
      = (steffen_eval_integ (steffen_init t0 vstate x_array y_array size).2 x_array y_array size
        none a b).2.1 := by
  have hne : ∀ (u v : ℚ) (j : Nat),
      (steffen_eval_integ_indices x_array size none u v).1 ≤ j →
      j ≤ (steffen_eval_integ_indices x_array size none u v).2.1 →
      x_array (j + 1) ≠ x_array j := by
    intro u v j _ h2
    have hb := (gsl_interp_bsearch_inv x_array v 0 (size - 1) (by omega)).2.1
    have h2' : j ≤ gsl_interp_bsearch x_array v 0 (size - 1) := h2
    exact ne_of_gt (hx j (by omega))
  have m1 := gsl_interp_bsearch_mono hx (show 2 ≤ size by omega) hac
  have m2 := gsl_interp_bsearch_mono hx (show 2 ≤ size by omega) hcb
  rw [steffen_eval_integ_success _ x_array y_array size none a c (hne a c),
    steffen_eval_integ_success _ x_array y_array size none c b (hne c b),
    steffen_eval_integ_success _ x_array y_array size none a b (hne a b)]
  refine ⟨rfl, rfl, rfl, m1, m2, ?_⟩
  exact steffen_integ_term_sum_split _ x_array a c b _ _ _ m1 m2

/-- C6 on the table `x = [0,1,2,3,4]`, `y = [0,2,1,3,0]` with `a = 1/2`,
`c = 3/2`, `b = 7/2`. -/
theorem steffen_eval_integ_additive_witness :
    StrictlyIncreasing test_steffen_data 5 ∧ ((1 / 2 : ℚ) ≤ 3 / 2 ∧ (3 / 2 : ℚ) ≤ 7 / 2) ∧
    (steffen_eval_integ (steffen_init tmp0 state0 test_steffen_data (ofList [0, 2, 1, 3, 0]) 5).2
        test_steffen_data (ofList [0, 2, 1, 3, 0]) 5 none (1 / 2) (3 / 2)).2.1
      + (steffen_eval_integ
          (steffen_init tmp0 state0 test_steffen_data (ofList [0, 2, 1, 3, 0]) 5).2
          test_steffen_data (ofList [0, 2, 1, 3, 0]) 5 none (3 / 2) (7 / 2)).2.1
      = (steffen_eval_integ
          (steffen_init tmp0 state0 test_steffen_data (ofList [0, 2, 1, 3, 0]) 5).2
          test_steffen_data (ofList [0, 2, 1, 3, 0]) 5 none (1 / 2) (7 / 2)).2.1 := by
  have hx : StrictlyIncreasing test_steffen_data 5 := by
    intro i hi
    have : i = 0 ∨ i = 1 ∨ i = 2 ∨ i = 3 := by omega
    rcases this with h | h | h | h <;> subst h <;> norm_num [test_steffen_data, ofList]
  have h1 : (1 / 2 : ℚ) ≤ 3 / 2 := by norm_num
  have h2 : (3 / 2 : ℚ) ≤ 7 / 2 := by norm_num
  exact ⟨hx, ⟨h1, h2⟩,
    (steffen_eval_integ_additive tmp0 state0 test_steffen_data (ofList [0, 2, 1, 3, 0]) 5
      (by decide) hx (1 / 2) (3 / 2) (7 / 2) h1 h2).2.2.2.2.2⟩

/-- C9. Zero-width segment during integration: for every state, table, bounds
and accelerator, with `index_a` and `index_b` the indices the call resolves, if
some segment `i` with `index_a <= i <= index_b` has `x_{i+1} = x_i` then
`steffen_eval_integ` returns `GSL_EINVAL` with the result reset to `0`, and if
no segment in that range has zero width it returns `GSL_SUCCESS`. -/
theorem steffen_eval_integ_zero_width (state : steffen_state_t) (x_array y_array : Nat → ℚ)
    (size : Nat) (acc : Option gsl_interp_accel) (a b : ℚ) :
    ((∃ i, (steffen_eval_integ_indices x_array size acc a b).1 ≤ i ∧
        i ≤ (steffen_eval_integ_indices x_array size acc a b).2.1 ∧
        x_array (i + 1) = x_array i) →
      (steffen_eval_integ state x_array y_array size acc a b).1 = GSL_EINVAL ∧
      (steffen_eval_integ state x_array y_array size acc a b).2.1 = 0) ∧
    ((¬ ∃ i, (steffen_eval_integ_indices x_array size acc a b).1 ≤ i ∧
        i ≤ (steffen_eval_integ_indices x_array size acc a b).2.1 ∧
        x_array (i + 1) = x_array i) →
      (steffen_eval_integ state x_array y_array size acc a b).1 = GSL_SUCCESS) := by
  constructor
  · intro hex
    unfold steffen_eval_integ
    simp only []
    rw [steffen_eval_integ_loop_einval state x_array y_array a b _ _ _ _ 0 le_rfl hex]
    exact ⟨rfl, rfl⟩
  · intro hno
    rw [steffen_eval_integ_success state x_array y_array size acc a b
      (fun j h1 h2 h3 => hno ⟨j, h1, h2, h3⟩)]

/-- C9 on the abscissae `[0, 1, 2, 2]`, whose last two samples coincide: the
integral from `1/2` to `2` touches segments `0 .. 2` and is rejected. -/
theorem steffen_eval_integ_zero_width_witness :
    (∃ i, (steffen_eval_integ_indices (ofList [0, 1, 2, 2]) 4 none (1 / 2) 2).1 ≤ i ∧
        i ≤ (steffen_eval_integ_indices (ofList [0, 1, 2, 2]) 4 none (1 / 2) 2).2.1 ∧
        ofList [0, 1, 2, 2] (i + 1) = ofList [0, 1, 2, 2] i) ∧
    (steffen_eval_integ (steffen_init tmp0 state0 (ofList [0, 1, 2, 2]) (ofList [0, 1, 2, 3]) 4).2
      (ofList [0, 1, 2, 2]) (ofList [0, 1, 2, 3]) 4 none (1 / 2) 2).1 = GSL_EINVAL ∧
    (steffen_eval_integ (steffen_init tmp0 state0 (ofList [0, 1, 2, 2]) (ofList [0, 1, 2, 3]) 4).2
      (ofList [0, 1, 2, 2]) (ofList [0, 1, 2, 3]) 4 none (1 / 2) 2).2.1 = 0 := by
  have hex : ∃ i, (steffen_eval_integ_indices (ofList [0, 1, 2, 2]) 4 none (1 / 2) 2).1 ≤ i ∧
      i ≤ (steffen_eval_integ_indices (ofList [0, 1, 2, 2]) 4 none (1 / 2) 2).2.1 ∧
      ofList [0, 1, 2, 2] (i + 1) = ofList [0, 1, 2, 2] i := by
    refine ⟨2, ?_, ?_, ?_⟩ <;>
      norm_num [steffen_eval_integ_indices, gsl_interp_bsearch, gsl_interp_bsearch_loop, ofList]
  exact ⟨hex,
    (steffen_eval_integ_zero_width
      (steffen_init tmp0 state0 (ofList [0, 1, 2, 2]) (ofList [0, 1, 2, 3]) 4).2
      (ofList [0, 1, 2, 2]) (ofList [0, 1, 2, 3]) 4 none (1 / 2) 2).1 hex⟩

/-- C5. On the table `x = [0,1,2]`, `y = [0,1,2]` and the bounds `0` and `2`,
`steffen_eval_integ` returns `3`: the loop puts the absolute bounds `x1`, `x2`
into the antiderivative of a cubic written in the offset from `x_i`.  The sum
of the segment-local terms of the spec, which is the integral of the function
`steffen_eval` computes, is `2`. -/
theorem steffen_eval_integ_absolute_bounds :
    steffen_eval_integ (steffen_init tmp0 state0 (ofList [0, 1, 2]) (ofList [0, 1, 2]) 3).2
        (ofList [0, 1, 2]) (ofList [0, 1, 2]) 3 none 0 2 = (GSL_SUCCESS, 3, none) ∧
    spec_integ (steffen_init tmp0 state0 (ofList [0, 1, 2]) (ofList [0, 1, 2]) 3).2
        (ofList [0, 1, 2]) 3 0 2 = 2 := by
  constructor
  · norm_num [steffen_eval_integ, steffen_eval_integ_indices, steffen_eval_integ_loop,
      gsl_interp_bsearch, gsl_interp_bsearch_loop, ofList, steffen_init, steffen_calc,
      steffen_calc_loop2, steffen_calc_body2, steffen_calc_tmp, steffen_calc_right,
      steffen_calc_loop1, steffen_calc_body1, steffen_calc_left, tmp0, state0,
      Function.update, copysign1, fabs, fmin]
  · norm_num [spec_integ, spec_integ_term, Finset.sum_range_succ,
      gsl_interp_bsearch, gsl_interp_bsearch_loop, ofList, steffen_init, steffen_calc,
      steffen_calc_loop2, steffen_calc_body2, steffen_calc_tmp, steffen_calc_right,
      steffen_calc_loop1, steffen_calc_body1, steffen_calc_left, tmp0, state0,
      Function.update, copysign1, fabs, fmin]

/-- C8. On the table of `test_steffen` the integrals from `0` to `0`, `1/2`,
`1` and `2` come out as `0`, `1/8`, `1/2` and `3`, where the test expects
`0`, `0.125`, `0.5` and `2.0`; on the table `x = [0,1,2,3]`, `y = [0,1,2,3]`
the integral from `0` to `3/2` comes out as `13/8`, not `9/8`. -/
theorem steffen_eval_integ_test_values :
    (steffen_eval_integ (steffen_init tmp0 state0 test_steffen_data test_steffen_data 5).2
        test_steffen_data test_steffen_data 5 none 0 0) = (GSL_SUCCESS, 0, none) ∧
    (steffen_eval_integ (steffen_init tmp0 state0 test_steffen_data test_steffen_data 5).2
        test_steffen_data test_steffen_data 5 none 0 (1 / 2)) = (GSL_SUCCESS, 1 / 8, none) ∧
    (steffen_eval_integ (steffen_init tmp0 state0 test_steffen_data test_steffen_data 5).2
        test_steffen_data test_steffen_data 5 none 0 1) = (GSL_SUCCESS, 1 / 2, none) ∧
    (steffen_eval_integ (steffen_init tmp0 state0 test_steffen_data test_steffen_data 5).2
        test_steffen_data test_steffen_data 5 none 0 2) = (GSL_SUCCESS, 3, none) ∧
    (steffen_eval_integ
        (steffen_init tmp0 state0 (ofList [0, 1, 2, 3]) (ofList [0, 1, 2, 3]) 4).2
        (ofList [0, 1, 2, 3]) (ofList [0, 1, 2, 3]) 4 none 0 (3 / 2))
      = (GSL_SUCCESS, 13 / 8, none) := by
  refine ⟨?_, ?_, ?_, ?_, ?_⟩ <;>
    norm_num [steffen_eval_integ, steffen_eval_integ_indices, steffen_eval_integ_loop,
      gsl_interp_bsearch, gsl_interp_bsearch_loop, test_steffen_data, ofList, steffen_init,
      steffen_calc, steffen_calc_loop2, steffen_calc_body2, steffen_calc_tmp,
      steffen_calc_right, steffen_calc_loop1, steffen_calc_body1, steffen_calc_left, tmp0,
      state0, Function.update, copysign1, fabs, fmin]

/-- C10, as stated, fails on the table `x = [0,1,2,2]`, `y = [0,1,2,3]`: the
last two abscissae coincide, so the divisor `h[2]` of `steffen_calc` is zero,
yet `steffen_init` returns `GSL_SUCCESS`, and the call of `steffen_eval_integ`
from `0` to `1/2` returns `GSL_SUCCESS` as well. -/
theorem steffen_repeated_x_not_rejected :
    ofList [0, 1, 2, 2] (2 + 1) = ofList [0, 1, 2, 2] 2 ∧
    (steffen_calc_tmp tmp0 (ofList [0, 1, 2, 2]) (ofList [0, 1, 2, 3]) 4).h 2 = 0 ∧
    (steffen_init tmp0 state0 (ofList [0, 1, 2, 2]) (ofList [0, 1, 2, 3]) 4).1 = GSL_SUCCESS ∧
    (steffen_eval_integ
        (steffen_init tmp0 state0 (ofList [0, 1, 2, 2]) (ofList [0, 1, 2, 3]) 4).2
        (ofList [0, 1, 2, 2]) (ofList [0, 1, 2, 3]) 4 none 0 (1 / 2)).1 = GSL_SUCCESS := by
  refine ⟨by norm_num [ofList], ?_, rfl, ?_⟩
  · norm_num [steffen_calc_tmp, steffen_calc_right, steffen_calc_loop1, steffen_calc_body1,
      steffen_calc_left, tmp0, Function.update, ofList]
  · have hne : ∀ j, (steffen_eval_integ_indices (ofList [0, 1, 2, 2]) 4 none 0 (1 / 2)).1 ≤ j →
        j ≤ (steffen_eval_integ_indices (ofList [0, 1, 2, 2]) 4 none 0 (1 / 2)).2.1 →
        ofList [0, 1, 2, 2] (j + 1) ≠ ofList [0, 1, 2, 2] j := by
      intro j _ h2
      have hb : (steffen_eval_integ_indices (ofList [0, 1, 2, 2]) 4 none 0 (1 / 2)).2.1 = 0 := by
        norm_num [steffen_eval_integ_indices, gsl_interp_bsearch, gsl_interp_bsearch_loop, ofList]
      have : j = 0 := by omega
      subst this
      norm_num [ofList]
    rw [steffen_eval_integ_success _ _ _ 4 none 0 (1 / 2) hne]

/-- C10, amended. For every table, with or without a repeated abscissa,
`steffen_init` returns `GSL_SUCCESS`; and a call of `steffen_eval_integ` on the
fitted state returns a status other than `GSL_SUCCESS` exactly when a
zero-width segment lies among the segments `index_a .. index_b` the call
touches, in which case the status is `GSL_EINVAL`. -/
theorem steffen_repeated_x_reported_iff_touched (t0 : steffen_tmp) (vstate : steffen_state_t)
    (x_array y_array : Nat → ℚ) (size : Nat) (acc : Option gsl_interp_accel) (a b : ℚ) :
    (steffen_init t0 vstate x_array y_array size).1 = GSL_SUCCESS ∧
    ((steffen_eval_integ (steffen_init t0 vstate x_array y_array size).2 x_array y_array size
        acc a b).1 ≠ GSL_SUCCESS ↔
      ∃ i, (steffen_eval_integ_indices x_array size acc a b).1 ≤ i ∧
        i ≤ (steffen_eval_integ_indices x_array size acc a b).2.1 ∧
        x_array (i + 1) = x_array i) ∧
    ((steffen_eval_integ (steffen_init t0 vstate x_array y_array size).2 x_array y_array size
        acc a b).1 = GSL_SUCCESS ∨
      (steffen_eval_integ (steffen_init t0 vstate x_array y_array size).2 x_array y_array size
        acc a b).1 = GSL_EINVAL) := by
  by_cases hex : ∃ i, (steffen_eval_integ_indices x_array size acc a b).1 ≤ i ∧
      i ≤ (steffen_eval_integ_indices x_array size acc a b).2.1 ∧ x_array (i + 1) = x_array i
  · have hst : (steffen_eval_integ (steffen_init t0 vstate x_array y_array size).2 x_array
        y_array size acc a b).1 = GSL_EINVAL := by
      unfold steffen_eval_integ
      simp only []
      rw [steffen_eval_integ_loop_einval _ x_array y_array a b _ _ _ _ 0 le_rfl hex]
    refine ⟨rfl, ⟨fun _ => hex, fun _ => ?_⟩, Or.inr hst⟩
    rw [hst]
    decide
  · have hst : (steffen_eval_integ (steffen_init t0 vstate x_array y_array size).2 x_array
        y_array size acc a b).1 = GSL_SUCCESS := by
      rw [steffen_eval_integ_success _ x_array y_array size acc a b
        (fun j h1 h2 h3 => hex ⟨j, h1, h2, h3⟩)]
    refine ⟨rfl, ⟨fun h => absurd hst h, fun h => absurd h hex⟩, Or.inl hst⟩

/-! ## Order of the integration bounds, status codes, derivative estimate -/

/-- On a strictly increasing table every call of `steffen_eval_integ` with
bisection lookups returns `GSL_SUCCESS` and the sum of the loop's terms. -/
theorem steffen_eval_integ_of_increasing (state : steffen_state_t) (x_array y_array : Nat → ℚ)
    (size : Nat) (hs : 2 ≤ size) (hx : StrictlyIncreasing x_array size) (a b : ℚ) :
    steffen_eval_integ state x_array y_array size none a b
      = (GSL_SUCCESS,
          ∑ j ∈ Finset.Ico (gsl_interp_bsearch x_array a 0 (size - 1))
              (gsl_interp_bsearch x_array b 0 (size - 1) + 1),
            steffen_integ_term state x_array a b (gsl_interp_bsearch x_array a 0 (size - 1))
              (gsl_interp_bsearch x_array b 0 (size - 1)) j,
          none) := by
  have hne : ∀ j, (steffen_eval_integ_indices x_array size none a b).1 ≤ j →
      j ≤ (steffen_eval_integ_indices x_array size none a b).2.1 →
      x_array (j + 1) ≠ x_array j := by
    intro j _ h2
    have hb := (gsl_interp_bsearch_inv x_array b 0 (size - 1) (by omega)).2.1
    have h2' : j ≤ gsl_interp_bsearch x_array b 0 (size - 1) := h2
    exact ne_of_gt (hx j (by omega))
  rw [steffen_eval_integ_success state x_array y_array size none a b hne]
  rfl

/-- C11, as stated, fails on the table of `test_steffen`: with the bounds
`a = 2 > b = 0` the call returns `GSL_SUCCESS` and the result `0`. -/
theorem steffen_eval_integ_reversed_accepted :
    (0 : ℚ) < 2 ∧
    steffen_eval_integ (steffen_init tmp0 state0 test_steffen_data test_steffen_data 5).2
      test_steffen_data test_steffen_data 5 none 2 0 = (GSL_SUCCESS, 0, none) := by
  refine ⟨by norm_num, ?_⟩
  norm_num [steffen_eval_integ, steffen_eval_integ_indices, steffen_eval_integ_loop,
    gsl_interp_bsearch, gsl_interp_bsearch_loop, test_steffen_data, ofList]

/-- C12. The fit and the three evaluators have no failure path: for every
table, in particular every table with at least three samples and strictly
increasing abscissae, `steffen_init` returns `GSL_SUCCESS`, and `steffen_eval`,
`steffen_eval_deriv` and `steffen_eval_deriv2` on the fitted state return
`GSL_SUCCESS` for every query and with or without an accelerator. -/
theorem steffen_fit_and_eval_succeed (t0 : steffen_tmp) (vstate : steffen_state_t)
    (x_array y_array : Nat → ℚ) (size : Nat) (x : ℚ) (a : Option gsl_interp_accel) :
    (steffen_init t0 vstate x_array y_array size).1 = GSL_SUCCESS ∧
    (steffen_eval (steffen_init t0 vstate x_array y_array size).2 x_array y_array size
      x a).1 = GSL_SUCCESS ∧
    (steffen_eval_deriv (steffen_init t0 vstate x_array y_array size).2 x_array y_array size
      x a).1 = GSL_SUCCESS ∧
    (steffen_eval_deriv2 (steffen_init t0 vstate x_array y_array size).2 x_array y_array size
      x a).1 = GSL_SUCCESS :=
  ⟨rfl, rfl, rfl, rfl⟩

theorem spec_s_eq (x y : Nat → ℚ) (i : Nat) : spec_s x y i = steffen_s x y i := rfl

theorem spec_p_eq (x y : Nat → ℚ) (i : Nat) : spec_p x y i = steffen_p x y i := rfl

/-- With the minimum of the two slope sizes as a factor, the sign given to a
zero slope does not matter: `copysign` and the mathematical sign give the same
product. -/
theorem copysign1_sum_mul_min (s1 s2 q : ℚ) (hq : 0 ≤ q) :
    (copysign1 s1 + copysign1 s2) * min |s1| (min |s2| q)
      = (spec_sign s1 + spec_sign s2) * min |s1| (min |s2| q) := by
  by_cases h1 : s1 = 0
  · subst h1
    have hm : min |(0 : ℚ)| (min |s2| q) = 0 := by
      rw [abs_zero]
      exact min_eq_left (le_min (abs_nonneg _) hq)
    rw [hm, mul_zero, mul_zero]
  · by_cases h2 : s2 = 0
    · subst h2
      have hm : min |s1| (min |(0 : ℚ)| q) = 0 := by
        rw [abs_zero, min_eq_left hq]
        exact min_eq_right (abs_nonneg _)
      rw [hm, mul_zero, mul_zero]
    · have e1 : copysign1 s1 = spec_sign s1 := by
        unfold copysign1 spec_sign
        split_ifs <;> rfl
      have e2 : copysign1 s2 = spec_sign s2 := by
        unfold copysign1 spec_sign
        split_ifs <;> rfl
      rw [e1, e2]

/-- C20. Interior derivative estimate: for every table and every interior node
`1 <= i <= size - 2` (so `size >= 3`), the coefficient `c_i` that `steffen_init`
stores equals `(sign(s_{i-1}) + sign(s_i)) * min(|s_{i-1}|, |s_i|, 0.5 |p_i|)`
with `h`, `s`, `p` as in spec §4.4, and the value is the same with the
mathematical sign (`sign(0) = 0`) and with the `copysign` of the code
(`sign(0) = +1`). -/
theorem steffen_interior_derivative_estimate (t0 : steffen_tmp) (vstate : steffen_state_t)
    (x_array y_array : Nat → ℚ) (size : Nat) (i : Nat) (h1 : 1 ≤ i) (hi : i + 1 < size) :
    (steffen_init t0 vstate x_array y_array size).2.c i
      = spec_y_prime spec_sign x_array y_array i ∧
    (steffen_init t0 vstate x_array y_array size).2.c i
      = spec_y_prime copysign1 x_array y_array i := by
  have hc := (steffen_calc_coeffs t0 x_array y_array vstate size (by omega) i hi).2.2.1
  have hy : steffen_y_prime x_array y_array size i
      = steffen_y_prime_interior x_array y_array i := by
    unfold steffen_y_prime
    rw [if_neg (show ¬ i = size - 1 by omega), if_neg (show ¬ i = 0 by omega)]
  have hcp : (steffen_init t0 vstate x_array y_array size).2.c i
      = spec_y_prime copysign1 x_array y_array i := by
    show (steffen_calc t0 x_array y_array vstate size).c i = _
    rw [hc, hy]
    unfold steffen_y_prime_interior spec_y_prime
    simp only [fmin_eq_min, fabs_eq_abs, spec_s_eq, spec_p_eq]
  refine ⟨?_, hcp⟩
  rw [hcp]
  unfold spec_y_prime
  exact copysign1_sum_mul_min _ _ _ (by positivity)

/-- C20 on the table `x = [0,1,2,3,4]`, `y = [0,2,2,3,0]` at node `1`, where the
slope to the right is zero. -/
theorem steffen_interior_derivative_estimate_witness :
    (steffen_init tmp0 state0 test_steffen_data (ofList [0, 2, 2, 3, 0]) 5).2.c 1
      = spec_y_prime spec_sign test_steffen_data (ofList [0, 2, 2, 3, 0]) 1 ∧
    (steffen_init tmp0 state0 test_steffen_data (ofList [0, 2, 2, 3, 0]) 5).2.c 1
      = spec_y_prime copysign1 test_steffen_data (ofList [0, 2, 2, 3, 0]) 1 :=
  steffen_interior_derivative_estimate tmp0 state0 test_steffen_data (ofList [0, 2, 2, 3, 0]) 5 1
    (by decide) (by decide)

/-! ## The lookup contract and the accelerator -/

/-- C14. Contract of the bounded binary search: for every `x_array` sorted on
`[lo, hi]` with `lo < hi` and every query `x`, the index `j` returned by
`gsl_interp_bsearch` satisfies `lo <= j <= hi - 1`; when
`x_array[lo] <= x < x_array[hi]` it satisfies `x_array[j] <= x < x_array[j+1]`;
it is `lo` when `x` is below the first sample and `hi - 1` when `x` is at or
above the last sample. -/
theorem gsl_interp_bsearch_contract (x_array : Nat → ℚ) (x : ℚ) (lo hi : Nat) (h : lo < hi)
    (hs : SortedOn x_array lo hi) :
    lo ≤ gsl_interp_bsearch x_array x lo hi ∧
    gsl_interp_bsearch x_array x lo hi ≤ hi - 1 ∧
    (x_array lo ≤ x → x < x_array hi →
      x_array (gsl_interp_bsearch x_array x lo hi) ≤ x ∧
      x < x_array (gsl_interp_bsearch x_array x lo hi + 1)) ∧
    (x < x_array lo → gsl_interp_bsearch x_array x lo hi = lo) ∧
    (x_array hi ≤ x → gsl_interp_bsearch x_array x lo hi = hi - 1) := by
  obtain ⟨h1, h2, hL, hR⟩ := gsl_interp_bsearch_inv x_array x lo hi h
  generalize gsl_interp_bsearch x_array x lo hi = j at h1 h2 hL hR
  refine ⟨h1, by omega, ?_, ?_, ?_⟩
  · intro hlo hhi
    constructor
    · rcases hL with e | e
      · rw [e]
        exact hlo
      · exact e
    · rcases hR with e | e
      · rw [e]
        exact hhi
      · exact e
  · intro hlt
    rcases hL with e | e
    · exact e
    · exfalso
      have := hs lo j le_rfl h1 (by omega)
      linarith
  · intro hge
    rcases hR with e | e
    · omega
    · exfalso
      have := hs (j + 1) hi (by omega) (by omega) le_rfl
      linarith

/-- The table of `test_bsearch` is sorted. -/
theorem test_steffen_data_sorted : SortedOn test_steffen_data 0 4 := by
  intro i j _ hij hj
  have hi : i = 0 ∨ i = 1 ∨ i = 2 ∨ i = 3 ∨ i = 4 := by omega
  have hj' : j = 0 ∨ j = 1 ∨ j = 2 ∨ j = 3 ∨ j = 4 := by omega
  rcases hi with e | e | e | e | e <;> rcases hj' with f | f | f | f | f <;> subst e <;>
    subst f <;> first | omega | norm_num [test_steffen_data, ofList]

/-- C14 on the table `[0,1,2,3,4]` of `test_bsearch`: the contract at the query
`3/2`, and the six values the test checks:
`1.5 -> 1`, `4.0 -> 3`, `0.0 -> 0`, `2.0 -> 2`, `10.0 -> 3`, `-10.0 -> 0`. -/
theorem gsl_interp_bsearch_contract_witness :
    (0 < 4 ∧ SortedOn test_steffen_data 0 4) ∧
    (0 ≤ gsl_interp_bsearch test_steffen_data (3 / 2) 0 4 ∧
      gsl_interp_bsearch test_steffen_data (3 / 2) 0 4 ≤ 4 - 1) ∧
    gsl_interp_bsearch test_steffen_data (3 / 2) 0 4 = 1 ∧
    gsl_interp_bsearch test_steffen_data 4 0 4 = 3 ∧
    gsl_interp_bsearch test_steffen_data 0 0 4 = 0 ∧
    gsl_interp_bsearch test_steffen_data 2 0 4 = 2 ∧
    gsl_interp_bsearch test_steffen_data 10 0 4 = 3 ∧
    gsl_interp_bsearch test_steffen_data (-10) 0 4 = 0 := by
  have h := gsl_interp_bsearch_contract test_steffen_data (3 / 2) 0 4 (by decide)
    test_steffen_data_sorted
  refine ⟨⟨by decide, test_steffen_data_sorted⟩, ⟨h.1, h.2.1⟩, ?_, ?_, ?_, ?_, ?_, ?_⟩ <;>
    norm_num [gsl_interp_bsearch, gsl_interp_bsearch_loop, test_steffen_data, ofList]

/-- On a sorted table a segment with `x_array[i] <= x < x_array[i+1]` is the one
the search returns. -/
theorem gsl_interp_bsearch_eq_of_mem_sorted {x_array : Nat → ℚ} {size : Nat}
    (hx : SortedOn x_array 0 (size - 1)) {x : ℚ} {i : Nat} (hi : i + 1 < size)
    (h1 : x_array i ≤ x) (h2 : x < x_array (i + 1)) :
    gsl_interp_bsearch x_array x 0 (size - 1) = i := by
  obtain ⟨_, hb, hL, hR⟩ := gsl_interp_bsearch_inv x_array x 0 (size - 1) (by omega)
  generalize gsl_interp_bsearch x_array x 0 (size - 1) = j at hb hL hR
  rcases Nat.lt_trichotomy j i with hlt | heq | hgt
  · exfalso
    rcases hR with hR | hR
    · omega
    · have := hx (j + 1) i (Nat.zero_le _) (by omega) (by omega)
      linarith
  · exact heq
  · exfalso
    rcases hL with hL | hL
    · omega
    · have := hx (i + 1) j (Nat.zero_le _) (by omega) (by omega)
      linarith

/-- One accelerated lookup on a sorted table returns the index of the bounded
binary search, whatever state the accelerator is in. -/
theorem gsl_interp_accel_find_eq (a : gsl_interp_accel) (x_array : Nat → ℚ) (size : Nat)
    (hx : SortedOn x_array 0 (size - 1)) (x : ℚ) :
    (gsl_interp_accel_find a x_array size x).1 = gsl_interp_bsearch x_array x 0 (size - 1) := by
  unfold gsl_interp_accel_find
  cases hc : a.cache with
  | none => rfl
  | some k =>
    simp only []
    split_ifs with c1 c2 c3
    · exact (gsl_interp_bsearch_eq_of_mem_sorted hx c1.1 c1.2.1 c1.2.2).symm
    · exact (gsl_interp_bsearch_eq_of_mem_sorted hx (by omega) c2.2.1 c2.2.2).symm
    · have e : k - 1 + 1 = k := by omega
      have h2 : x < x_array (k - 1 + 1) := by
        rw [e]
        exact c3.2.2.2
      exact (gsl_interp_bsearch_eq_of_mem_sorted hx (by omega) c3.2.2.1 h2).symm
    · rfl

/-- A run of accelerated lookups on a sorted table, from any accelerator state,
returns the indices of the bounded binary search. -/
theorem gsl_interp_accel_find_all_eq (x_array : Nat → ℚ) (size : Nat)
    (hx : SortedOn x_array 0 (size - 1)) :
    ∀ (xs : List ℚ) (a : gsl_interp_accel),
      gsl_interp_accel_find_all a x_array size xs
        = xs.map (fun x => gsl_interp_bsearch x_array x 0 (size - 1)) := by
  intro xs
  induction xs with
  | nil =>
    intro a
    rfl
  | cons x xs ih =>
    intro a
    simp only [gsl_interp_accel_find_all, List.map_cons]
    rw [gsl_interp_accel_find_eq a x_array size hx x, ih]

/-- C15. Accelerator equivalence: for every sorted table of size at least two
and every finite sequence of queries issued in order to one accelerator that
starts freshly allocated, every call of `gsl_interp_accel_find` returns the
index that `gsl_interp_bsearch (x_array, x, 0, size - 1)` returns for the same
query, on hits and on misses. -/
theorem gsl_interp_accel_equivalence (x_array : Nat → ℚ) (size : Nat) (hs : 2 ≤ size)
    (hx : SortedOn x_array 0 (size - 1)) (xs : List ℚ) :
    gsl_interp_accel_find_all gsl_interp_accel_alloc x_array size xs
        = xs.map (fun x => gsl_interp_bsearch x_array x 0 (size - 1)) ∧
    ∀ x ∈ xs, gsl_interp_bsearch x_array x 0 (size - 1) < size - 1 := by
  refine ⟨gsl_interp_accel_find_all_eq x_array size hx xs gsl_interp_accel_alloc, ?_⟩
  intro x _
  exact (gsl_interp_bsearch_inv x_array x 0 (size - 1) (by omega)).2.1

/-- The length of a list of blocks of equal length. -/
theorem length_flatMap_const (l : List ℚ) (f : ℚ → List ℚ) (n : Nat)
    (hf : ∀ q, (f q).length = n) : (l.flatMap f).length = l.length * n := by
  induction l with
  | nil => simp
  | cons q qs ih =>
    simp only [List.flatMap_cons, List.length_append, List.length_cons, hf, ih]
    ring

/-- The accelerator loop of `test_bsearch` issues 512 queries. -/
theorem test_bsearch_queries_length : test_bsearch_queries.length = 512 := by
  have h16 : test_bsearch_points.length = 16 := by simp [test_bsearch_points]
  unfold test_bsearch_queries
  rw [length_flatMap_const test_bsearch_points _ 32, h16]
  intro q
  rw [length_flatMap_const test_bsearch_points _ 2, h16]
  intro _
  rfl

/-- C15 on the table `[0,1,2,3,4]` with the 512 queries of `test_bsearch`, all
ordered pairs of its sixteen query points. -/
theorem gsl_interp_accel_equivalence_witness :
    (2 ≤ 5 ∧ SortedOn test_steffen_data 0 (5 - 1)) ∧
    test_bsearch_queries.length = 512 ∧
    gsl_interp_accel_find_all gsl_interp_accel_alloc test_steffen_data 5 test_bsearch_queries
      = test_bsearch_queries.map (fun x => gsl_interp_bsearch test_steffen_data x 0 (5 - 1)) :=
  ⟨⟨by decide, test_steffen_data_sorted⟩, test_bsearch_queries_length,
    (gsl_interp_accel_equivalence test_steffen_data 5 (by decide) test_steffen_data_sorted
      test_bsearch_queries).1⟩

/-! ## The descriptor -/

/-- C13. The descriptor `gsl_interp_steffen` declares the name `steffen` and the
minimum size `3`; its seven entry points are `steffen_alloc`, `steffen_init`,
`steffen_eval`, `steffen_eval_deriv`, `steffen_eval_deriv2`,
`steffen_eval_integ` and `steffen_free`, in that order; and the minimum size
reported for the type is the `min_size` field of the descriptor. -/
theorem gsl_interp_steffen_descriptor :
    gsl_interp_steffen
      = gsl_interp_type.mk "steffen" 3 steffen_alloc steffen_init steffen_eval
          steffen_eval_deriv steffen_eval_deriv2 steffen_eval_integ steffen_free ∧
    gsl_interp_steffen.name = "steffen" ∧
    gsl_interp_steffen.min_size = 3 ∧
    gsl_interp_type_min_size gsl_interp_steffen = gsl_interp_steffen.min_size :=
  ⟨rfl, rfl, rfl, rfl⟩

/-! ## Coefficients, clamping, derivatives -/

/-- The three evaluators return the evaluate blocks at the index they resolve,
the same index for the same query and accelerator. -/
theorem steffen_eval_eq_block (state : steffen_state_t) (x_array y_array : Nat → ℚ) (size : Nat)
    (x : ℚ) (a : Option gsl_interp_accel) :
    (steffen_eval state x_array y_array size x a).2.1
      = steffen_eval_block state x_array (steffen_lookup x_array size x a) x ∧
    (steffen_eval_deriv state x_array y_array size x a).2.1
      = steffen_eval_deriv_block state x_array (steffen_lookup x_array size x a) x ∧
    (steffen_eval_deriv2 state x_array y_array size x a).2.1
      = steffen_eval_deriv2_block state x_array (steffen_lookup x_array size x a) x := by
  cases a <;> exact ⟨rfl, rfl, rfl⟩

/-- C23. `steffen_eval_deriv` is the derivative of `steffen_eval`: for every
coefficient state, every segment index `i` and every query `x`, the value
`c_i + delx*(2*b_i + 3*delx*a_i)` of the evaluate block of `steffen_eval_deriv`
is the derivative at `x` of the cubic `d_i + delx*(c_i + delx*(b_i + delx*a_i))`
of the evaluate block of `steffen_eval` on the same segment, `delx = x - x_i`;
and both functions return their block at the same resolved index. -/
theorem steffen_eval_deriv_is_derivative (state : steffen_state_t) (x_array y_array : Nat → ℚ)
    (size : Nat) (i : Nat) (x : ℚ) (a : Option gsl_interp_accel) :
    HasDerivAt (fun t : ℚ => steffen_eval_block state x_array i t)
      (steffen_eval_deriv_block state x_array i x) x ∧
    steffen_eval_deriv_block state x_array i x
      = state.c i + (x - x_array i) * (2 * state.b i + 3 * (x - x_array i) * state.a i) ∧
    (steffen_eval state x_array y_array size x a).2.1
      = steffen_eval_block state x_array (steffen_lookup x_array size x a) x ∧
    (steffen_eval_deriv state x_array y_array size x a).2.1
      = steffen_eval_deriv_block state x_array (steffen_lookup x_array size x a) x := by
  have h1 : HasDerivAt (fun t : ℚ => t - x_array i) 1 x := (hasDerivAt_id x).sub_const _
  have h2 : HasDerivAt (fun t : ℚ => state.b i + (t - x_array i) * state.a i) (1 * state.a i) x :=
    (h1.mul_const (state.a i)).const_add _
  have h3 := (h1.mul h2).const_add (state.c i)
  have h4 := (h1.mul h3).const_add (state.d i)
  refine ⟨?_, ?_, (steffen_eval_eq_block state x_array y_array size x a).1,
    (steffen_eval_eq_block state x_array y_array size x a).2.1⟩
  · unfold steffen_eval_block steffen_eval_deriv_block
    convert h4 using 1
    ring
  · unfold steffen_eval_deriv_block
    ring

/-- C24. `steffen_eval_deriv2` is the derivative of `steffen_eval_deriv`: for
every coefficient state, every segment index `i` and every query `x`, the
value `6*a_i*delx + 2*b_i` of the evaluate block of `steffen_eval_deriv2` is the
derivative at `x` of the value `c_i + delx*(2*b_i + 3*delx*a_i)` of the evaluate
block of `steffen_eval_deriv` on the same segment, `delx = x - x_i`; and both
functions return their block at the same resolved index. -/
theorem steffen_eval_deriv2_is_derivative (state : steffen_state_t)
    (x_array y_array : Nat → ℚ) (size : Nat) (i : Nat) (x : ℚ) (a : Option gsl_interp_accel) :
    HasDerivAt (fun t : ℚ => steffen_eval_deriv_block state x_array i t)
      (steffen_eval_deriv2_block state x_array i x) x ∧
    steffen_eval_deriv2_block state x_array i x
      = 6 * state.a i * (x - x_array i) + 2 * state.b i ∧
    (steffen_eval_deriv state x_array y_array size x a).2.1
      = steffen_eval_deriv_block state x_array (steffen_lookup x_array size x a) x ∧
    (steffen_eval_deriv2 state x_array y_array size x a).2.1
      = steffen_eval_deriv2_block state x_array (steffen_lookup x_array size x a) x := by
  have h1 : HasDerivAt (fun t : ℚ => t - x_array i) 1 x := (hasDerivAt_id x).sub_const _
  have h2 : HasDerivAt (fun t : ℚ => 2 * state.b i + (t - x_array i) * 3 * state.a i)
      (1 * 3 * state.a i) x :=
    ((h1.mul_const 3).mul_const (state.a i)).const_add _
  have h3 := (h1.mul h2).const_add (state.c i)
  refine ⟨?_, rfl, (steffen_eval_eq_block state x_array y_array size x a).2.1,
    (steffen_eval_eq_block state x_array y_array size x a).2.2⟩
  unfold steffen_eval_deriv_block steffen_eval_deriv2_block
  convert h3 using 1
  ring

/-- C26. The second derivative is not continuous in general: on the table
`x = [0,1,2]`, `y = [0,1,10]`, which has three samples and strictly increasing
abscissae, the second derivative of segment `0` at `delx = h_0` is
`2*b_0 + 6*a_0*h_0 = 4` and the second derivative of segment `1` at `delx = 0`
is `2*b_1 = 28`, which is also what `steffen_eval_deriv2` returns at `x_1`. -/
theorem steffen_second_derivative_jump :
    StrictlyIncreasing (ofList [0, 1, 2]) 3 ∧
    2 * (steffen_init tmp0 state0 (ofList [0, 1, 2]) (ofList [0, 1, 10]) 3).2.b 0
      + 6 * (steffen_init tmp0 state0 (ofList [0, 1, 2]) (ofList [0, 1, 10]) 3).2.a 0
        * (ofList [0, 1, 2] 1 - ofList [0, 1, 2] 0) = 4 ∧
    2 * (steffen_init tmp0 state0 (ofList [0, 1, 2]) (ofList [0, 1, 10]) 3).2.b 1 = 28 ∧
    steffen_eval_deriv2_block (steffen_init tmp0 state0 (ofList [0, 1, 2]) (ofList [0, 1, 10]) 3).2
      (ofList [0, 1, 2]) 0 (ofList [0, 1, 2] 1) = 4 ∧
    steffen_eval_deriv2 (steffen_init tmp0 state0 (ofList [0, 1, 2]) (ofList [0, 1, 10]) 3).2
      (ofList [0, 1, 2]) (ofList [0, 1, 10]) 3 (ofList [0, 1, 2] 1) none
      = (GSL_SUCCESS, 28, none) ∧
    2 * (steffen_init tmp0 state0 (ofList [0, 1, 2]) (ofList [0, 1, 10]) 3).2.b 0
      + 6 * (steffen_init tmp0 state0 (ofList [0, 1, 2]) (ofList [0, 1, 10]) 3).2.a 0
        * (ofList [0, 1, 2] 1 - ofList [0, 1, 2] 0)
      ≠ 2 * (steffen_init tmp0 state0 (ofList [0, 1, 2]) (ofList [0, 1, 10]) 3).2.b 1 := by
  have hx : StrictlyIncreasing (ofList [0, 1, 2]) 3 := by
    intro i hi
    have : i = 0 ∨ i = 1 := by omega
    rcases this with h | h <;> subst h <;> norm_num [ofList]
  have e1 : 2 * (steffen_init tmp0 state0 (ofList [0, 1, 2]) (ofList [0, 1, 10]) 3).2.b 0
      + 6 * (steffen_init tmp0 state0 (ofList [0, 1, 2]) (ofList [0, 1, 10]) 3).2.a 0
        * (ofList [0, 1, 2] 1 - ofList [0, 1, 2] 0) = 4 := by
    norm_num [ofList, steffen_init, steffen_calc, steffen_calc_loop2, steffen_calc_body2,
      steffen_calc_tmp, steffen_calc_right, steffen_calc_loop1, steffen_calc_body1,
      steffen_calc_left, tmp0, state0, Function.update, copysign1, fabs, fmin]
  have e2 : 2 * (steffen_init tmp0 state0 (ofList [0, 1, 2]) (ofList [0, 1, 10]) 3).2.b 1 = 28 := by
    norm_num [ofList, steffen_init, steffen_calc, steffen_calc_loop2, steffen_calc_body2,
      steffen_calc_tmp, steffen_calc_right, steffen_calc_loop1, steffen_calc_body1,
      steffen_calc_left, tmp0, state0, Function.update, copysign1, fabs, fmin]
  refine ⟨hx, e1, e2, ?_, ?_, ?_⟩
  · rw [← e1]
    unfold steffen_eval_deriv2_block
    ring
  · have hidx : gsl_interp_bsearch (ofList [0, 1, 2]) (ofList [0, 1, 2] 1) 0 (3 - 1) = 1 :=
      gsl_interp_bsearch_eq_of_mem hx (by decide) le_rfl (hx 1 (by decide))
    unfold steffen_eval_deriv2
    simp only [hidx, sub_self, mul_zero, zero_add, e2]
  · rw [e1, e2]
    norm_num

/-! ## The run on checked memory -/

theorem checked_read_input (arr : Nat → ℚ) (size i : Nat) (hi : i < size) :
    checked_read (checked_input arr size) i = Except.ok (arr i) := by
  simp [checked_read, checked_input, hi]

theorem checked_read_filled (size lo hi : Nat) (f : Nat → ℚ) (j : Nat) (h1 : lo ≤ j)
    (h2 : j < hi) (h3 : hi ≤ size) :
    checked_read (checked_filled size lo hi f) j = Except.ok (f j) := by
  have hj : j < size := by omega
  simp [checked_read, checked_filled, hj, h1, h2]

theorem checked_fresh_eq_filled (size lo : Nat) (f : Nat → ℚ) :
    checked_fresh size = checked_filled size lo lo f := by
  unfold checked_fresh checked_filled
  congr 1
  funext j
  have : ¬ (lo ≤ j ∧ j < lo) := by omega
  rw [if_neg this]

theorem checked_write_filled (size lo hi : Nat) (f g : Nat → ℚ) (h1 : lo ≤ hi) (h2 : hi < size)
    (hfg : ∀ j, lo ≤ j → j < hi → g j = f j) :
    checked_write (checked_filled size lo hi f) hi (g hi)
      = Except.ok (checked_filled size lo (hi + 1) g) := by
  unfold checked_write checked_filled
  simp only [h2, if_true]
  congr 2
  funext j
  rw [Function.update_apply]
  by_cases e : j = hi
  · subst e
    have : lo ≤ j ∧ j < j + 1 := by omega
    rw [if_pos rfl, if_pos this]
  · rw [if_neg e]
    by_cases c : lo ≤ j ∧ j < hi
    · have c' : lo ≤ j ∧ j < hi + 1 := by omega
      rw [if_pos c, if_pos c', hfg j c.1 c.2]
    · have c' : ¬ (lo ≤ j ∧ j < hi + 1) := by omega
      rw [if_neg c, if_neg c']

theorem checked_div_ok (u v : ℚ) (hv : v ≠ 0) : checked_div u v = Except.ok (u / v) := by
  simp [checked_div, hv]

theorem checked_filled_congr (size lo hi : Nat) (f g : Nat → ℚ)
    (hfg : ∀ j, lo ≤ j → j < hi → f j = g j) :
    checked_filled size lo hi f = checked_filled size lo hi g := by
  unfold checked_filled
  congr 1
  funext j
  by_cases c : lo ≤ j ∧ j < hi
  · rw [if_pos c, if_pos c, hfg j c.1 c.2]
  · rw [if_neg c, if_neg c]

/-- Lines 117-119 run without fault on a table with at least two samples and
leave `h[0]`, `s[0]` and `y_prime[0]` written. -/
theorem steffen_calc_checked_left_ok (x_array y_array : Nat → ℚ) (size : Nat) (hs : 2 ≤ size)
    (hx : StrictlyIncreasing x_array size) (m : checked_mem)
    (hmh : m.h = checked_fresh size) (hms : m.s = checked_fresh size)
    (hmy : m.y_prime = checked_fresh size) :
    steffen_calc_checked_left (checked_input x_array size) (checked_input y_array size) m
      = Except.ok
          { s := checked_filled size 0 1 (steffen_s x_array y_array)
            h := checked_filled size 0 1 (steffen_h x_array)
            y_prime := checked_filled size 0 1 (steffen_y_prime x_array y_array size)
            p := m.p, a := m.a, b := m.b, c := m.c, d := m.d } := by
  have hh : steffen_h x_array 0 ≠ 0 := ne_of_gt (steffen_h_pos hx (by omega))
  have y0 : steffen_y_prime x_array y_array size 0 = steffen_s x_array y_array 0 := by
    unfold steffen_y_prime
    rw [if_neg (show ¬ 0 = size - 1 by omega), if_pos rfl]
  have w1 : checked_write (checked_fresh size) 0 (steffen_h x_array 0)
      = Except.ok (checked_filled size 0 1 (steffen_h x_array)) := by
    rw [checked_fresh_eq_filled size 0 (steffen_h x_array)]
    exact checked_write_filled size 0 0 _ _ le_rfl (by omega) (fun _ _ _ => rfl)
  have w2 : checked_write (checked_fresh size) 0 (steffen_s x_array y_array 0)
      = Except.ok (checked_filled size 0 1 (steffen_s x_array y_array)) := by
    rw [checked_fresh_eq_filled size 0 (steffen_s x_array y_array)]
    exact checked_write_filled size 0 0 _ _ le_rfl (by omega) (fun _ _ _ => rfl)
  have key : checked_filled size 0 1 (steffen_s x_array y_array)
      = checked_filled size 0 1 (steffen_y_prime x_array y_array size) := by
    apply checked_filled_congr
    intro j _ hj
    have : j = 0 := by omega
    subst this
    exact y0.symm
  have e_h : x_array 1 - x_array 0 = steffen_h x_array 0 := rfl
  have e_s : (y_array 1 - y_array 0) / steffen_h x_array 0 = steffen_s x_array y_array 0 := rfl
  have r_h := checked_read_filled size 0 1 (steffen_h x_array) 0 le_rfl (by omega) (by omega)
  have r_s := checked_read_filled size 0 1 (steffen_s x_array y_array) 0 le_rfl (by omega)
    (by omega)
  have d1 := checked_div_ok (y_array 1 - y_array 0) (steffen_h x_array 0) hh
  unfold steffen_calc_checked_left
  simp only [bind, Except.bind, pure, Except.pure, hmh, hms, hmy,
    checked_read_input x_array size 1 (by omega), checked_read_input x_array size 0 (by omega),
    checked_read_input y_array size 1 (by omega), checked_read_input y_array size 0 (by omega),
    e_h, w1, r_h, d1, e_s, w2, r_s]
  congr 2

/-- The body of the first loop at an interior index runs without fault and
leaves `h[i]`, `s[i]`, `p[i]` and `y_prime[i]` written. -/
theorem steffen_calc_checked_body1_ok (x_array y_array : Nat → ℚ) (size : Nat)
    (hx : StrictlyIncreasing x_array size) (i : Nat) (h1 : 1 ≤ i) (hi : i + 1 < size)
    (m : checked_mem)
    (hms : m.s = checked_filled size 0 i (steffen_s x_array y_array))
    (hmh : m.h = checked_filled size 0 i (steffen_h x_array))
    (hmy : m.y_prime = checked_filled size 0 i (steffen_y_prime x_array y_array size))
    (hmp : m.p = checked_filled size 1 i (steffen_p x_array y_array)) :
    steffen_calc_checked_body1 (checked_input x_array size) (checked_input y_array size) i m
      = Except.ok
          { s := checked_filled size 0 (i + 1) (steffen_s x_array y_array)
            h := checked_filled size 0 (i + 1) (steffen_h x_array)
            y_prime := checked_filled size 0 (i + 1) (steffen_y_prime x_array y_array size)
            p := checked_filled size 1 (i + 1) (steffen_p x_array y_array)
            a := m.a, b := m.b, c := m.c, d := m.d } := by
  have hh : steffen_h x_array i ≠ 0 := ne_of_gt (steffen_h_pos hx hi)
  have hh2 : steffen_h x_array (i - 1) + steffen_h x_array i ≠ 0 := by
    have p1 := steffen_h_pos hx (show i - 1 + 1 < size by omega)
    have p2 := steffen_h_pos hx hi
    exact ne_of_gt (add_pos p1 p2)
  have w_h := checked_write_filled size 0 i (steffen_h x_array) (steffen_h x_array)
    (Nat.zero_le _) (by omega) (fun _ _ _ => rfl)
  have w_s := checked_write_filled size 0 i (steffen_s x_array y_array)
    (steffen_s x_array y_array) (Nat.zero_le _) (by omega) (fun _ _ _ => rfl)
  have w_p := checked_write_filled size 1 i (steffen_p x_array y_array)
    (steffen_p x_array y_array) h1 (by omega) (fun _ _ _ => rfl)
  have w_y := checked_write_filled size 0 i (steffen_y_prime x_array y_array size)
    (steffen_y_prime x_array y_array size) (Nat.zero_le _) (by omega) (fun _ _ _ => rfl)
  have e_h : x_array (i + 1) - x_array i = steffen_h x_array i := rfl
  have e_s : (y_array (i + 1) - y_array i) / steffen_h x_array i
      = steffen_s x_array y_array i := rfl
  have e_p : (steffen_s x_array y_array (i - 1) * steffen_h x_array i
        + steffen_s x_array y_array i * steffen_h x_array (i - 1))
      / (steffen_h x_array (i - 1) + steffen_h x_array i) = steffen_p x_array y_array i := rfl
  have e_y : (copysign1 (steffen_s x_array y_array (i - 1))
        + copysign1 (steffen_s x_array y_array i))
      * fmin (fabs (steffen_s x_array y_array (i - 1)))
        (fmin (fabs (steffen_s x_array y_array i))
          ((1 / 2) * fabs (steffen_p x_array y_array i)))
      = steffen_y_prime x_array y_array size i := by
    unfold steffen_y_prime
    rw [if_neg (show ¬ i = size - 1 by omega), if_neg (show ¬ i = 0 by omega)]
    rfl
  have r_hi := checked_read_filled size 0 (i + 1) (steffen_h x_array) i (Nat.zero_le _)
    (by omega) (by omega)
  have r_hp := checked_read_filled size 0 (i + 1) (steffen_h x_array) (i - 1) (Nat.zero_le _)
    (by omega) (by omega)
  have r_si := checked_read_filled size 0 (i + 1) (steffen_s x_array y_array) i (Nat.zero_le _)
    (by omega) (by omega)
  have r_sp := checked_read_filled size 0 (i + 1) (steffen_s x_array y_array) (i - 1)
    (Nat.zero_le _) (by omega) (by omega)
  have r_p := checked_read_filled size 1 (i + 1) (steffen_p x_array y_array) i h1
    (by omega) (by omega)
  have d1 := checked_div_ok (y_array (i + 1) - y_array i) (steffen_h x_array i) hh
  have d2 := checked_div_ok (steffen_s x_array y_array (i - 1) * steffen_h x_array i
    + steffen_s x_array y_array i * steffen_h x_array (i - 1))
    (steffen_h x_array (i - 1) + steffen_h x_array i) hh2
  unfold steffen_calc_checked_body1
  simp only [bind, Except.bind, pure, Except.pure, hmh, hms, hmy, hmp,
    checked_read_input x_array size (i + 1) hi, checked_read_input x_array size i (by omega),
    checked_read_input y_array size (i + 1) hi, checked_read_input y_array size i (by omega),
    e_h, w_h, r_hi, d1, e_s, w_s, r_sp, r_si, r_hp, d2, e_p, w_p, r_p, e_y, w_y]

/-- The first loop runs without fault for `k` iterations, `k <= size - 2`, from
the state the left boundary leaves, and has then written the temporaries up to
index `k`. -/
theorem steffen_calc_checked_loop1_ok (x_array y_array : Nat → ℚ) (size : Nat)
    (hx : StrictlyIncreasing x_array size) (m : checked_mem)
    (hms : m.s = checked_filled size 0 1 (steffen_s x_array y_array))
    (hmh : m.h = checked_filled size 0 1 (steffen_h x_array))
    (hmy : m.y_prime = checked_filled size 0 1 (steffen_y_prime x_array y_array size))
    (hmp : m.p = checked_fresh size) :
    ∀ k : Nat, k + 1 < size →
      steffen_calc_checked_loop1 (checked_input x_array size) (checked_input y_array size) k m
        = Except.ok
            { s := checked_filled size 0 (k + 1) (steffen_s x_array y_array)
              h := checked_filled size 0 (k + 1) (steffen_h x_array)
              y_prime := checked_filled size 0 (k + 1) (steffen_y_prime x_array y_array size)
              p := checked_filled size 1 (k + 1) (steffen_p x_array y_array)
              a := m.a, b := m.b, c := m.c, d := m.d } := by
  intro k
  induction k with
  | zero =>
    intro _
    simp only [steffen_calc_checked_loop1, pure, Except.pure]
    congr 1
    cases m
    simp only [checked_mem.mk.injEq] at hms hmh hmy hmp ⊢
    exact ⟨hms, hmh, hmy, hmp.trans (checked_fresh_eq_filled size 1 _), trivial, trivial,
      trivial, trivial⟩
  | succ n ih =>
    intro hk
    simp only [steffen_calc_checked_loop1, bind, Except.bind, ih (by omega)]
    rw [steffen_calc_checked_body1_ok x_array y_array size hx (n + 1) (by omega) hk _ rfl rfl
      rfl rfl]

/-- Line 137 runs without fault once the first loop is done and leaves
`y_prime` written at all `size` indices. -/
theorem steffen_calc_checked_right_ok (x_array y_array : Nat → ℚ) (size : Nat) (hs : 2 ≤ size)
    (m : checked_mem)
    (hms : m.s = checked_filled size 0 (size - 1) (steffen_s x_array y_array))
    (hmy : m.y_prime = checked_filled size 0 (size - 1) (steffen_y_prime x_array y_array size)) :
    steffen_calc_checked_right size m
      = Except.ok
          { s := m.s, h := m.h
            y_prime := checked_filled size 0 size (steffen_y_prime x_array y_array size)
            p := m.p, a := m.a, b := m.b, c := m.c, d := m.d } := by
  have r_s := checked_read_filled size 0 (size - 1) (steffen_s x_array y_array) (size - 2)
    (Nat.zero_le _) (by omega) (by omega)
  have e_y : steffen_s x_array y_array (size - 2)
      = steffen_y_prime x_array y_array size (size - 1) := by
    unfold steffen_y_prime
    rw [if_pos rfl]
  have w_y := checked_write_filled size 0 (size - 1) (steffen_y_prime x_array y_array size)
    (steffen_y_prime x_array y_array size) (Nat.zero_le _) (by omega) (fun _ _ _ => rfl)
  have e1 : size - 1 + 1 = size := by omega
  rw [e1] at w_y
  unfold steffen_calc_checked_right
  simp only [bind, Except.bind, pure, Except.pure, hms, hmy, r_s, e_y, w_y]

/-- Body of the second loop at a segment index runs without fault and leaves
the four coefficients of the segment written, with the values that the
temporaries give. -/
theorem steffen_calc_checked_body2_ok (x_array y_array : Nat → ℚ) (size : Nat)
    (hx : StrictlyIncreasing x_array size) (fa fb fc fd : Nat → ℚ) (i : Nat) (hi : i + 1 < size)
    (hfa : fa i = (steffen_y_prime x_array y_array size i
      + steffen_y_prime x_array y_array size (i + 1) - 2 * steffen_s x_array y_array i)
      / steffen_h x_array i / steffen_h x_array i)
    (hfb : fb i = (3 * steffen_s x_array y_array i - 2 * steffen_y_prime x_array y_array size i
      - steffen_y_prime x_array y_array size (i + 1)) / steffen_h x_array i)
    (hfc : fc i = steffen_y_prime x_array y_array size i)
    (hfd : fd i = y_array i)
    (m : checked_mem)
    (hms : m.s = checked_filled size 0 (size - 1) (steffen_s x_array y_array))
    (hmh : m.h = checked_filled size 0 (size - 1) (steffen_h x_array))
    (hmy : m.y_prime = checked_filled size 0 size (steffen_y_prime x_array y_array size))
    (hma : m.a = checked_filled size 0 i fa) (hmb : m.b = checked_filled size 0 i fb)
    (hmc : m.c = checked_filled size 0 i fc) (hmd : m.d = checked_filled size 0 i fd) :
    steffen_calc_checked_body2 (checked_input y_array size) i m
      = Except.ok
          { s := m.s, h := m.h, y_prime := m.y_prime, p := m.p
            a := checked_filled size 0 (i + 1) fa
            b := checked_filled size 0 (i + 1) fb
            c := checked_filled size 0 (i + 1) fc
            d := checked_filled size 0 (i + 1) fd } := by
  have hh : steffen_h x_array i ≠ 0 := ne_of_gt (steffen_h_pos hx hi)
  have r_y := checked_read_filled size 0 size (steffen_y_prime x_array y_array size) i
    (Nat.zero_le _) (by omega) le_rfl
  have r_y1 := checked_read_filled size 0 size (steffen_y_prime x_array y_array size) (i + 1)
    (Nat.zero_le _) hi le_rfl
  have r_s := checked_read_filled size 0 (size - 1) (steffen_s x_array y_array) i
    (Nat.zero_le _) (by omega) (by omega)
  have r_h := checked_read_filled size 0 (size - 1) (steffen_h x_array) i
    (Nat.zero_le _) (by omega) (by omega)
  have d1 := checked_div_ok (steffen_y_prime x_array y_array size i
    + steffen_y_prime x_array y_array size (i + 1) - 2 * steffen_s x_array y_array i)
    (steffen_h x_array i) hh
  have d2 := checked_div_ok ((steffen_y_prime x_array y_array size i
    + steffen_y_prime x_array y_array size (i + 1) - 2 * steffen_s x_array y_array i)
    / steffen_h x_array i) (steffen_h x_array i) hh
  have d3 := checked_div_ok (3 * steffen_s x_array y_array i
    - 2 * steffen_y_prime x_array y_array size i - steffen_y_prime x_array y_array size (i + 1))
    (steffen_h x_array i) hh
  have w_a := checked_write_filled size 0 i fa fa (Nat.zero_le _) (by omega) (fun _ _ _ => rfl)
  have w_b := checked_write_filled size 0 i fb fb (Nat.zero_le _) (by omega) (fun _ _ _ => rfl)
  have w_c := checked_write_filled size 0 i fc fc (Nat.zero_le _) (by omega) (fun _ _ _ => rfl)
  have w_d := checked_write_filled size 0 i fd fd (Nat.zero_le _) (by omega) (fun _ _ _ => rfl)
  rw [hfa] at w_a
  rw [hfb] at w_b
  rw [hfc] at w_c
  rw [hfd] at w_d
  unfold steffen_calc_checked_body2
  simp only [bind, Except.bind, pure, Except.pure, hms, hmh, hmy, hma, hmb, hmc, hmd,
    checked_read_input y_array size i (by omega), r_y, r_y1, r_s, r_h, d1, d2, d3, w_a, w_b,
    w_c, w_d]

/-- The second loop runs without fault for `k` iterations, `k <= size - 1`, and
has then written the coefficients of the segments `0 .. k - 1`. -/
theorem steffen_calc_checked_loop2_ok (x_array y_array : Nat → ℚ) (size : Nat)
    (hx : StrictlyIncreasing x_array size) (fa fb fc fd : Nat → ℚ)
    (hfa : ∀ i, i + 1 < size → fa i = (steffen_y_prime x_array y_array size i
      + steffen_y_prime x_array y_array size (i + 1) - 2 * steffen_s x_array y_array i)
      / steffen_h x_array i / steffen_h x_array i)
    (hfb : ∀ i, i + 1 < size → fb i = (3 * steffen_s x_array y_array i
      - 2 * steffen_y_prime x_array y_array size i
      - steffen_y_prime x_array y_array size (i + 1)) / steffen_h x_array i)
    (hfc : ∀ i, i + 1 < size → fc i = steffen_y_prime x_array y_array size i)
    (hfd : ∀ i, i + 1 < size → fd i = y_array i)
    (m : checked_mem)
    (hms : m.s = checked_filled size 0 (size - 1) (steffen_s x_array y_array))
    (hmh : m.h = checked_filled size 0 (size - 1) (steffen_h x_array))
    (hmy : m.y_prime = checked_filled size 0 size (steffen_y_prime x_array y_array size))
    (hma : m.a = checked_fresh size) (hmb : m.b = checked_fresh size)
    (hmc : m.c = checked_fresh size) (hmd : m.d = checked_fresh size) :
    ∀ k : Nat, k + 1 ≤ size →
      steffen_calc_checked_loop2 (checked_input y_array size) k m
        = Except.ok
            { s := m.s, h := m.h, y_prime := m.y_prime, p := m.p
              a := checked_filled size 0 k fa
              b := checked_filled size 0 k fb
              c := checked_filled size 0 k fc
              d := checked_filled size 0 k fd } := by
  intro k
  induction k with
  | zero =>
    intro _
    simp only [steffen_calc_checked_loop2, pure, Except.pure]
    congr 1
    cases m
    simp only [checked_mem.mk.injEq] at hma hmb hmc hmd ⊢
    exact ⟨trivial, trivial, trivial, trivial, hma.trans (checked_fresh_eq_filled size 0 _),
      hmb.trans (checked_fresh_eq_filled size 0 _), hmc.trans (checked_fresh_eq_filled size 0 _),
      hmd.trans (checked_fresh_eq_filled size 0 _)⟩
  | succ n ih =>
    intro hk
    simp only [steffen_calc_checked_loop2, bind, Except.bind, ih (by omega)]
    rw [steffen_calc_checked_body2_ok x_array y_array size hx fa fb fc fd n (by omega)
      (hfa n (by omega)) (hfb n (by omega)) (hfc n (by omega)) (hfd n (by omega))
      { s := m.s, h := m.h, y_prime := m.y_prime, p := m.p
        a := checked_filled size 0 n fa, b := checked_filled size 0 n fb
        c := checked_filled size 0 n fc, d := checked_filled size 0 n fd }
      hms hmh hmy rfl rfl rfl rfl]

/-- On a strictly increasing table with at least two samples, `steffen_calc` on
checked memory runs to its end without fault.  It leaves `h` and `s` written at
`0 .. size-2`, `p` at `1 .. size-2`, `y_prime` at `0 .. size-1`, and the
coefficient arrays written at `0 .. size-2` and nowhere else, with the values
`steffen_calc` computes. -/
theorem steffen_calc_checked_ok (t0 : steffen_tmp) (st : steffen_state_t)
    (x_array y_array : Nat → ℚ) (size : Nat) (hs : 2 ≤ size)
    (hx : StrictlyIncreasing x_array size) :
    steffen_calc_checked x_array y_array size
      = Except.ok
          { s := checked_filled size 0 (size - 1) (steffen_calc_tmp t0 x_array y_array size).s
            h := checked_filled size 0 (size - 1) (steffen_calc_tmp t0 x_array y_array size).h
            y_prime := checked_filled size 0 size
              (steffen_calc_tmp t0 x_array y_array size).y_prime
            p := checked_filled size 1 (size - 1) (steffen_p x_array y_array)
            a := checked_filled size 0 (size - 1) (steffen_calc t0 x_array y_array st size).a
            b := checked_filled size 0 (size - 1) (steffen_calc t0 x_array y_array st size).b
            c := checked_filled size 0 (size - 1) (steffen_calc t0 x_array y_array st size).c
            d := checked_filled size 0 (size - 1) (steffen_calc t0 x_array y_array st size).d } := by
  obtain ⟨hhs, hy⟩ := steffen_calc_tmp_spec t0 x_array y_array size hs
  have e1 : size - 1 - 1 + 1 = size - 1 := by omega
  unfold steffen_calc_checked
  simp only [bind, Except.bind]
  rw [steffen_calc_checked_left_ok x_array y_array size hs hx _ rfl rfl rfl]
  simp only []
  rw [steffen_calc_checked_loop1_ok x_array y_array size hx _ rfl rfl rfl rfl (size - 1 - 1)
    (by omega)]
  simp only [e1]
  rw [steffen_calc_checked_right_ok x_array y_array size hs _ rfl rfl]
  simp only []
  rw [steffen_calc_checked_loop2_ok x_array y_array size hx
    (steffen_calc t0 x_array y_array st size).a (steffen_calc t0 x_array y_array st size).b
    (steffen_calc t0 x_array y_array st size).c (steffen_calc t0 x_array y_array st size).d
    (fun i hi => (steffen_calc_coeffs t0 x_array y_array st size hs i hi).1)
    (fun i hi => (steffen_calc_coeffs t0 x_array y_array st size hs i hi).2.1)
    (fun i hi => (steffen_calc_coeffs t0 x_array y_array st size hs i hi).2.2.1)
    (fun i hi => (steffen_calc_coeffs t0 x_array y_array st size hs i hi).2.2.2)
    _ rfl rfl rfl rfl rfl rfl rfl (size - 1) (by omega)]
  simp only []
  congr 2
  · exact checked_filled_congr _ _ _ _ _ (fun j _ hj => ((hhs j (by omega)).2).symm)
  · exact checked_filled_congr _ _ _ _ _ (fun j _ hj => ((hhs j (by omega)).1).symm)
  · exact checked_filled_congr _ _ _ _ _ (fun j _ hj => (hy j hj).symm)

/-- The checked run does stop with a fault on a table with two equal
abscissae: `x = [0,0,1]` makes `h[0] = 0` and line 118 divides by it. -/
theorem steffen_calc_checked_fault_on_tie :
    steffen_calc_checked (ofList [0, 0, 1]) (ofList [0, 1, 2]) 3
      = Except.error calc_fault.division_by_zero := by
  simp [steffen_calc_checked, steffen_calc_checked_left, checked_read, checked_write,
    checked_div, checked_input, checked_fresh, ofList, bind, Except.bind]

/-- C25. The Steffen fit is well defined on valid tables: for every table with
`size >= 3` and strictly increasing abscissae every divisor of `steffen_calc`
is positive (`h_i > 0` for `i <= size - 2`, `h_{i-1} + h_i > 0` for
`1 <= i <= size - 2`), and the run of `steffen_calc` on checked memory ends
without fault: no read or write falls outside an array of `size` cells, no
cell is read before it is written, no division is by zero.  At the end `h` and
`s` are written exactly at `0 .. size-2`, `p` at `1 .. size-2`, `y_prime` at
`0 .. size-1`, and `a`, `b`, `c`, `d` exactly at `0 .. size-2`, holding the
values that `steffen_calc` computes. -/
theorem steffen_calc_well_defined (t0 : steffen_tmp) (st : steffen_state_t)
    (x_array y_array : Nat → ℚ) (size : Nat) (hs : 3 ≤ size)
    (hx : StrictlyIncreasing x_array size) :
    (∀ i, i + 1 < size → 0 < steffen_h x_array i) ∧
    (∀ i, 1 ≤ i → i + 1 < size → 0 < steffen_h x_array (i - 1) + steffen_h x_array i) ∧
    ∃ m : checked_mem, steffen_calc_checked x_array y_array size = Except.ok m ∧
      m.h = checked_filled size 0 (size - 1) (steffen_h x_array) ∧
      m.s = checked_filled size 0 (size - 1) (steffen_s x_array y_array) ∧
      m.p = checked_filled size 1 (size - 1) (steffen_p x_array y_array) ∧
      m.y_prime = checked_filled size 0 size (steffen_y_prime x_array y_array size) ∧
      m.a = checked_filled size 0 (size - 1) (steffen_calc t0 x_array y_array st size).a ∧
      m.b = checked_filled size 0 (size - 1) (steffen_calc t0 x_array y_array st size).b ∧
      m.c = checked_filled size 0 (size - 1) (steffen_calc t0 x_array y_array st size).c ∧
      m.d = checked_filled size 0 (size - 1) (steffen_calc t0 x_array y_array st size).d := by
  obtain ⟨hhs, hy⟩ := steffen_calc_tmp_spec t0 x_array y_array size (by omega)
  refine ⟨fun i hi => steffen_h_pos hx hi, fun i h1 hi => ?_, _,
    steffen_calc_checked_ok t0 st x_array y_array size (by omega) hx, ?_, ?_, rfl, ?_, rfl, rfl,
    rfl, rfl⟩
  · have p1 : 0 < steffen_h x_array (i - 1) := steffen_h_pos hx (by omega)
    have p2 : 0 < steffen_h x_array i := steffen_h_pos hx hi
    linarith
  · exact checked_filled_congr _ _ _ _ _ (fun j _ hj => (hhs j (by omega)).1)
  · exact checked_filled_congr _ _ _ _ _ (fun j _ hj => (hhs j (by omega)).2)
  · exact checked_filled_congr _ _ _ _ _ (fun j _ hj => hy j hj)

/-- C25 on the table `x = [0,1,2,3,4]`, `y = [0,2,1,3,0]`: the run ends without
fault. -/
theorem steffen_calc_well_defined_witness :
    (3 ≤ 5 ∧ StrictlyIncreasing test_steffen_data 5) ∧
    ∃ m : checked_mem,
      steffen_calc_checked test_steffen_data (ofList [0, 2, 1, 3, 0]) 5 = Except.ok m ∧
      m.a = checked_filled 5 0 4
        (steffen_calc tmp0 test_steffen_data (ofList [0, 2, 1, 3, 0]) state0 5).a := by
  have hx : StrictlyIncreasing test_steffen_data 5 := by
    intro i hi
    have hi' : i = 0 ∨ i = 1 ∨ i = 2 ∨ i = 3 := by omega
    rcases hi' with e | e | e | e <;> subst e <;> norm_num [test_steffen_data, ofList]
  obtain ⟨m, hm, -, -, -, -, ha, -⟩ := (steffen_calc_well_defined tmp0 state0 test_steffen_data
    (ofList [0, 2, 1, 3, 0]) 5 (by decide) hx).2.2
  exact ⟨⟨by decide, hx⟩, m, hm, ha⟩

/-! ## Lookups through an accelerator -/

/-- A strictly increasing table is sorted. -/
theorem StrictlyIncreasing.sortedOn {x_array : Nat → ℚ} {size : Nat}
    (hx : StrictlyIncreasing x_array size) : SortedOn x_array 0 (size - 1) := by
  intro i j _ hij hj
  by_cases h : j < size
  · exact hx.le hij h
  · have e : i = j := by omega
    rw [e]

/-- On a strictly increasing table the evaluators resolve the index of the
bounded binary search, with or without an accelerator and whatever its state. -/
theorem steffen_lookup_of_increasing {x_array : Nat → ℚ} {size : Nat}
    (hx : StrictlyIncreasing x_array size) (x : ℚ) (a : Option gsl_interp_accel) :
    steffen_lookup x_array size x a = gsl_interp_bsearch x_array x 0 (size - 1) := by
  cases a with
  | none => rfl
  | some acc => exact gsl_interp_accel_find_eq acc x_array size hx.sortedOn x

/-- On a strictly increasing table `steffen_eval` and `steffen_eval_deriv`
return `GSL_SUCCESS` and, with any accelerator, the value they return with
none. -/
theorem steffen_eval_any_accel (state : steffen_state_t) {x_array : Nat → ℚ} (y_array : Nat → ℚ)
    {size : Nat} (hx : StrictlyIncreasing x_array size) (x : ℚ) (a : Option gsl_interp_accel) :
    (steffen_eval state x_array y_array size x a).1 = GSL_SUCCESS ∧
    (steffen_eval state x_array y_array size x a).2.1
      = (steffen_eval state x_array y_array size x none).2.1 ∧
    (steffen_eval_deriv state x_array y_array size x a).1 = GSL_SUCCESS ∧
    (steffen_eval_deriv state x_array y_array size x a).2.1
      = (steffen_eval_deriv state x_array y_array size x none).2.1 := by
  obtain ⟨e1, e2, _⟩ := steffen_eval_eq_block state x_array y_array size x a
  obtain ⟨n1, n2, _⟩ := steffen_eval_eq_block state x_array y_array size x none
  refine ⟨by cases a <;> rfl, ?_, by cases a <;> rfl, ?_⟩
  · rw [e1, n1, steffen_lookup_of_increasing hx, steffen_lookup_of_increasing hx]
  · rw [e2, n2, steffen_lookup_of_increasing hx, steffen_lookup_of_increasing hx]

/-- On a strictly increasing table the two lookups of `steffen_eval_integ`
resolve the indices of the bounded binary search, with or without an
accelerator. -/
theorem steffen_eval_integ_indices_of_increasing {x_array : Nat → ℚ} {size : Nat}
    (hx : StrictlyIncreasing x_array size) (acc : Option gsl_interp_accel) (a b : ℚ) :
    (steffen_eval_integ_indices x_array size acc a b).1
      = gsl_interp_bsearch x_array a 0 (size - 1) ∧
    (steffen_eval_integ_indices x_array size acc a b).2.1
      = gsl_interp_bsearch x_array b 0 (size - 1) := by
  cases acc with
  | none => exact ⟨rfl, rfl⟩
  | some ac =>
    exact ⟨gsl_interp_accel_find_eq ac x_array size hx.sortedOn a,
      gsl_interp_accel_find_eq _ x_array size hx.sortedOn b⟩

/-- On a strictly increasing table `steffen_eval_integ` returns, with any
accelerator, the status and the value it returns with none. -/
theorem steffen_eval_integ_any_accel (state : steffen_state_t) {x_array : Nat → ℚ}
    (y_array : Nat → ℚ) {size : Nat} (hx : StrictlyIncreasing x_array size)
    (acc : Option gsl_interp_accel) (a b : ℚ) :
    (steffen_eval_integ state x_array y_array size acc a b).1
      = (steffen_eval_integ state x_array y_array size none a b).1 ∧
    (steffen_eval_integ state x_array y_array size acc a b).2.1
      = (steffen_eval_integ state x_array y_array size none a b).2.1 := by
  obtain ⟨e1, e2⟩ := steffen_eval_integ_indices_of_increasing hx acc a b
  obtain ⟨n1, n2⟩ := steffen_eval_integ_indices_of_increasing hx none a b
  unfold steffen_eval_integ
  simp only [e1, e2, n1, n2, and_self]

/-! ## The guarantees of the fit in exact arithmetic, for every accelerator -/

/-- C2, amended. In exact arithmetic (the doubles and their operations read as
rationals): for every table with at least three samples and strictly
increasing abscissae (whether or not the ordinates are monotonic), every query
strictly between two consecutive samples and every accelerator or none,
`steffen_eval` returns `GSL_SUCCESS` and a value that lies between the smaller
and the larger of the two bracketing ordinates. -/
theorem steffen_eval_between_samples (t0 : steffen_tmp) (vstate : steffen_state_t)
    (x_array y_array : Nat → ℚ) (size : Nat) (hs : 3 ≤ size)
    (hx : StrictlyIncreasing x_array size) (i : Nat) (hi : i + 1 < size) (x : ℚ)
    (h1 : x_array i < x) (h2 : x < x_array (i + 1)) (a : Option gsl_interp_accel) :
    (steffen_eval (steffen_init t0 vstate x_array y_array size).2 x_array y_array size
      x a).1 = GSL_SUCCESS ∧
    min (y_array i) (y_array (i + 1))
      ≤ (steffen_eval (steffen_init t0 vstate x_array y_array size).2 x_array y_array size
          x a).2.1 ∧
    (steffen_eval (steffen_init t0 vstate x_array y_array size).2 x_array y_array size
        x a).2.1
      ≤ max (y_array i) (y_array (i + 1)) := by
  obtain ⟨hst, hval, -, -⟩ := steffen_eval_any_accel
    (steffen_init t0 vstate x_array y_array size).2 y_array hx x a
  rw [hst, hval, steffen_eval_none, gsl_interp_bsearch_eq_of_mem hx hi (le_of_lt h1) h2]
  obtain ⟨ha, hb, hc, hd⟩ := steffen_calc_coeffs t0 x_array y_array vstate size (by omega) i hi
  simp only [steffen_init, ha, hb, hc, hd]
  have hh := steffen_h_pos hx hi
  have hsh := steffen_s_mul_h hx y_array hi
  have hb := segment_value_between hh (steffen_y_prime_bounded_left x_array y_array size i hi)
    (steffen_y_prime_bounded_right x_array y_array size i hi)
    (show 0 ≤ x - x_array i by linarith)
    (show x - x_array i ≤ steffen_h x_array i by unfold steffen_h; linarith)
  refine ⟨trivial, ?_, ?_⟩
  · rcases le_total 0 (steffen_s x_array y_array i) with hs0 | hs0
    · have := (hb.1 hs0).1
      exact le_trans (min_le_left _ _) (by linarith)
    · have := (hb.2 hs0).1
      exact le_trans (min_le_right _ _) (by linarith)
  · rcases le_total 0 (steffen_s x_array y_array i) with hs0 | hs0
    · have := (hb.1 hs0).2
      exact le_trans (by linarith) (le_max_right _ _)
    · have := (hb.2 hs0).2
      exact le_trans (by linarith) (le_max_left _ _)

/-- C2, amended, on the table `x = [0,1,2,3,4]`, `y = [0,1,4,9,16]` with a new
accelerator: the value at `3/2` lies between `y[1] = 1` and `y[2] = 4`. -/
theorem steffen_eval_between_samples_witness :
    StrictlyIncreasing test_steffen_data 5 ∧
    (test_steffen_data 1 < 3 / 2 ∧ (3 / 2 : ℚ) < test_steffen_data (1 + 1)) ∧
    min (ofList [0, 1, 4, 9, 16] 1) (ofList [0, 1, 4, 9, 16] (1 + 1))
      ≤ (steffen_eval (steffen_init tmp0 state0 test_steffen_data (ofList [0, 1, 4, 9, 16]) 5).2
          test_steffen_data (ofList [0, 1, 4, 9, 16]) 5 (3 / 2)
          (some gsl_interp_accel_alloc)).2.1 ∧
    (steffen_eval (steffen_init tmp0 state0 test_steffen_data (ofList [0, 1, 4, 9, 16]) 5).2
        test_steffen_data (ofList [0, 1, 4, 9, 16]) 5 (3 / 2) (some gsl_interp_accel_alloc)).2.1
      ≤ max (ofList [0, 1, 4, 9, 16] 1) (ofList [0, 1, 4, 9, 16] (1 + 1)) := by
  have hx : StrictlyIncreasing test_steffen_data 5 := by
    intro i hi
    have : i = 0 ∨ i = 1 ∨ i = 2 ∨ i = 3 := by omega
    rcases this with h | h | h | h <;> subst h <;> norm_num [test_steffen_data, ofList]
  have h1 : test_steffen_data 1 < 3 / 2 := by norm_num [test_steffen_data, ofList]
  have h2 : (3 / 2 : ℚ) < test_steffen_data (1 + 1) := by norm_num [test_steffen_data, ofList]
  have h := steffen_eval_between_samples tmp0 state0 test_steffen_data
    (ofList [0, 1, 4, 9, 16]) 5 (by decide) hx 1 (by decide) (3 / 2) h1 h2
    (some gsl_interp_accel_alloc)
  exact ⟨hx, ⟨h1, h2⟩, h.2.1, h.2.2⟩

/-- C3, amended. In exact arithmetic (the doubles and their operations read as
rationals): for every table with at least three samples and strictly
increasing abscissae (ordinates arbitrary), every segment `i` and every offset
`0 <= delx <= h_i`, the first derivative `c_i + delx*(2*b_i + delx*3*a_i)` of
the fitted cubic has the sign of the segment slope `s_i` (their product is
non-negative) and vanishes when `s_i = 0`; and this is the value that
`steffen_eval_deriv` returns, with `GSL_SUCCESS`, for a query `x` with
`x_i <= x < x_{i+1}`, where `delx = x - x_i`, with every accelerator or none. -/
theorem steffen_deriv_sign_of_slope (t0 : steffen_tmp) (vstate : steffen_state_t)
    (x_array y_array : Nat → ℚ) (size : Nat) (hs : 3 ≤ size)
    (hx : StrictlyIncreasing x_array size) (i : Nat) (hi : i + 1 < size) (delx : ℚ)
    (h0 : 0 ≤ delx) (h1 : delx ≤ x_array (i + 1) - x_array i) :
    0 ≤ (y_array (i + 1) - y_array i) / (x_array (i + 1) - x_array i)
        * ((steffen_init t0 vstate x_array y_array size).2.c i
          + delx * (2 * (steffen_init t0 vstate x_array y_array size).2.b i
            + delx * 3 * (steffen_init t0 vstate x_array y_array size).2.a i)) ∧
    ((y_array (i + 1) - y_array i) / (x_array (i + 1) - x_array i) = 0 →
      (steffen_init t0 vstate x_array y_array size).2.c i
          + delx * (2 * (steffen_init t0 vstate x_array y_array size).2.b i
            + delx * 3 * (steffen_init t0 vstate x_array y_array size).2.a i) = 0) ∧
    (delx < x_array (i + 1) - x_array i → ∀ a : Option gsl_interp_accel,
      (steffen_eval_deriv (steffen_init t0 vstate x_array y_array size).2 x_array y_array size
          (x_array i + delx) a).1 = GSL_SUCCESS ∧
      (steffen_eval_deriv (steffen_init t0 vstate x_array y_array size).2 x_array y_array size
          (x_array i + delx) a).2.1
        = (steffen_init t0 vstate x_array y_array size).2.c i
            + delx * (2 * (steffen_init t0 vstate x_array y_array size).2.b i
              + delx * 3 * (steffen_init t0 vstate x_array y_array size).2.a i)) := by
  obtain ⟨ha, hb, hc, _⟩ := steffen_calc_coeffs t0 x_array y_array vstate size (by omega) i hi
  have hh := steffen_h_pos hx hi
  have hL := steffen_y_prime_bounded_left x_array y_array size i hi
  have hR := steffen_y_prime_bounded_right x_array y_array size i hi
  have key := segment_deriv_sign hh hL hR h0 h1
  refine ⟨?_, ?_, ?_⟩
  · simp only [steffen_init, ha, hb, hc]
    exact key
  · intro hz
    have hz' : steffen_s x_array y_array i = 0 := hz
    simp only [steffen_init, ha, hb, hc]
    rw [hz'] at hL hR
    have eu : steffen_y_prime x_array y_array size i = 0 :=
      le_antisymm (by linarith [(hL.1 le_rfl).2]) (hL.1 le_rfl).1
    have ev : steffen_y_prime x_array y_array size (i + 1) = 0 :=
      le_antisymm (by linarith [(hR.1 le_rfl).2]) (hR.1 le_rfl).1
    rw [eu, ev, hz']
    simp
  · intro hlt a
    obtain ⟨-, -, hst, hval⟩ := steffen_eval_any_accel
      (steffen_init t0 vstate x_array y_array size).2 y_array hx (x_array i + delx) a
    refine ⟨hst, ?_⟩
    rw [hval, steffen_eval_deriv_none,
      gsl_interp_bsearch_eq_of_mem hx hi (show x_array i ≤ x_array i + delx by linarith)
        (show x_array i + delx < x_array (i + 1) by linarith)]
    simp only [add_sub_cancel_left]

/-- C3, amended, on the non-monotonic table `x = [0,1,2,3,4]`,
`y = [0,2,1,3,0]`, segment `1` (falling), offset `1/2`, with a new
accelerator. -/
theorem steffen_deriv_sign_of_slope_witness :
    StrictlyIncreasing test_steffen_data 5 ∧
    ((0 : ℚ) ≤ 1 / 2 ∧ (1 / 2 : ℚ) ≤ test_steffen_data (1 + 1) - test_steffen_data 1) ∧
    0 ≤ (ofList [0, 2, 1, 3, 0] (1 + 1) - ofList [0, 2, 1, 3, 0] 1)
          / (test_steffen_data (1 + 1) - test_steffen_data 1)
        * ((steffen_init tmp0 state0 test_steffen_data (ofList [0, 2, 1, 3, 0]) 5).2.c 1
          + 1 / 2 * (2 * (steffen_init tmp0 state0 test_steffen_data
                (ofList [0, 2, 1, 3, 0]) 5).2.b 1
            + 1 / 2 * 3 * (steffen_init tmp0 state0 test_steffen_data
                (ofList [0, 2, 1, 3, 0]) 5).2.a 1)) ∧
    (steffen_eval_deriv (steffen_init tmp0 state0 test_steffen_data (ofList [0, 2, 1, 3, 0]) 5).2
        test_steffen_data (ofList [0, 2, 1, 3, 0]) 5 (test_steffen_data 1 + 1 / 2)
        (some gsl_interp_accel_alloc)).1 = GSL_SUCCESS := by
  have hx : StrictlyIncreasing test_steffen_data 5 := by
    intro i hi
    have : i = 0 ∨ i = 1 ∨ i = 2 ∨ i = 3 := by omega
    rcases this with h | h | h | h <;> subst h <;> norm_num [test_steffen_data, ofList]
  have h0 : (0 : ℚ) ≤ 1 / 2 := by norm_num
  have h1 : (1 / 2 : ℚ) ≤ test_steffen_data (1 + 1) - test_steffen_data 1 := by
    norm_num [test_steffen_data, ofList]
  have hlt : (1 / 2 : ℚ) < test_steffen_data (1 + 1) - test_steffen_data 1 := by
    norm_num [test_steffen_data, ofList]
  have h := steffen_deriv_sign_of_slope tmp0 state0 test_steffen_data (ofList [0, 2, 1, 3, 0]) 5
    (by decide) hx 1 (by decide) (1 / 2) h0 h1
  exact ⟨hx, ⟨h0, h1⟩, h.1, (h.2.2 hlt (some gsl_interp_accel_alloc)).1⟩

/-- C4, amended. In exact arithmetic (the doubles and their operations read as
rationals): for every table with at least three samples and strictly
increasing abscissae and every interior boundary between segments `i` and
`i + 1`, the cubic of segment `i` at `delx = h_i` equals the cubic of segment
`i + 1` at `delx = 0`, both being `y_{i+1}`, and the first derivative of
segment `i` at `delx = h_i` equals the first derivative of segment `i + 1` at
`delx = 0`, both being `c_{i+1}`; these are also the value and derivative that
`steffen_eval` and `steffen_eval_deriv` return at `x_{i+1}`, with every
accelerator or none. -/
theorem steffen_continuous_at_knots (t0 : steffen_tmp) (vstate : steffen_state_t)
    (x_array y_array : Nat → ℚ) (size : Nat) (hs : 3 ≤ size)
    (hx : StrictlyIncreasing x_array size) (i : Nat) (hi : i + 2 < size) :
    ((steffen_init t0 vstate x_array y_array size).2.d i
        + (x_array (i + 1) - x_array i) * ((steffen_init t0 vstate x_array y_array size).2.c i
          + (x_array (i + 1) - x_array i) * ((steffen_init t0 vstate x_array y_array size).2.b i
            + (x_array (i + 1) - x_array i)
              * (steffen_init t0 vstate x_array y_array size).2.a i))
      = (steffen_init t0 vstate x_array y_array size).2.d (i + 1)
        + 0 * ((steffen_init t0 vstate x_array y_array size).2.c (i + 1)
          + 0 * ((steffen_init t0 vstate x_array y_array size).2.b (i + 1)
            + 0 * (steffen_init t0 vstate x_array y_array size).2.a (i + 1)))) ∧
    ((steffen_init t0 vstate x_array y_array size).2.d (i + 1)
        + 0 * ((steffen_init t0 vstate x_array y_array size).2.c (i + 1)
          + 0 * ((steffen_init t0 vstate x_array y_array size).2.b (i + 1)
            + 0 * (steffen_init t0 vstate x_array y_array size).2.a (i + 1)))
      = y_array (i + 1)) ∧
    ((steffen_init t0 vstate x_array y_array size).2.c i
        + (x_array (i + 1) - x_array i)
          * (2 * (steffen_init t0 vstate x_array y_array size).2.b i
            + (x_array (i + 1) - x_array i) * 3
              * (steffen_init t0 vstate x_array y_array size).2.a i)
      = (steffen_init t0 vstate x_array y_array size).2.c (i + 1)
        + 0 * (2 * (steffen_init t0 vstate x_array y_array size).2.b (i + 1)
          + 0 * 3 * (steffen_init t0 vstate x_array y_array size).2.a (i + 1))) ∧
    (∀ a : Option gsl_interp_accel,
      (steffen_eval (steffen_init t0 vstate x_array y_array size).2 x_array y_array size
          (x_array (i + 1)) a).1 = GSL_SUCCESS ∧
      (steffen_eval (steffen_init t0 vstate x_array y_array size).2 x_array y_array size
          (x_array (i + 1)) a).2.1 = y_array (i + 1)) ∧
    (∀ a : Option gsl_interp_accel,
      (steffen_eval_deriv (steffen_init t0 vstate x_array y_array size).2 x_array y_array size
          (x_array (i + 1)) a).1 = GSL_SUCCESS ∧
      (steffen_eval_deriv (steffen_init t0 vstate x_array y_array size).2 x_array y_array size
          (x_array (i + 1)) a).2.1
        = (steffen_init t0 vstate x_array y_array size).2.c (i + 1)) := by
  have hv := steffen_calc_right_end t0 x_array y_array vstate size (by omega) hx i (by omega)
  have hd := steffen_calc_right_end_deriv t0 x_array y_array vstate size (by omega) hx i
    (by omega)
  obtain ⟨_, _, hc1, hd1⟩ :=
    steffen_calc_coeffs t0 x_array y_array vstate size (by omega) (i + 1) (by omega)
  have hidx : gsl_interp_bsearch x_array (x_array (i + 1)) 0 (size - 1) = i + 1 :=
    gsl_interp_bsearch_eq_of_mem hx (by omega) le_rfl (hx (i + 1) (by omega))
  refine ⟨?_, ?_, ?_, ?_, ?_⟩
  · simp only [steffen_init, hv, hd1, zero_mul, add_zero]
  · simp only [steffen_init, hd1, zero_mul, add_zero]
  · simp only [steffen_init, hd, hc1, zero_mul, add_zero]
  · intro a
    obtain ⟨hst, hval, -, -⟩ := steffen_eval_any_accel
      (steffen_init t0 vstate x_array y_array size).2 y_array hx (x_array (i + 1)) a
    refine ⟨hst, ?_⟩
    rw [hval, steffen_eval_none, hidx]
    simp only [steffen_init, hd1, sub_self, zero_mul, add_zero]
  · intro a
    obtain ⟨-, -, hst, hval⟩ := steffen_eval_any_accel
      (steffen_init t0 vstate x_array y_array size).2 y_array hx (x_array (i + 1)) a
    refine ⟨hst, ?_⟩
    rw [hval, steffen_eval_deriv_none, hidx]
    simp only [steffen_init, sub_self, zero_mul, add_zero]

/-- C4, amended, on the table `x = [0,1,2,3,4]`, `y = [0,2,1,3,0]` at the knot
between segments `1` and `2`, with a new accelerator. -/
theorem steffen_continuous_at_knots_witness :
    StrictlyIncreasing test_steffen_data 5 ∧
    (steffen_eval (steffen_init tmp0 state0 test_steffen_data (ofList [0, 2, 1, 3, 0]) 5).2
        test_steffen_data (ofList [0, 2, 1, 3, 0]) 5 (test_steffen_data (1 + 1))
        (some gsl_interp_accel_alloc)).2.1 = ofList [0, 2, 1, 3, 0] (1 + 1) ∧
    (steffen_eval_deriv (steffen_init tmp0 state0 test_steffen_data (ofList [0, 2, 1, 3, 0]) 5).2
        test_steffen_data (ofList [0, 2, 1, 3, 0]) 5 (test_steffen_data (1 + 1))
        (some gsl_interp_accel_alloc)).2.1
      = (steffen_init tmp0 state0 test_steffen_data (ofList [0, 2, 1, 3, 0]) 5).2.c (1 + 1) := by
  have hx : StrictlyIncreasing test_steffen_data 5 := by
    intro i hi
    have : i = 0 ∨ i = 1 ∨ i = 2 ∨ i = 3 := by omega
    rcases this with h | h | h | h <;> subst h <;> norm_num [test_steffen_data, ofList]
  have h := steffen_continuous_at_knots tmp0 state0 test_steffen_data (ofList [0, 2, 1, 3, 0]) 5
    (by decide) hx 1 (by decide)
  exact ⟨hx, (h.2.2.2.1 (some gsl_interp_accel_alloc)).2,
    (h.2.2.2.2 (some gsl_interp_accel_alloc)).2⟩

/-- C7, amended. In exact arithmetic (the doubles and their operations read as
rationals), linear data is reproduced exactly: for every table with at least
three samples, strictly increasing abscissae and ordinates on the line
`y_i = m * x_i + q`, `steffen_init` stores `a_i = 0`, `b_i = 0`, `c_i = m` for
every segment, and for every query `x` and every accelerator or none
`steffen_eval` returns `m * x + q` and `steffen_eval_deriv` returns `m`, both
with `GSL_SUCCESS`. -/
theorem steffen_linear_exact (t0 : steffen_tmp) (vstate : steffen_state_t)
    (x_array y_array : Nat → ℚ) (size : Nat) (hs : 3 ≤ size)
    (hx : StrictlyIncreasing x_array size) (m q : ℚ)
    (hy : ∀ j, j < size → y_array j = m * x_array j + q) :
    (∀ i, i + 1 < size →
      (steffen_init t0 vstate x_array y_array size).2.a i = 0 ∧
      (steffen_init t0 vstate x_array y_array size).2.b i = 0 ∧
      (steffen_init t0 vstate x_array y_array size).2.c i = m) ∧
    (∀ (x : ℚ) (a : Option gsl_interp_accel),
      (steffen_eval (steffen_init t0 vstate x_array y_array size).2 x_array y_array size
        x a).1 = GSL_SUCCESS ∧
      (steffen_eval (steffen_init t0 vstate x_array y_array size).2 x_array y_array size
        x a).2.1 = m * x + q) ∧
    (∀ (x : ℚ) (a : Option gsl_interp_accel),
      (steffen_eval_deriv (steffen_init t0 vstate x_array y_array size).2 x_array y_array size
        x a).1 = GSL_SUCCESS ∧
      (steffen_eval_deriv (steffen_init t0 vstate x_array y_array size).2 x_array y_array size
        x a).2.1 = m) := by
  obtain ⟨hS, hY⟩ := steffen_y_prime_of_line (show 2 ≤ size by omega) hx hy
  have hco : ∀ i, i + 1 < size →
      (steffen_calc t0 x_array y_array vstate size).a i = 0 ∧
      (steffen_calc t0 x_array y_array vstate size).b i = 0 ∧
      (steffen_calc t0 x_array y_array vstate size).c i = m ∧
      (steffen_calc t0 x_array y_array vstate size).d i = m * x_array i + q := by
    intro i hi
    obtain ⟨ha, hb, hc, hd⟩ :=
      steffen_calc_coeffs t0 x_array y_array vstate size (by omega) i hi
    rw [ha, hb, hc, hd, hY i (by omega), hY (i + 1) hi, hS i hi, hy i (by omega)]
    refine ⟨?_, ?_, rfl, rfl⟩
    · have : m + m - 2 * m = 0 := by ring
      rw [this, zero_div, zero_div]
    · have : 3 * m - 2 * m - m = 0 := by ring
      rw [this, zero_div]
  refine ⟨?_, ?_, ?_⟩
  · intro i hi
    obtain ⟨ha, hb, hc, _⟩ := hco i hi
    exact ⟨ha, hb, hc⟩
  · intro x a
    obtain ⟨hst, hval, -, -⟩ := steffen_eval_any_accel
      (steffen_init t0 vstate x_array y_array size).2 y_array hx x a
    refine ⟨hst, ?_⟩
    rw [hval, steffen_eval_none]
    have hj := (gsl_interp_bsearch_inv x_array x 0 (size - 1) (by omega)).2.1
    obtain ⟨ha, hb, hc, hd⟩ := hco (gsl_interp_bsearch x_array x 0 (size - 1)) (by omega)
    simp only [steffen_init, ha, hb, hc, hd]
    ring
  · intro x a
    obtain ⟨-, -, hst, hval⟩ := steffen_eval_any_accel
      (steffen_init t0 vstate x_array y_array size).2 y_array hx x a
    refine ⟨hst, ?_⟩
    rw [hval, steffen_eval_deriv_none]
    have hj := (gsl_interp_bsearch_inv x_array x 0 (size - 1) (by omega)).2.1
    obtain ⟨ha, hb, hc, _⟩ := hco (gsl_interp_bsearch x_array x 0 (size - 1)) (by omega)
    simp only [steffen_init, ha, hb, hc]
    ring

/-- C7, amended, on the table of `test_steffen` (`m = 1`, `q = 0`) with a new
accelerator: the values at the test queries `0, 1/2, 1, 2` and at the query
`5/2` of the spec, derivative `1`. -/
theorem steffen_linear_exact_witness :
    StrictlyIncreasing test_steffen_data 5 ∧
    (∀ j, j < 5 → test_steffen_data j = 1 * test_steffen_data j + 0) ∧
    (∀ x : ℚ, x ∈ [0, 1 / 2, 1, 2, 5 / 2] →
      (steffen_eval (steffen_init tmp0 state0 test_steffen_data test_steffen_data 5).2
          test_steffen_data test_steffen_data 5 x (some gsl_interp_accel_alloc)).2.1 = x ∧
      (steffen_eval_deriv (steffen_init tmp0 state0 test_steffen_data test_steffen_data 5).2
          test_steffen_data test_steffen_data 5 x (some gsl_interp_accel_alloc)).2.1 = 1) := by
  have hx : StrictlyIncreasing test_steffen_data 5 := by
    intro i hi
    have : i = 0 ∨ i = 1 ∨ i = 2 ∨ i = 3 := by omega
    rcases this with h | h | h | h <;> subst h <;> norm_num [test_steffen_data, ofList]
  have hy : ∀ j, j < 5 → test_steffen_data j = 1 * test_steffen_data j + 0 := by
    intro j _
    ring
  have h := steffen_linear_exact tmp0 state0 test_steffen_data test_steffen_data 5
    (by decide) hx 1 0 hy
  refine ⟨hx, hy, ?_⟩
  intro x _
  refine ⟨?_, (h.2.2 x (some gsl_interp_accel_alloc)).2⟩
  have := (h.2.1 x (some gsl_interp_accel_alloc)).2
  simpa using this

/-- C22, amended. In exact arithmetic (the doubles and their operations read as
rationals, so that no slope overflows): for every table with at least three
samples and strictly increasing abscissae and every interior node
`1 <= i <= size - 2` whose adjacent slopes have opposite sign
(`s_{i-1} * s_i < 0`), `steffen_init` stores `c_i = 0`, and
`steffen_eval_deriv` at `x_i` returns `GSL_SUCCESS` and `0`, with every
accelerator or none. -/
theorem steffen_derivative_clamped (t0 : steffen_tmp) (vstate : steffen_state_t)
    (x_array y_array : Nat → ℚ) (size : Nat) (hx : StrictlyIncreasing x_array size)
    (i : Nat) (h1 : 1 ≤ i) (hi : i + 1 < size)
    (hopp : spec_s x_array y_array (i - 1) * spec_s x_array y_array i < 0) :
    (steffen_init t0 vstate x_array y_array size).2.c i = 0 ∧
    ∀ a : Option gsl_interp_accel,
      (steffen_eval_deriv (steffen_init t0 vstate x_array y_array size).2 x_array y_array size
        (x_array i) a).1 = GSL_SUCCESS ∧
      (steffen_eval_deriv (steffen_init t0 vstate x_array y_array size).2 x_array y_array size
        (x_array i) a).2.1 = 0 := by
  have hc := (steffen_calc_coeffs t0 x_array y_array vstate size (by omega) i hi).2.2.1
  have hy : steffen_y_prime x_array y_array size i = 0 := by
    unfold steffen_y_prime
    rw [if_neg (show ¬ i = size - 1 by omega), if_neg (show ¬ i = 0 by omega)]
    unfold steffen_y_prime_interior
    rw [spec_s_eq, spec_s_eq] at hopp
    have hsum : copysign1 (steffen_s x_array y_array (i - 1))
        + copysign1 (steffen_s x_array y_array i) = 0 := by
      unfold copysign1
      by_cases n1 : steffen_s x_array y_array (i - 1) < 0
      · have p2 : ¬ steffen_s x_array y_array i < 0 := by
          intro n2
          have := mul_pos_of_neg_of_neg n1 n2
          linarith
        rw [if_pos n1, if_neg p2]
        norm_num
      · have n2 : steffen_s x_array y_array i < 0 := by
          by_contra p2
          have := mul_nonneg (not_lt.mp n1) (not_lt.mp p2)
          linarith
        rw [if_neg n1, if_pos n2]
        norm_num
    rw [hsum, zero_mul]
  have hc0 : (steffen_init t0 vstate x_array y_array size).2.c i = 0 := by
    show (steffen_calc t0 x_array y_array vstate size).c i = 0
    rw [hc, hy]
  refine ⟨hc0, ?_⟩
  intro a
  obtain ⟨-, -, hst, hval⟩ := steffen_eval_any_accel
    (steffen_init t0 vstate x_array y_array size).2 y_array hx (x_array i) a
  refine ⟨hst, ?_⟩
  rw [hval, steffen_eval_deriv_none,
    gsl_interp_bsearch_eq_of_mem hx hi le_rfl (hx i hi), hc0]
  simp only [sub_self, zero_mul, add_zero]

/-- C22, amended, on the table `x = [0,1,2,3,4]`, `y = [0,2,1,3,0]` at node `1`,
a local maximum with slopes `2` and `-1`, with a new accelerator. -/
theorem steffen_derivative_clamped_witness :
    StrictlyIncreasing test_steffen_data 5 ∧
    spec_s test_steffen_data (ofList [0, 2, 1, 3, 0]) (1 - 1)
      * spec_s test_steffen_data (ofList [0, 2, 1, 3, 0]) 1 < 0 ∧
    (steffen_init tmp0 state0 test_steffen_data (ofList [0, 2, 1, 3, 0]) 5).2.c 1 = 0 ∧
    (steffen_eval_deriv (steffen_init tmp0 state0 test_steffen_data (ofList [0, 2, 1, 3, 0]) 5).2
      test_steffen_data (ofList [0, 2, 1, 3, 0]) 5 (test_steffen_data 1)
      (some gsl_interp_accel_alloc)).2.1 = 0 := by
  have hx : StrictlyIncreasing test_steffen_data 5 := by
    intro i hi
    have : i = 0 ∨ i = 1 ∨ i = 2 ∨ i = 3 := by omega
    rcases this with h | h | h | h <;> subst h <;> norm_num [test_steffen_data, ofList]
  have hopp : spec_s test_steffen_data (ofList [0, 2, 1, 3, 0]) (1 - 1)
      * spec_s test_steffen_data (ofList [0, 2, 1, 3, 0]) 1 < 0 := by
    norm_num [spec_s, spec_h, test_steffen_data, ofList]
  have h := steffen_derivative_clamped tmp0 state0 test_steffen_data (ofList [0, 2, 1, 3, 0]) 5
    hx 1 (by decide) (by decide) hopp
  exact ⟨hx, hopp, h.1, (h.2 (some gsl_interp_accel_alloc)).2⟩

/-! ## Reversed integration bounds, for every accelerator -/

/-- C11, amended. For every table with at least three samples and strictly
increasing abscissae, fitted by `steffen_init`, every accelerator or none and
every pair of bounds with `a > b`, `steffen_eval_integ` makes no check of the
order of the bounds: it returns `GSL_SUCCESS` with a value.  The resolved
indices satisfy `index_b <= index_a`; when they differ the value is `0`, and
when they are equal the value is the negative of the value that the call with
the bounds swapped returns. -/
theorem steffen_eval_integ_reversed (t0 : steffen_tmp) (vstate : steffen_state_t)
    (x_array y_array : Nat → ℚ) (size : Nat) (hs : 3 ≤ size)
    (hx : StrictlyIncreasing x_array size) (a b : ℚ) (hab : b < a)
    (acc : Option gsl_interp_accel) :
    (steffen_eval_integ (steffen_init t0 vstate x_array y_array size).2 x_array y_array size
      acc a b).1 = GSL_SUCCESS ∧
    (steffen_eval_integ_indices x_array size acc a b).2.1
      ≤ (steffen_eval_integ_indices x_array size acc a b).1 ∧
    ((steffen_eval_integ_indices x_array size acc a b).2.1
        < (steffen_eval_integ_indices x_array size acc a b).1 →
      (steffen_eval_integ (steffen_init t0 vstate x_array y_array size).2 x_array y_array size
        acc a b).2.1 = 0) ∧
    ((steffen_eval_integ_indices x_array size acc a b).2.1
        = (steffen_eval_integ_indices x_array size acc a b).1 →
      ∀ acc1 : Option gsl_interp_accel,
        (steffen_eval_integ (steffen_init t0 vstate x_array y_array size).2 x_array y_array size
          acc a b).2.1
        = - (steffen_eval_integ (steffen_init t0 vstate x_array y_array size).2 x_array y_array
          size acc1 b a).2.1) := by
  obtain ⟨e1, e2⟩ := steffen_eval_integ_indices_of_increasing hx acc a b
  obtain ⟨hst, hval⟩ := steffen_eval_integ_any_accel
    (steffen_init t0 vstate x_array y_array size).2 y_array hx acc a b
  rw [hst, hval, e1, e2, steffen_eval_integ_of_increasing _ x_array y_array size (by omega) hx a b]
  refine ⟨rfl, gsl_interp_bsearch_mono hx (by omega) (le_of_lt hab), ?_, ?_⟩
  · intro hlt
    dsimp only
    rw [Finset.Ico_eq_empty_of_le (by omega), Finset.sum_empty]
  · intro heq acc1
    rw [(steffen_eval_integ_any_accel (steffen_init t0 vstate x_array y_array size).2 y_array hx
      acc1 b a).2, steffen_eval_integ_of_increasing _ x_array y_array size (by omega) hx b a]
    dsimp only
    rw [heq, Nat.Ico_succ_singleton, Finset.sum_singleton, Finset.sum_singleton]
    simp only [steffen_integ_term, if_true]
    ring

/-- C11, amended, on the table of `test_steffen` with `a = 3/4 > b = 1/4`, both
in segment `0`, with a new accelerator. -/
theorem steffen_eval_integ_reversed_witness :
    StrictlyIncreasing test_steffen_data 5 ∧ (1 / 4 : ℚ) < 3 / 4 ∧
    (steffen_eval_integ (steffen_init tmp0 state0 test_steffen_data test_steffen_data 5).2
      test_steffen_data test_steffen_data 5 (some gsl_interp_accel_alloc) (3 / 4)
      (1 / 4)).1 = GSL_SUCCESS := by
  have hx : StrictlyIncreasing test_steffen_data 5 := by
    intro i hi
    have : i = 0 ∨ i = 1 ∨ i = 2 ∨ i = 3 := by omega
    rcases this with h | h | h | h <;> subst h <;> norm_num [test_steffen_data, ofList]
  have hab : (1 / 4 : ℚ) < 3 / 4 := by norm_num
  exact ⟨hx, hab,
    (steffen_eval_integ_reversed tmp0 state0 test_steffen_data test_steffen_data 5
      (by decide) hx (3 / 4) (1 / 4) hab (some gsl_interp_accel_alloc)).1⟩

/-- C27, as stated, fails on the table `x = [0,1,2]`, `y = [0,0,0]` with the
bounds `a = 2 > b = 0`: the indices resolve to `index_a = 1 > index_b = 0`, the
call returns `GSL_SUCCESS` and `0`, and `0` is the negative of what
`steffen_eval_integ (b, a)` returns, which is `0` as well. -/
theorem steffen_eval_integ_reversed_zero_negates :
    StrictlyIncreasing (ofList [0, 1, 2]) 3 ∧ (0 : ℚ) < 2 ∧
    gsl_interp_bsearch (ofList [0, 1, 2]) 0 0 (3 - 1)
      < gsl_interp_bsearch (ofList [0, 1, 2]) 2 0 (3 - 1) ∧
    steffen_eval_integ (steffen_init tmp0 state0 (ofList [0, 1, 2]) (ofList [0, 0, 0]) 3).2
      (ofList [0, 1, 2]) (ofList [0, 0, 0]) 3 none 2 0 = (GSL_SUCCESS, 0, none) ∧
    (steffen_eval_integ (steffen_init tmp0 state0 (ofList [0, 1, 2]) (ofList [0, 0, 0]) 3).2
        (ofList [0, 1, 2]) (ofList [0, 0, 0]) 3 none 2 0).2.1
      = - (steffen_eval_integ (steffen_init tmp0 state0 (ofList [0, 1, 2]) (ofList [0, 0, 0]) 3).2
        (ofList [0, 1, 2]) (ofList [0, 0, 0]) 3 none 0 2).2.1 := by
  have hx : StrictlyIncreasing (ofList [0, 1, 2]) 3 := by
    intro i hi
    have : i = 0 ∨ i = 1 := by omega
    rcases this with h | h <;> subst h <;> norm_num [ofList]
  refine ⟨hx, by norm_num, ?_, ?_, ?_⟩
  · norm_num [gsl_interp_bsearch, gsl_interp_bsearch_loop, ofList]
  · norm_num [steffen_eval_integ, steffen_eval_integ_indices, steffen_eval_integ_loop,
      gsl_interp_bsearch, gsl_interp_bsearch_loop, ofList]
  · norm_num [steffen_eval_integ, steffen_eval_integ_indices, steffen_eval_integ_loop,
      gsl_interp_bsearch, gsl_interp_bsearch_loop, ofList, steffen_init,
      steffen_calc, steffen_calc_loop2, steffen_calc_body2, steffen_calc_tmp,
      steffen_calc_right, steffen_calc_loop1, steffen_calc_body1, steffen_calc_left, tmp0,
      state0, Function.update, copysign1, fabs, fmin]

/-- C27, amended. Reversed bounds that fall in different segments integrate to
zero silently: for every table with at least three samples and strictly
increasing abscissae, fitted by `steffen_init`, every accelerator or none and
all bounds whose resolved indices satisfy `index_a > index_b` (which forces
`a > b`), `steffen_eval_integ` returns `GSL_SUCCESS` and the result `0`, the
loop running no iteration; this is the negative of what
`steffen_eval_integ (b, a)` returns if and only if the latter is `0`. -/
theorem steffen_eval_integ_reversed_zero (t0 : steffen_tmp) (vstate : steffen_state_t)
    (x_array y_array : Nat → ℚ) (size : Nat) (hs : 3 ≤ size)
    (hx : StrictlyIncreasing x_array size) (a b : ℚ) (acc : Option gsl_interp_accel)
    (hidx : (steffen_eval_integ_indices x_array size acc a b).2.1
      < (steffen_eval_integ_indices x_array size acc a b).1) :
    b < a ∧
    (steffen_eval_integ (steffen_init t0 vstate x_array y_array size).2 x_array y_array size
      acc a b).1 = GSL_SUCCESS ∧
    (steffen_eval_integ (steffen_init t0 vstate x_array y_array size).2 x_array y_array size
      acc a b).2.1 = 0 ∧
    (steffen_eval_integ_indices x_array size acc a b).2.1 + 1
      - (steffen_eval_integ_indices x_array size acc a b).1 = 0 ∧
    steffen_eval_integ_loop (steffen_init t0 vstate x_array y_array size).2 x_array y_array a b
      (steffen_eval_integ_indices x_array size acc a b).1
      (steffen_eval_integ_indices x_array size acc a b).2.1
      ((steffen_eval_integ_indices x_array size acc a b).2.1 + 1
        - (steffen_eval_integ_indices x_array size acc a b).1)
      (steffen_eval_integ_indices x_array size acc a b).1 0 = (GSL_SUCCESS, 0) ∧
    (∀ acc1 : Option gsl_interp_accel,
      ((steffen_eval_integ (steffen_init t0 vstate x_array y_array size).2 x_array y_array size
          acc a b).2.1
        = - (steffen_eval_integ (steffen_init t0 vstate x_array y_array size).2 x_array y_array
          size acc1 b a).2.1 ↔
        (steffen_eval_integ (steffen_init t0 vstate x_array y_array size).2 x_array y_array
          size acc1 b a).2.1 = 0)) := by
  obtain ⟨e1, e2⟩ := steffen_eval_integ_indices_of_increasing hx acc a b
  have hidx' : gsl_interp_bsearch x_array b 0 (size - 1)
      < gsl_interp_bsearch x_array a 0 (size - 1) := by
    rw [← e1, ← e2]
    exact hidx
  have hab : b < a := by
    by_contra hle
    have := gsl_interp_bsearch_mono hx (show 2 ≤ size by omega) (not_lt.mp hle)
    omega
  obtain ⟨hst, hval⟩ := steffen_eval_integ_any_accel
    (steffen_init t0 vstate x_array y_array size).2 y_array hx acc a b
  have hz : steffen_eval_integ (steffen_init t0 vstate x_array y_array size).2 x_array y_array
      size none a b = (GSL_SUCCESS, 0, none) := by
    rw [steffen_eval_integ_of_increasing _ x_array y_array size (by omega) hx a b,
      Finset.Ico_eq_empty_of_le (by omega), Finset.sum_empty]
  have hfuel : (steffen_eval_integ_indices x_array size acc a b).2.1 + 1
      - (steffen_eval_integ_indices x_array size acc a b).1 = 0 := by omega
  have hv0 : (steffen_eval_integ (steffen_init t0 vstate x_array y_array size).2 x_array
      y_array size acc a b).2.1 = 0 := by
    rw [hval, hz]
  refine ⟨hab, ?_, hv0, hfuel, ?_, ?_⟩
  · rw [hst, hz]
  · rw [hfuel]
    rfl
  · intro acc1
    rw [hv0]
    constructor
    · intro h
      linarith
    · intro h
      rw [h]
      norm_num

/-- C27, amended, on the table of `test_steffen` with `a = 2`, `b = 0` and a new
accelerator: the result is `0` while the integral from `0` to `2` comes out as
`3`. -/
theorem steffen_eval_integ_reversed_zero_witness :
    StrictlyIncreasing test_steffen_data 5 ∧
    (steffen_eval_integ_indices test_steffen_data 5 (some gsl_interp_accel_alloc) 2 0).2.1
      < (steffen_eval_integ_indices test_steffen_data 5 (some gsl_interp_accel_alloc) 2 0).1 ∧
    (steffen_eval_integ (steffen_init tmp0 state0 test_steffen_data test_steffen_data 5).2
      test_steffen_data test_steffen_data 5 (some gsl_interp_accel_alloc) 2 0).1
      = GSL_SUCCESS ∧
    (steffen_eval_integ (steffen_init tmp0 state0 test_steffen_data test_steffen_data 5).2
      test_steffen_data test_steffen_data 5 (some gsl_interp_accel_alloc) 2 0).2.1 = 0 ∧
    (steffen_eval_integ (steffen_init tmp0 state0 test_steffen_data test_steffen_data 5).2
      test_steffen_data test_steffen_data 5 none 0 2).2.1 = 3 ∧
    (steffen_eval_integ (steffen_init tmp0 state0 test_steffen_data test_steffen_data 5).2
        test_steffen_data test_steffen_data 5 (some gsl_interp_accel_alloc) 2 0).2.1
      ≠ - (steffen_eval_integ (steffen_init tmp0 state0 test_steffen_data test_steffen_data 5).2
        test_steffen_data test_steffen_data 5 none 0 2).2.1 := by
  have hx : StrictlyIncreasing test_steffen_data 5 := by
    intro i hi
    have : i = 0 ∨ i = 1 ∨ i = 2 ∨ i = 3 := by omega
    rcases this with h | h | h | h <;> subst h <;> norm_num [test_steffen_data, ofList]
  have hidx : (steffen_eval_integ_indices test_steffen_data 5 (some gsl_interp_accel_alloc) 2
      0).2.1
      < (steffen_eval_integ_indices test_steffen_data 5 (some gsl_interp_accel_alloc) 2 0).1 := by
    obtain ⟨e1, e2⟩ := steffen_eval_integ_indices_of_increasing hx (some gsl_interp_accel_alloc)
      2 0
    rw [e1, e2]
    norm_num [gsl_interp_bsearch, gsl_interp_bsearch_loop, test_steffen_data, ofList]
  have h := steffen_eval_integ_reversed_zero tmp0 state0 test_steffen_data test_steffen_data 5
    (by decide) hx 2 0 (some gsl_interp_accel_alloc) hidx
  have h3 : (steffen_eval_integ
      (steffen_init tmp0 state0 test_steffen_data test_steffen_data 5).2
      test_steffen_data test_steffen_data 5 none 0 2).2.1 = 3 := by
    norm_num [steffen_eval_integ, steffen_eval_integ_indices, steffen_eval_integ_loop,
      gsl_interp_bsearch, gsl_interp_bsearch_loop, test_steffen_data, ofList, steffen_init,
      steffen_calc, steffen_calc_loop2, steffen_calc_body2, steffen_calc_tmp,
      steffen_calc_right, steffen_calc_loop1, steffen_calc_body1, steffen_calc_left, tmp0,
      state0, Function.update, copysign1, fabs, fmin]
  refine ⟨hx, hidx, h.2.1, h.2.2.1, h3, ?_⟩
  intro hneg
  have := (h.2.2.2.2.2 none).mp hneg
  rw [h3] at this
  norm_num at this

/-! ## Two samples -/

/-- C28, amended. In exact arithmetic (the doubles and their operations read as
rationals), below the declared minimum size the fit still yields a line: the
descriptor declares a minimum of three samples, and for `size = 2` with
`x_0 < x_1` the run of `steffen_calc` on checked memory ends without fault (no
access outside the arrays, no read of an unwritten cell, no division by zero)
and leaves exactly cell `0` of `a`, `b`, `c`, `d` written, with `a_0 = 0`,
`b_0 = 0`, `c_0 = (y_1 - y_0) / (x_1 - x_0)`, `d_0 = y_0`; `steffen_calc` stores
the same four values, and the cubic of segment `0` is the straight line through
the two samples. -/
theorem steffen_calc_two_samples (t0 : steffen_tmp) (st : steffen_state_t)
    (x_array y_array : Nat → ℚ) (hx : x_array 0 < x_array 1) :
    2 < steffen_type.min_size ∧
    (∃ m : checked_mem, steffen_calc_checked x_array y_array 2 = Except.ok m ∧
      m.a = checked_filled 2 0 1 (fun _ => 0) ∧
      m.b = checked_filled 2 0 1 (fun _ => 0) ∧
      m.c = checked_filled 2 0 1 (fun _ => (y_array 1 - y_array 0) / (x_array 1 - x_array 0)) ∧
      m.d = checked_filled 2 0 1 (fun _ => y_array 0)) ∧
    (steffen_calc t0 x_array y_array st 2).a 0 = 0 ∧
    (steffen_calc t0 x_array y_array st 2).b 0 = 0 ∧
    (steffen_calc t0 x_array y_array st 2).c 0
      = (y_array 1 - y_array 0) / (x_array 1 - x_array 0) ∧
    (steffen_calc t0 x_array y_array st 2).d 0 = y_array 0 ∧
    ∀ x : ℚ, steffen_eval_block (steffen_calc t0 x_array y_array st 2) x_array 0 x
      = y_array 0 + (x - x_array 0) * ((y_array 1 - y_array 0) / (x_array 1 - x_array 0)) := by
  have hinc : StrictlyIncreasing x_array 2 := by
    intro i hi
    have e : i = 0 := by omega
    subst e
    exact hx
  obtain ⟨ha, hb, hc, hd⟩ := steffen_calc_coeffs t0 x_array y_array st 2 le_rfl 0 (by decide)
  have y0 : steffen_y_prime x_array y_array 2 0 = steffen_s x_array y_array 0 := by
    simp [steffen_y_prime]
  have y1 : steffen_y_prime x_array y_array 2 (0 + 1) = steffen_s x_array y_array 0 := by
    simp [steffen_y_prime]
  have es : steffen_s x_array y_array 0 = (y_array 1 - y_array 0) / (x_array 1 - x_array 0) :=
    rfl
  rw [y0, y1] at ha hb
  rw [y0, es] at hc
  have ha0 : (steffen_calc t0 x_array y_array st 2).a 0 = 0 := by
    rw [ha]
    have : steffen_s x_array y_array 0 + steffen_s x_array y_array 0
        - 2 * steffen_s x_array y_array 0 = 0 := by ring
    rw [this, zero_div, zero_div]
  have hb0 : (steffen_calc t0 x_array y_array st 2).b 0 = 0 := by
    rw [hb]
    have : 3 * steffen_s x_array y_array 0 - 2 * steffen_s x_array y_array 0
        - steffen_s x_array y_array 0 = 0 := by ring
    rw [this, zero_div]
  refine ⟨by decide, ⟨_, steffen_calc_checked_ok t0 st x_array y_array 2 le_rfl hinc, ?_, ?_, ?_,
    ?_⟩, ha0, hb0, hc, hd, ?_⟩
  · exact checked_filled_congr _ _ _ _ _ (fun j _ hj => by
      have e : j = 0 := by omega
      subst e
      exact ha0)
  · exact checked_filled_congr _ _ _ _ _ (fun j _ hj => by
      have e : j = 0 := by omega
      subst e
      exact hb0)
  · exact checked_filled_congr _ _ _ _ _ (fun j _ hj => by
      have e : j = 0 := by omega
      subst e
      exact hc)
  · exact checked_filled_congr _ _ _ _ _ (fun j _ hj => by
      have e : j = 0 := by omega
      subst e
      exact hd)
  · intro x
    simp only [steffen_eval_block, ha0, hb0, hc, hd]
    ring

/-- C28, amended, on the two samples `(0, 1)` and `(2, 5)`: the stored line has slope `2`. -/
theorem steffen_calc_two_samples_witness :
    (ofList [0, 2]) 0 < (ofList [0, 2]) 1 ∧
    (steffen_calc tmp0 (ofList [0, 2]) (ofList [1, 5]) state0 2).c 0 = 2 ∧
    (steffen_calc tmp0 (ofList [0, 2]) (ofList [1, 5]) state0 2).d 0 = 1 := by
  have hx : (ofList [0, 2]) 0 < (ofList [0, 2]) 1 := by norm_num [ofList]
  have h := steffen_calc_two_samples tmp0 state0 (ofList [0, 2]) (ofList [1, 5]) hx
  refine ⟨hx, ?_, ?_⟩
  · rw [h.2.2.2.2.1]
    norm_num [ofList]
  · rw [h.2.2.2.2.2.1]
    norm_num [ofList]

/-! ## The fit and the evaluators on doubles: where rounding and overflow show -/

set_option maxRecDepth 100000 in
/-- C2, as stated, fails for the doubles of the code: on the table
`x = [0,1,2]`, `y = [0.1,0.3,0.5]` (three samples, strictly increasing
abscissae, increasing ordinates) and the query `0.9999999999999999`, strictly
between `x_0` and `x_1`, `steffen_eval` returns `0.30000000000000004`, the
double `1351079888211149 / 2^52`, which is above `max (y_0, y_1) = y_1`, the
double `5404319552844595 / 2^54`; without an accelerator and with a new one. -/
theorem steffen_eval_double_above_bracket :
    (double_lt (test_double_x3 0) (test_double_x3 1) = true ∧
      double_lt (test_double_x3 1) (test_double_x3 2) = true) ∧
    (double_le (test_double_rising 0) (test_double_rising 1) = true ∧
      double_le (test_double_rising 1) (test_double_rising 2) = true) ∧
    (double_lt (test_double_x3 0) test_double_query = true ∧
      double_lt test_double_query (test_double_x3 1) = true) ∧
    test_double_query = double.fin false (9007199254740991 / 9007199254740992) ∧
    test_double_rising 1 = double.fin false (5404319552844595 / 18014398509481984) ∧
    steffen_eval_double
        (steffen_init_double tmp0_double state0_double test_double_x3 test_double_rising 3).2
        test_double_x3 test_double_rising 3 test_double_query none
      = (GSL_SUCCESS, double.fin false (1351079888211149 / 4503599627370496), none) ∧
    (steffen_eval_double
        (steffen_init_double tmp0_double state0_double test_double_x3 test_double_rising 3).2
        test_double_x3 test_double_rising 3 test_double_query (some gsl_interp_accel_alloc)).2.1
      = double.fin false (1351079888211149 / 4503599627370496) ∧
    double_lt (test_double_rising 1)
      (steffen_eval_double
        (steffen_init_double tmp0_double state0_double test_double_x3 test_double_rising 3).2
        test_double_x3 test_double_rising 3 test_double_query none).2.1 = true ∧
    (5404319552844595 / 18014398509481984 : ℚ) < 1351079888211149 / 4503599627370496 := by
  decide!

set_option maxRecDepth 100000 in
/-- C3, as stated, fails for the doubles of the code: on the table
`x = [0,1,2,3]`, `y = [0,0.7,0.3,0]` (strictly increasing abscissae) and the
query `0.9999999999999999` in segment `0`, whose slope `s_0` is the double
`0.7`, positive, `steffen_eval_deriv` returns `-2^-53`, negative, so the
product of the slope and the derivative is negative; without an accelerator
and with a new one. -/
theorem steffen_eval_deriv_double_wrong_sign :
    (double_lt (test_double_x4 0) (test_double_x4 1) = true ∧
      double_lt (test_double_x4 1) (test_double_x4 2) = true ∧
      double_lt (test_double_x4 2) (test_double_x4 3) = true) ∧
    (double_le (test_double_x4 0) test_double_query = true ∧
      double_lt test_double_query (test_double_x4 1) = true) ∧
    (test_double_bump 1 - test_double_bump 0) / (test_double_x4 1 - test_double_x4 0)
      = double.fin false (3152519739159347 / 4503599627370496) ∧
    steffen_eval_deriv_double
        (steffen_init_double tmp0_double state0_double test_double_x4 test_double_bump 4).2
        test_double_x4 test_double_bump 4 test_double_query none
      = (GSL_SUCCESS, double.fin true (1 / 9007199254740992), none) ∧
    (steffen_eval_deriv_double
        (steffen_init_double tmp0_double state0_double test_double_x4 test_double_bump 4).2
        test_double_x4 test_double_bump 4 test_double_query (some gsl_interp_accel_alloc)).2.1
      = double.fin true (1 / 9007199254740992) ∧
    double_lt
      ((test_double_bump 1 - test_double_bump 0) / (test_double_x4 1 - test_double_x4 0)
        * (steffen_eval_deriv_double
            (steffen_init_double tmp0_double state0_double test_double_x4 test_double_bump 4).2
            test_double_x4 test_double_bump 4 test_double_query none).2.1)
      0 = true := by
  decide!

set_option maxRecDepth 100000 in
/-- C4, as stated, fails for the doubles of the code: on the table
`x = [0,1,2,3]`, `y = [0,0.1,0.1,0.5]` (strictly increasing abscissae) the cubic
of segment `0` at `x_1`, that is at `delx = h_0`, evaluates to
`0.10000000000000003`, while the cubic of segment `1` at `delx = 0` is
`y_1 = 0.1`; the derivative of segment `0` there evaluates to `2^-55`, while
that of segment `1` is `c_1 = 0`.  The stored coefficients of segment `0` are
`a_0 = -0.1`, `b_0 = 0.10000000000000003`, `c_0 = 0.1`, `d_0 = 0`, so the two
cubics differ at the knot also when they are evaluated exactly. -/
theorem steffen_double_discontinuous_at_knot :
    (double_lt (test_double_x4 0) (test_double_x4 1) = true ∧
      double_lt (test_double_x4 1) (test_double_x4 2) = true ∧
      double_lt (test_double_x4 2) (test_double_x4 3) = true) ∧
    steffen_eval_block_double
        (steffen_init_double tmp0_double state0_double test_double_x4 test_double_step 4).2
        test_double_x4 0 (test_double_x4 1)
      = double.fin false (1801439850948199 / 18014398509481984) ∧
    steffen_eval_block_double
        (steffen_init_double tmp0_double state0_double test_double_x4 test_double_step 4).2
        test_double_x4 1 (test_double_x4 1)
      = double.fin false (3602879701896397 / 36028797018963968) ∧
    test_double_step 1 = double.fin false (3602879701896397 / 36028797018963968) ∧
    steffen_eval_block_double
        (steffen_init_double tmp0_double state0_double test_double_x4 test_double_step 4).2
        test_double_x4 0 (test_double_x4 1)
      ≠ steffen_eval_block_double
        (steffen_init_double tmp0_double state0_double test_double_x4 test_double_step 4).2
        test_double_x4 1 (test_double_x4 1) ∧
    steffen_eval_deriv_block_double
        (steffen_init_double tmp0_double state0_double test_double_x4 test_double_step 4).2
        test_double_x4 0 (test_double_x4 1)
      = double.fin false (1 / 36028797018963968) ∧
    steffen_eval_deriv_block_double
        (steffen_init_double tmp0_double state0_double test_double_x4 test_double_step 4).2
        test_double_x4 1 (test_double_x4 1)
      = double.fin false 0 ∧
    (steffen_init_double tmp0_double state0_double test_double_x4 test_double_step 4).2.c 1
      = double.fin false 0 ∧
    ((steffen_init_double tmp0_double state0_double test_double_x4 test_double_step 4).2.a 0
        = double.fin true (3602879701896397 / 36028797018963968) ∧
      (steffen_init_double tmp0_double state0_double test_double_x4 test_double_step 4).2.b 0
        = double.fin false (1801439850948199 / 18014398509481984) ∧
      (steffen_init_double tmp0_double state0_double test_double_x4 test_double_step 4).2.c 0
        = double.fin false (3602879701896397 / 36028797018963968) ∧
      (steffen_init_double tmp0_double state0_double test_double_x4 test_double_step 4).2.d 0
        = double.fin false 0) ∧
    (0 : ℚ) + (1 - 0) * (3602879701896397 / 36028797018963968
        + (1 - 0) * (1801439850948199 / 18014398509481984
          + (1 - 0) * (-(3602879701896397 / 36028797018963968))))
      ≠ 3602879701896397 / 36028797018963968 := by
  decide!

set_option maxRecDepth 100000 in
/-- C7, as stated, fails for the doubles of the code: on the table
`x = [0,3,6]`, `y = [0,1,2]` (three samples, strictly increasing abscissae,
ordinates on the line `y = x / 3`) `steffen_calc` stores
`b_0 = 1.850371707708594e-17`, the double `6004799503160661 / 2^108`, not `0`,
and `steffen_eval_deriv` returns `0.3333333333333333` at the query `0.5` and
`0.33333333333333337` at the query `1.5`, two different values. -/
theorem steffen_double_line_not_exact :
    (double_lt (test_double_x036 0) (test_double_x036 1) = true ∧
      double_lt (test_double_x036 1) (test_double_x036 2) = true) ∧
    (double_real (test_double_x3 0)
        = (double_real (test_double_x036 0)).map (fun v => 1 / 3 * v + 0) ∧
      double_real (test_double_x3 1)
        = (double_real (test_double_x036 1)).map (fun v => 1 / 3 * v + 0) ∧
      double_real (test_double_x3 2)
        = (double_real (test_double_x036 2)).map (fun v => 1 / 3 * v + 0)) ∧
    (steffen_init_double tmp0_double state0_double test_double_x036 test_double_x3 3).2.b 0
      = double.fin false (6004799503160661 / 324518553658426726783156020576256) ∧
    (steffen_init_double tmp0_double state0_double test_double_x036 test_double_x3 3).2.b 0
      ≠ 0 ∧
    (steffen_eval_deriv_double
        (steffen_init_double tmp0_double state0_double test_double_x036 test_double_x3 3).2
        test_double_x036 test_double_x3 3 (double_literal (5 / 10)) none).2.1
      = double.fin false (6004799503160661 / 18014398509481984) ∧
    (steffen_eval_deriv_double
        (steffen_init_double tmp0_double state0_double test_double_x036 test_double_x3 3).2
        test_double_x036 test_double_x3 3 (double_literal (15 / 10)) none).2.1
      = double.fin false (3002399751580331 / 9007199254740992) ∧
    (steffen_eval_deriv_double
        (steffen_init_double tmp0_double state0_double test_double_x036 test_double_x3 3).2
        test_double_x036 test_double_x3 3 (double_literal (15 / 10))
        (some gsl_interp_accel_alloc)).2.1
      = double.fin false (3002399751580331 / 9007199254740992) := by
  decide!

set_option maxRecDepth 100000 in
/-- C22, as stated, fails for the doubles of the code when a slope overflows: on
the table `x = [0,1,2]`, `y = [-1e308, 1e308, -1e308]` (three samples, strictly
increasing abscissae) the slopes are `s_0 = +inf` and `s_1 = -inf`, of opposite
sign, their product being `-inf < 0`; `p_1` is a NaN, the minimum is `+inf`, and
`steffen_calc` stores `c_1 = 0 * inf`, a NaN, which `steffen_eval_deriv` returns
at `x_1`, without an accelerator and with a new one. -/
theorem steffen_double_clamp_overflow :
    (double_lt (test_double_x3 0) (test_double_x3 1) = true ∧
      double_lt (test_double_x3 1) (test_double_x3 2) = true) ∧
    (test_double_huge 1 - test_double_huge 0) / (test_double_x3 1 - test_double_x3 0)
      = double.inf false ∧
    (test_double_huge 2 - test_double_huge 1) / (test_double_x3 2 - test_double_x3 1)
      = double.inf true ∧
    double_lt
      ((test_double_huge 1 - test_double_huge 0) / (test_double_x3 1 - test_double_x3 0)
        * ((test_double_huge 2 - test_double_huge 1) / (test_double_x3 2 - test_double_x3 1)))
      0 = true ∧
    (steffen_init_double tmp0_double state0_double test_double_x3 test_double_huge 3).2.c 1
      = double.nan ∧
    steffen_eval_deriv_double
        (steffen_init_double tmp0_double state0_double test_double_x3 test_double_huge 3).2
        test_double_x3 test_double_huge 3 (test_double_x3 1) none
      = (GSL_SUCCESS, double.nan, none) ∧
    (steffen_eval_deriv_double
        (steffen_init_double tmp0_double state0_double test_double_x3 test_double_huge 3).2
        test_double_x3 test_double_huge 3 (test_double_x3 1) (some gsl_interp_accel_alloc)).2.1
      = double.nan := by
  decide!

set_option maxRecDepth 100000 in
/-- C28, as stated, fails for the doubles of the code: for the two samples
`x = [0,3]`, `y = [0,1]` `steffen_calc` stores `a_0 = 0`, `d_0 = 0`, `c_0` the
double nearest to `1/3`, and `b_0 = 1.850371707708594e-17`, the double
`6004799503160661 / 2^108`, not `0`. -/
theorem steffen_double_two_samples_b_nonzero :
    double_lt (test_double_x03 0) (test_double_x03 1) = true ∧
    (steffen_calc_double tmp0_double test_double_x03 (ofList_double [0, 1]) state0_double 2).a 0
      = double.fin false 0 ∧
    (steffen_calc_double tmp0_double test_double_x03 (ofList_double [0, 1]) state0_double 2).b 0
      = double.fin false (6004799503160661 / 324518553658426726783156020576256) ∧
    (steffen_calc_double tmp0_double test_double_x03 (ofList_double [0, 1]) state0_double 2).b 0
      ≠ 0 ∧
    (steffen_calc_double tmp0_double test_double_x03 (ofList_double [0, 1]) state0_double 2).c 0
      = double.fin false (6004799503160661 / 18014398509481984) ∧
    (steffen_calc_double tmp0_double test_double_x03 (ofList_double [0, 1]) state0_double 2).d 0
      = double.fin false 0 := by
  decide!

end Steffen

/-! # Theorems about `gsl_spblas_dgemv` -/

namespace Spblas

open Steffen Steffen.gsl_status

theorem mul_stride_inj {incY : Nat} (h : 0 < incY) {i j : Nat} :
    i * incY = j * incY ↔ i = j :=
  ⟨fun e => Nat.eq_of_mul_eq_mul_right h e, fun e => by rw [e]⟩

/-- After `k` iterations the zeroing loop has advanced `jy` to `k * incY` and
cleared the first `k` elements. -/
theorem dgemv_zero_loop_spec (incY : Nat) (h : 0 < incY) (Y : Nat → ℚ) :
    ∀ k : Nat, (dgemv_zero_loop incY k (Y, 0)).2 = k * incY ∧
      ∀ i, (dgemv_zero_loop incY k (Y, 0)).1 (i * incY)
        = if i < k then 0 else Y (i * incY) := by
  intro k
  induction k with
  | zero => simp [dgemv_zero_loop]
  | succ n ih =>
    obtain ⟨ih1, ih2⟩ := ih
    refine ⟨?_, ?_⟩
    · simp only [dgemv_zero_loop, ih1]
      ring
    · intro i
      simp only [dgemv_zero_loop, ih1, Function.update_apply, mul_stride_inj h, ih2]
      by_cases e : i = n
      · subst e
        simp
      · have : (i < n + 1) ↔ (i < n) := by omega
        simp [e, this]

/-- After `k` iterations the scaling loop has advanced `jy` to `k * incY` and
multiplied the first `k` elements by `beta`. -/
theorem dgemv_scale_loop_spec (beta : ℚ) (incY : Nat) (h : 0 < incY) (Y : Nat → ℚ) :
    ∀ k : Nat, (dgemv_scale_loop beta incY k (Y, 0)).2 = k * incY ∧
      ∀ i, (dgemv_scale_loop beta incY k (Y, 0)).1 (i * incY)
        = if i < k then Y (i * incY) * beta else Y (i * incY) := by
  intro k
  induction k with
  | zero => simp [dgemv_scale_loop]
  | succ n ih =>
    obtain ⟨ih1, ih2⟩ := ih
    refine ⟨?_, ?_⟩
    · simp only [dgemv_scale_loop, ih1]
      ring
    · intro i
      simp only [dgemv_scale_loop, ih1, Function.update_apply, mul_stride_inj h, ih2]
      by_cases e : i = n
      · subst e
        simp
      · have : (i < n + 1) ↔ (i < n) := by omega
        simp [e, this]

/-- The triplet loop adds to element `i` the products of the entries of row `i`
among the first `k` stored entries. -/
theorem dgemv_triplet_loop_spec (alpha : ℚ) (Ai Aj : Nat → Nat) (Ad X : Nat → ℚ)
    (incX incY : Nat) (h : 0 < incY) (Y : Nat → ℚ) (i : Nat) :
    ∀ k : Nat, dgemv_triplet_loop alpha Ai Aj Ad X incX incY k Y (i * incY)
      = Y (i * incY) + alpha * ∑ p ∈ Finset.range k,
          if Ai p = i then Ad p * X (Aj p * incX) else 0 := by
  intro k
  induction k with
  | zero => simp [dgemv_triplet_loop]
  | succ n ih =>
    simp only [dgemv_triplet_loop, Function.update_apply, mul_stride_inj h,
      Finset.sum_range_succ]
    by_cases e : Ai n = i
    · subst e
      simp only [if_true]
      rw [ih]
      ring
    · have e' : ¬ i = Ai n := fun c => e c.symm
      simp only [e, e', if_false]
      rw [ih]
      ring

/-- The inner loop of the compressed-column branch adds to element `i` the
products of the entries of row `i` among the `cnt` entries from `p0`. -/
theorem dgemv_ccs_inner_spec (alpha : ℚ) (Ai : Nat → Nat) (Ad X : Nat → ℚ)
    (incX incY : Nat) (h : 0 < incY) (j p0 : Nat) (Y : Nat → ℚ) (i : Nat) :
    ∀ cnt : Nat, dgemv_ccs_inner alpha Ai Ad X incX incY j p0 cnt Y (i * incY)
      = Y (i * incY) + alpha * ∑ p ∈ Finset.Ico p0 (p0 + cnt),
          if Ai p = i then Ad p * X (j * incX) else 0 := by
  intro cnt
  induction cnt with
  | zero => simp [dgemv_ccs_inner]
  | succ n ih =>
    have hs : p0 + (n + 1) = (p0 + n) + 1 := by ring
    simp only [dgemv_ccs_inner, Function.update_apply, mul_stride_inj h]
    rw [hs, Finset.sum_Ico_succ_top (Nat.le_add_right p0 n)]
    by_cases e : Ai (p0 + n) = i
    · subst e
      simp only [if_true]
      rw [ih]
      ring
    · have e' : ¬ i = Ai (p0 + n) := fun c => e c.symm
      simp only [e, e', if_false]
      rw [ih]
      ring

/-- The positions `p0 .. p0 + (p1 - p0) - 1` are the positions `p0 .. p1 - 1`. -/
theorem Ico_add_sub (p0 p1 : Nat) : Finset.Ico p0 (p0 + (p1 - p0)) = Finset.Ico p0 p1 := by
  by_cases h : p0 ≤ p1
  · rw [Nat.add_sub_cancel' h]
  · have e : p1 - p0 = 0 := by omega
    rw [e, add_zero, Finset.Ico_self, Finset.Ico_eq_empty_of_le (by omega)]

/-- The outer loop of the compressed-column branch adds to element `i` the
products of the entries of row `i` in the first `k` columns. -/
theorem dgemv_ccs_loop_spec (alpha : ℚ) (Ap Ai : Nat → Nat) (Ad X : Nat → ℚ)
    (incX incY : Nat) (h : 0 < incY) (Y : Nat → ℚ) (i : Nat) :
    ∀ k : Nat, dgemv_ccs_loop alpha Ap Ai Ad X incX incY k Y (i * incY)
      = Y (i * incY) + alpha * ∑ j ∈ Finset.range k, ∑ p ∈ Finset.Ico (Ap j) (Ap (j + 1)),
          if Ai p = i then Ad p * X (j * incX) else 0 := by
  intro k
  induction k with
  | zero => simp [dgemv_ccs_loop]
  | succ n ih =>
    simp only [dgemv_ccs_loop]
    rw [dgemv_ccs_inner_spec alpha Ai Ad X incX incY h n (Ap n) _ i, ih, Ico_add_sub,
      Finset.sum_range_succ]
    ring

/-- The block after the step `y := beta*y` (lines 66-88) holds `beta * y[i]` at
every element `i < M`. -/
theorem dgemv_scaled (beta : ℚ) (incY : Nat) (h : 0 < incY) (Y : Nat → ℚ) (M i : Nat)
    (hi : i < M) :
    (if beta = 0 then (dgemv_zero_loop incY M (Y, 0)).1
      else if beta ≠ 1 then (dgemv_scale_loop beta incY M (Y, 0)).1
      else Y) (i * incY) = beta * Y (i * incY) := by
  by_cases h0 : beta = 0
  · rw [if_pos h0, (dgemv_zero_loop_spec incY h Y M).2 i, if_pos hi, h0, zero_mul]
  · rw [if_neg h0]
    by_cases h1 : beta ≠ 1
    · rw [if_pos h1, (dgemv_scale_loop_spec beta incY h Y M).2 i, if_pos hi, mul_comm]
    · rw [if_neg h1]
      have : beta = 1 := not_not.mp h1
      rw [this, one_mul]

/-- C16. `gsl_spblas_dgemv` computes `y = alpha*A*x + beta*y`: for every sparse
matrix in compressed-column or triplet storage, every `x` of length `A->size2`
and every `y` of length `A->size1` with a positive stride, the call returns
`GSL_SUCCESS`, leaves the length and stride of `y` as they were, and afterwards
every element `i < A->size1` of `y` is `beta * y_in[i]` plus `alpha` times the
sum over the stored entries `(i, j, v)` of row `i` of `v * x[j]`, entries stored
more than once counted each time. -/
theorem gsl_spblas_dgemv_computes (GSLSP_ISCCS : gsl_spmatrix → Bool)
    (GSL_SPMATRIX_TRIPLET : Nat) (alpha : ℚ) (A : gsl_spmatrix) (x : gsl_vector) (beta : ℚ)
    (y : gsl_vector) (hN : A.size2 = x.size) (hM : A.size1 = y.size) (hstride : 0 < y.stride)
    (hstorage : GSLSP_ISCCS A = true ∨ A.flags &&& GSL_SPMATRIX_TRIPLET ≠ 0) :
    (gsl_spblas_dgemv GSLSP_ISCCS GSL_SPMATRIX_TRIPLET alpha A x beta y).1 = GSL_SUCCESS ∧
    (gsl_spblas_dgemv GSLSP_ISCCS GSL_SPMATRIX_TRIPLET alpha A x beta y).2.size = y.size ∧
    (gsl_spblas_dgemv GSLSP_ISCCS GSL_SPMATRIX_TRIPLET alpha A x beta y).2.stride = y.stride ∧
    ∀ i, i < A.size1 →
      (gsl_spblas_dgemv GSLSP_ISCCS GSL_SPMATRIX_TRIPLET alpha A x beta y).2.data (i * y.stride)
        = beta * y.data (i * y.stride) + alpha * stored_row_dot (GSLSP_ISCCS A) A x i := by
  have c1 : ¬ (A.size2 ≠ x.size) := not_not.mpr hN
  have c2 : ¬ (A.size1 ≠ y.size) := not_not.mpr hM
  unfold gsl_spblas_dgemv
  simp only [c1, c2, if_false]
  by_cases ha : alpha = 0
  · simp only [ha, if_true, zero_mul, add_zero]
    refine ⟨trivial, trivial, trivial, ?_⟩
    intro i hi
    exact dgemv_scaled beta y.stride hstride y.data A.size1 i hi
  · simp only [ha, if_false]
    by_cases hc : GSLSP_ISCCS A = true
    · simp only [hc, if_true]
      refine ⟨trivial, trivial, trivial, ?_⟩
      intro i hi
      rw [dgemv_ccs_loop_spec alpha A.p A.i A.data x.data x.stride y.stride hstride _ i,
        dgemv_scaled beta y.stride hstride y.data A.size1 i hi]
      simp only [stored_row_dot, if_true]
    · have ht : A.flags &&& GSL_SPMATRIX_TRIPLET ≠ 0 := by
        rcases hstorage with h | h
        · exact absurd h hc
        · exact h
      have hf : GSLSP_ISCCS A = false := by simpa using hc
      simp only [hf, ht, ne_eq, not_false_eq_true, if_true, if_false, Bool.false_eq_true]
      refine ⟨trivial, trivial, trivial, ?_⟩
      intro i hi
      rw [dgemv_triplet_loop_spec alpha A.i A.p A.data x.data x.stride y.stride hstride _ i,
        dgemv_scaled beta y.stride hstride y.data A.size1 i hi]
      simp only [stored_row_dot, Bool.false_eq_true, if_false]

/-- C16 on a 2 x 3 matrix with a repeated entry, in compressed-column storage,
`alpha = 2`, `beta = 3`, `x = [1, 10, 100]`, `y = [7, 9]` with stride 2: the
result is `[2*(1 + 300) + 21, 2*(2 + 400 + 500) + 27]`. -/
theorem gsl_spblas_dgemv_computes_witness :
    (test_ccs.size2 = test_x.size ∧ test_ccs.size1 = test_y.size ∧ 0 < test_y.stride ∧
      test_isccs test_ccs = true) ∧
    (gsl_spblas_dgemv test_isccs 1 2 test_ccs test_x 3 test_y).1 = GSL_SUCCESS ∧
    (∀ i, i < test_ccs.size1 →
      (gsl_spblas_dgemv test_isccs 1 2 test_ccs test_x 3 test_y).2.data (i * test_y.stride)
        = 3 * test_y.data (i * test_y.stride)
          + 2 * stored_row_dot (test_isccs test_ccs) test_ccs test_x i) ∧
    stored_row_dot (test_isccs test_ccs) test_ccs test_x 0 = 301 ∧
    stored_row_dot (test_isccs test_ccs) test_ccs test_x 1 = 902 := by
  have hc : test_isccs test_ccs = true := by decide
  have h := gsl_spblas_dgemv_computes test_isccs 1 2 test_ccs test_x 3 test_y rfl rfl
    (by decide) (Or.inl hc)
  refine ⟨⟨rfl, rfl, by decide, hc⟩, h.1, h.2.2.2, ?_, ?_⟩ <;> rw [hc] <;>
    norm_num [stored_row_dot, test_ccs, test_x, ofList, Finset.sum_range_succ,
      Finset.sum_Ico_eq_sum_range]

/-- C17. `gsl_spblas_dgemv` rejects mismatched lengths before it writes: it
returns `GSL_EBADLEN` if and only if `A->size2 != x->size` or
`A->size1 != y->size`, and in that case `y` is returned as it was. -/
theorem gsl_spblas_dgemv_badlen (GSLSP_ISCCS : gsl_spmatrix → Bool)
    (GSL_SPMATRIX_TRIPLET : Nat) (alpha : ℚ) (A : gsl_spmatrix) (x : gsl_vector) (beta : ℚ)
    (y : gsl_vector) :
    ((gsl_spblas_dgemv GSLSP_ISCCS GSL_SPMATRIX_TRIPLET alpha A x beta y).1 = GSL_EBADLEN ↔
      (A.size2 ≠ x.size ∨ A.size1 ≠ y.size)) ∧
    ((A.size2 ≠ x.size ∨ A.size1 ≠ y.size) →
      gsl_spblas_dgemv GSLSP_ISCCS GSL_SPMATRIX_TRIPLET alpha A x beta y = (GSL_EBADLEN, y)) := by
  unfold gsl_spblas_dgemv
  by_cases hN : A.size2 = x.size
  · by_cases hM : A.size1 = y.size
    · simp only [hN, hM, ne_eq, not_true_eq_false, if_false, or_self, false_imp_iff, and_true,
        iff_false]
      split_ifs <;> simp
    · simp [hN, hM]
  · simp [hN]

/-- C17 on `x` of length 3 against a matrix read with two columns. -/
theorem gsl_spblas_dgemv_badlen_witness :
    ({ test_ccs with size2 := 2 }.size2 ≠ test_x.size ∨
      { test_ccs with size2 := 2 }.size1 ≠ test_y.size) ∧
    gsl_spblas_dgemv test_isccs 1 2 { test_ccs with size2 := 2 } test_x 3 test_y
      = (GSL_EBADLEN, test_y) := by
  have hm : ({ test_ccs with size2 := 2 }.size2 ≠ test_x.size ∨
      { test_ccs with size2 := 2 }.size1 ≠ test_y.size) := Or.inl (by decide)
  exact ⟨hm, (gsl_spblas_dgemv_badlen test_isccs 1 2 { test_ccs with size2 := 2 } test_x 3
    test_y).2 hm⟩

/-- C18, as stated, fails for `alpha = 0`: on a matrix with no storage flag,
with matching dimensions, the call returns `GSL_SUCCESS`. -/
theorem gsl_spblas_dgemv_unsupported_alpha_zero :
    test_isccs test_noflag = false ∧ test_noflag.flags &&& 1 = 0 ∧
    test_noflag.size2 = test_x.size ∧ test_noflag.size1 = test_y.size ∧
    (gsl_spblas_dgemv test_isccs 1 0 test_noflag test_x 3 test_y).1 = GSL_SUCCESS := by
  refine ⟨by decide, by decide, rfl, rfl, ?_⟩
  simp [gsl_spblas_dgemv, test_noflag, test_triplet, test_x, test_y]

/-- C18, amended. For every matrix whose storage is neither compressed-column
nor triplet, with dimensions matching `x` and `y`, and every `beta`, the call
returns `GSL_EINVAL` when `alpha != 0` and `GSL_SUCCESS` when `alpha = 0`: the
test of `alpha` comes before the test of the storage. -/
theorem gsl_spblas_dgemv_unsupported (GSLSP_ISCCS : gsl_spmatrix → Bool)
    (GSL_SPMATRIX_TRIPLET : Nat) (alpha : ℚ) (A : gsl_spmatrix) (x : gsl_vector) (beta : ℚ)
    (y : gsl_vector) (hN : A.size2 = x.size) (hM : A.size1 = y.size)
    (hccs : GSLSP_ISCCS A = false) (htriplet : A.flags &&& GSL_SPMATRIX_TRIPLET = 0) :
    (gsl_spblas_dgemv GSLSP_ISCCS GSL_SPMATRIX_TRIPLET alpha A x beta y).1
      = if alpha = 0 then GSL_SUCCESS else GSL_EINVAL := by
  unfold gsl_spblas_dgemv
  simp only [hN, hM, ne_eq, not_true_eq_false, if_false, hccs, htriplet, Bool.false_eq_true]
  split_ifs <;> rfl

/-- C18, amended, on a matrix with no storage flag and `alpha = 2`. -/
theorem gsl_spblas_dgemv_unsupported_witness :
    (test_noflag.size2 = test_x.size ∧ test_noflag.size1 = test_y.size ∧
      test_isccs test_noflag = false ∧ test_noflag.flags &&& 1 = 0) ∧
    (gsl_spblas_dgemv test_isccs 1 2 test_noflag test_x 3 test_y).1 = GSL_EINVAL := by
  have h := gsl_spblas_dgemv_unsupported test_isccs 1 2 test_noflag test_x 3 test_y rfl rfl
    (by decide) (by decide)
  refine ⟨⟨rfl, rfl, by decide, by decide⟩, ?_⟩
  rw [h]
  norm_num

end Spblas

/-! # Theorems about the symv kernel -/

namespace Cblas

open CBLAS_ORDER CBLAS_UPLO

theorem offset_inj {incY : Int} (h : incY ≠ 0) (o : Int) {k m : Nat} :
    o + (k : Int) * incY = o + (m : Int) * incY ↔ k = m := by
  constructor
  · intro e
    have e2 : (k : Int) * incY = (m : Int) * incY := by linarith
    exact Int.ofNat_inj.mp (mul_right_cancel₀ h e2)
  · intro e
    rw [e]

/-- After `k` iterations the zeroing loop has advanced `iy` by `k * incY` and
cleared the first `k` elements. -/
theorem symv_zero_loop_spec (incY : Int) (h : incY ≠ 0) (Y : Int → ℚ) (o : Int) :
    ∀ k : Nat, (symv_zero_loop incY k (Y, o)).2 = o + (k : Int) * incY ∧
      ∀ m : Nat, (symv_zero_loop incY k (Y, o)).1 (o + (m : Int) * incY)
        = if m < k then 0 else Y (o + (m : Int) * incY) := by
  intro k
  induction k with
  | zero => simp [symv_zero_loop]
  | succ n ih =>
    obtain ⟨ih1, ih2⟩ := ih
    refine ⟨?_, ?_⟩
    · simp only [symv_zero_loop, ih1]
      push_cast
      ring
    · intro m
      simp only [symv_zero_loop, ih1, Function.update_apply, offset_inj h, ih2]
      by_cases e : m = n
      · subst e
        simp
      · have : (m < n + 1) ↔ (m < n) := by omega
        simp [e, this]

/-- After `k` iterations the scaling loop has advanced `iy` by `k * incY` and
multiplied the first `k` elements by `beta`. -/
theorem symv_scale_loop_spec (beta : ℚ) (incY : Int) (h : incY ≠ 0) (Y : Int → ℚ) (o : Int) :
    ∀ k : Nat, (symv_scale_loop beta incY k (Y, o)).2 = o + (k : Int) * incY ∧
      ∀ m : Nat, (symv_scale_loop beta incY k (Y, o)).1 (o + (m : Int) * incY)
        = if m < k then Y (o + (m : Int) * incY) * beta else Y (o + (m : Int) * incY) := by
  intro k
  induction k with
  | zero => simp [symv_scale_loop]
  | succ n ih =>
    obtain ⟨ih1, ih2⟩ := ih
    refine ⟨?_, ?_⟩
    · simp only [symv_scale_loop, ih1]
      push_cast
      ring
    · intro m
      simp only [symv_scale_loop, ih1, Function.update_apply, offset_inj h, ih2]
      by_cases e : m = n
      · subst e
        simp
      · have : (m < n + 1) ↔ (m < n) := by omega
        simp [e, this]

/-- The block after the step `y := beta*y` (lines 31-44) holds `beta * Y[m]` at
every element `m < N`. -/
theorem symv_scaled (beta : ℚ) (incY : Int) (h : incY ≠ 0) (Y : Int → ℚ) (o : Int) (N m : Nat)
    (hm : m < N) :
    (if beta = 0 then (symv_zero_loop incY N (Y, o)).1
      else if beta ≠ 1 then (symv_scale_loop beta incY N (Y, o)).1
      else Y) (o + (m : Int) * incY) = beta * Y (o + (m : Int) * incY) := by
  by_cases h0 : beta = 0
  · rw [if_pos h0, (symv_zero_loop_spec incY h Y o N).2 m, if_pos hm, h0, zero_mul]
  · rw [if_neg h0]
    by_cases h1 : beta ≠ 1
    · rw [if_pos h1, (symv_scale_loop_spec beta incY h Y o N).2 m, if_pos hm, mul_comm]
    · rw [if_neg h1]
      have : beta = 1 := not_not.mp h1
      rw [this, one_mul]

/-- The inner loop after `t` iterations from `j_min`: `jx`, `jy` have advanced
by `t` strides, `temp2` has gathered the products of the columns passed, and
every element `m` of `Y` among those columns has received `temp1 * A[lda*i+m]`. -/
theorem symv_inner_spec (A : Nat → ℚ) (lda : Nat) (X : Int → ℚ) (incX incY : Int)
    (h : incY ≠ 0) (temp1 : ℚ) (i j_min : Nat) (ox oy : Int) (Y0 : Int → ℚ) (t0 : ℚ) :
    ∀ t : Nat,
      (symv_inner A lda X incX incY temp1 i j_min t
          { Y := Y0, temp2 := t0, jx := ox + (j_min : Int) * incX,
            jy := oy + (j_min : Int) * incY }).jx
        = ox + ((j_min + t : Nat) : Int) * incX ∧
      (symv_inner A lda X incX incY temp1 i j_min t
          { Y := Y0, temp2 := t0, jx := ox + (j_min : Int) * incX,
            jy := oy + (j_min : Int) * incY }).jy
        = oy + ((j_min + t : Nat) : Int) * incY ∧
      (symv_inner A lda X incX incY temp1 i j_min t
          { Y := Y0, temp2 := t0, jx := ox + (j_min : Int) * incX,
            jy := oy + (j_min : Int) * incY }).temp2
        = t0 + ∑ j ∈ Finset.Ico j_min (j_min + t),
            X (ox + (j : Int) * incX) * A (lda * i + j) ∧
      ∀ m : Nat,
        (symv_inner A lda X incX incY temp1 i j_min t
            { Y := Y0, temp2 := t0, jx := ox + (j_min : Int) * incX,
              jy := oy + (j_min : Int) * incY }).Y (oy + (m : Int) * incY)
          = Y0 (oy + (m : Int) * incY)
            + (if j_min ≤ m ∧ m < j_min + t then temp1 * A (lda * i + m) else 0) := by
  intro t
  induction t with
  | zero =>
    refine ⟨by simp [symv_inner], by simp [symv_inner], by simp [symv_inner], ?_⟩
    intro m
    have : ¬ (j_min ≤ m ∧ m < j_min + 0) := by omega
    simp [symv_inner, this]
  | succ n ih =>
    obtain ⟨i1, i2, i3, i4⟩ := ih
    refine ⟨?_, ?_, ?_, ?_⟩
    · simp only [symv_inner, i1]
      push_cast
      ring
    · simp only [symv_inner, i2]
      push_cast
      ring
    · have hs : j_min + (n + 1) = (j_min + n) + 1 := by ring
      simp only [symv_inner, i1, i3]
      rw [hs, Finset.sum_Ico_succ_top (Nat.le_add_right j_min n)]
      ring
    · intro m
      simp only [symv_inner, i2, Function.update_apply, offset_inj h, i4]
      by_cases e : m = j_min + n
      · subst e
        simp
      · have c : (j_min ≤ m ∧ m < j_min + (n + 1)) ↔ (j_min ≤ m ∧ m < j_min + n) := by omega
        simp only [e, if_false, c]

/-- One pass of the outer-loop body for row `i`, whose own column is outside
the column range, adds `alpha` times the row term to every element of `Y`. -/
theorem symv_row_spec (OFFSET : Nat → Int → Int) (N : Nat) (alpha : ℚ) (A : Nat → ℚ)
    (lda : Nat) (X : Int → ℚ) (incX incY : Int) (h : incY ≠ 0) (i j_min j_max : Nat)
    (hi : ¬ (j_min ≤ i ∧ i < j_max)) (Y : Int → ℚ) (m : Nat) :
    symv_row OFFSET N alpha A lda X incX incY i j_min j_max Y
        (OFFSET N incX + (i : Int) * incX) (OFFSET N incY + (i : Int) * incY)
        (OFFSET N incY + (m : Int) * incY)
      = Y (OFFSET N incY + (m : Int) * incY)
        + alpha * symv_row_term A lda (fun j => X (OFFSET N incX + (j : Int) * incX))
            i j_min j_max m := by
  obtain ⟨_, _, h3, h4⟩ := symv_inner_spec A lda X incX incY h
    (alpha * X (OFFSET N incX + (i : Int) * incX)) i j_min (OFFSET N incX) (OFFSET N incY)
    (Function.update Y (OFFSET N incY + (i : Int) * incY)
      (Y (OFFSET N incY + (i : Int) * incY)
        + alpha * X (OFFSET N incX + (i : Int) * incX) * A (lda * i + i))) 0
    (j_max - j_min)
  have hi' : ¬ (j_min ≤ i ∧ i < j_min + (j_max - j_min)) := by omega
  unfold symv_row symv_row_term
  simp only [Function.update_apply, offset_inj h, h3, h4, Spblas.Ico_add_sub, zero_add]
  by_cases e : m = i
  · subst e
    simp only [if_true, hi, hi', if_false, add_zero]
    ring
  · have c : (j_min ≤ m ∧ m < j_min + (j_max - j_min)) ↔ (j_min ≤ m ∧ m < j_max) := by omega
    simp only [e, if_false, c, zero_add]
    split_ifs <;> ring

/-- The first branch after `k` rows: `ix` and `iy` have advanced by `k` strides
and every element of `Y` has received `alpha` times the row terms of rows
`0 .. k - 1`. -/
theorem symv_upper_loop_spec (OFFSET : Nat → Int → Int) (N : Nat) (alpha : ℚ) (A : Nat → ℚ)
    (lda : Nat) (X : Int → ℚ) (incX incY : Int) (h : incY ≠ 0) (Y1 : Int → ℚ) :
    ∀ k : Nat,
      (symv_upper_loop OFFSET N alpha A lda X incX incY k
          { Y := Y1, ix := OFFSET N incX, iy := OFFSET N incY }).ix
        = OFFSET N incX + (k : Int) * incX ∧
      (symv_upper_loop OFFSET N alpha A lda X incX incY k
          { Y := Y1, ix := OFFSET N incX, iy := OFFSET N incY }).iy
        = OFFSET N incY + (k : Int) * incY ∧
      ∀ m : Nat,
        (symv_upper_loop OFFSET N alpha A lda X incX incY k
            { Y := Y1, ix := OFFSET N incX, iy := OFFSET N incY }).Y
            (OFFSET N incY + (m : Int) * incY)
          = Y1 (OFFSET N incY + (m : Int) * incY)
            + alpha * ∑ i ∈ Finset.range k,
                symv_row_term A lda (fun j => X (OFFSET N incX + (j : Int) * incX))
                  i (i + 1) N m := by
  intro k
  induction k with
  | zero => simp [symv_upper_loop]
  | succ n ih =>
    obtain ⟨i1, i2, i3⟩ := ih
    refine ⟨?_, ?_, ?_⟩
    · simp only [symv_upper_loop, i1]
      push_cast
      ring
    · simp only [symv_upper_loop, i2]
      push_cast
      ring
    · intro m
      simp only [symv_upper_loop, i1, i2]
      rw [symv_row_spec OFFSET N alpha A lda X incX incY h n (n + 1) N (by omega) _ m, i3,
        Finset.sum_range_succ]
      ring

/-- The second branch after `k <= N` rows: `ix` and `iy` stand at row
`N - 1 - k` and every element of `Y` has received `alpha` times the row terms of
rows `N - 1` down to `N - k`. -/
theorem symv_lower_loop_spec (OFFSET : Nat → Int → Int) (N : Nat) (alpha : ℚ) (A : Nat → ℚ)
    (lda : Nat) (X : Int → ℚ) (incX incY : Int) (h : incY ≠ 0) (Y1 : Int → ℚ) :
    ∀ k : Nat, k ≤ N →
      (symv_lower_loop OFFSET N alpha A lda X incX incY k
          { Y := Y1, ix := OFFSET N incX + ((N : Int) - 1) * incX,
            iy := OFFSET N incY + ((N : Int) - 1) * incY }).ix
        = OFFSET N incX + ((N : Int) - 1 - (k : Int)) * incX ∧
      (symv_lower_loop OFFSET N alpha A lda X incX incY k
          { Y := Y1, ix := OFFSET N incX + ((N : Int) - 1) * incX,
            iy := OFFSET N incY + ((N : Int) - 1) * incY }).iy
        = OFFSET N incY + ((N : Int) - 1 - (k : Int)) * incY ∧
      ∀ m : Nat,
        (symv_lower_loop OFFSET N alpha A lda X incX incY k
            { Y := Y1, ix := OFFSET N incX + ((N : Int) - 1) * incX,
              iy := OFFSET N incY + ((N : Int) - 1) * incY }).Y
            (OFFSET N incY + (m : Int) * incY)
          = Y1 (OFFSET N incY + (m : Int) * incY)
            + alpha * ∑ t ∈ Finset.range k,
                symv_row_term A lda (fun j => X (OFFSET N incX + (j : Int) * incX))
                  (N - 1 - t) 0 (N - 1 - t) m := by
  intro k
  induction k with
  | zero =>
    intro _
    simp [symv_lower_loop]
  | succ n ih =>
    intro hk
    obtain ⟨i1, i2, i3⟩ := ih (by omega)
    have hcast : ((N - 1 - n : Nat) : Int) = (N : Int) - 1 - (n : Int) := by omega
    refine ⟨?_, ?_, ?_⟩
    · simp only [symv_lower_loop, i1]
      push_cast
      ring
    · simp only [symv_lower_loop, i2]
      push_cast
      ring
    · intro m
      simp only [symv_lower_loop, i1, i2]
      rw [← hcast,
        symv_row_spec OFFSET N alpha A lda X incX incY h (N - 1 - n) 0 (N - 1 - n) (by omega) _ m,
        i3, Finset.sum_range_succ]
      ring

/-- The columns right of `m` as a filter of all columns. -/
theorem sum_Ico_succ_eq_sum_range_ite (g : Nat → ℚ) (m N : Nat) :
    ∑ j ∈ Finset.Ico (m + 1) N, g j = ∑ j ∈ Finset.range N, if m < j then g j else 0 := by
  rw [← Finset.sum_filter]
  congr 1
  ext j
  simp only [Finset.mem_Ico, Finset.mem_filter, Finset.mem_range]
  omega

/-- The columns left of `m` as a filter of all columns. -/
theorem sum_range_eq_sum_range_ite (g : Nat → ℚ) (m N : Nat) (hm : m < N) :
    ∑ j ∈ Finset.range m, g j = ∑ j ∈ Finset.range N, if j < m then g j else 0 := by
  rw [← Finset.sum_filter]
  congr 1
  ext j
  simp only [Finset.mem_filter, Finset.mem_range]
  omega

/-- The row terms of the first branch add up to row `m` of the symmetric
matrix read from the triangle `j >= i`. -/
theorem symv_upper_sum (A : Nat → ℚ) (lda : Nat) (Xl : Nat → ℚ) (N m : Nat) (hm : m < N) :
    ∑ i ∈ Finset.range N, symv_row_term A lda Xl i (i + 1) N m
      = ∑ j ∈ Finset.range N, A (lda * min m j + max m j) * Xl j := by
  have e1 : Xl m * A (lda * m + m)
      = ∑ j ∈ Finset.range N, if j = m then Xl j * A (lda * j + j) else 0 := by
    rw [Finset.sum_ite_eq' (Finset.range N) m (fun j => Xl j * A (lda * j + j)),
      if_pos (Finset.mem_range.mpr hm)]
  unfold symv_row_term
  rw [Finset.sum_add_distrib, Finset.sum_ite_eq, if_pos (Finset.mem_range.mpr hm),
    sum_Ico_succ_eq_sum_range_ite, e1, ← Finset.sum_add_distrib, ← Finset.sum_add_distrib]
  apply Finset.sum_congr rfl
  intro j _
  rcases Nat.lt_trichotomy j m with c | c | c
  · have n1 : ¬ j = m := by omega
    have n2 : ¬ m < j := by omega
    have n3 : j + 1 ≤ m ∧ m < N := by omega
    rw [if_neg n1, if_neg n2, if_pos n3, min_eq_right (le_of_lt c), max_eq_left (le_of_lt c)]
    ring
  · subst c
    have n2 : ¬ j < j := by omega
    have n3 : ¬ (j + 1 ≤ j ∧ j < N) := by omega
    rw [if_pos rfl, if_neg n2, if_neg n3, min_self, max_self]
    ring
  · have n1 : ¬ j = m := by omega
    have n3 : ¬ (j + 1 ≤ m ∧ m < N) := by omega
    rw [if_neg n1, if_pos c, if_neg n3, min_eq_left (le_of_lt c), max_eq_right (le_of_lt c)]
    ring

/-- The row terms of the second branch add up to row `m` of the symmetric
matrix read from the triangle `j <= i`. -/
theorem symv_lower_sum (A : Nat → ℚ) (lda : Nat) (Xl : Nat → ℚ) (N m : Nat) (hm : m < N) :
    ∑ t ∈ Finset.range N, symv_row_term A lda Xl (N - 1 - t) 0 (N - 1 - t) m
      = ∑ j ∈ Finset.range N, A (lda * max m j + min m j) * Xl j := by
  rw [Finset.sum_range_reflect (fun i => symv_row_term A lda Xl i 0 i m) N]
  have e1 : Xl m * A (lda * m + m)
      = ∑ j ∈ Finset.range N, if j = m then Xl j * A (lda * j + j) else 0 := by
    rw [Finset.sum_ite_eq' (Finset.range N) m (fun j => Xl j * A (lda * j + j)),
      if_pos (Finset.mem_range.mpr hm)]
  unfold symv_row_term
  rw [Finset.sum_add_distrib, Finset.sum_ite_eq, if_pos (Finset.mem_range.mpr hm),
    ← Finset.range_eq_Ico, sum_range_eq_sum_range_ite _ m N hm, e1,
    ← Finset.sum_add_distrib, ← Finset.sum_add_distrib]
  apply Finset.sum_congr rfl
  intro j _
  rcases Nat.lt_trichotomy j m with c | c | c
  · have n1 : ¬ j = m := by omega
    have n3 : ¬ (0 ≤ m ∧ m < j) := by omega
    rw [if_neg n1, if_pos c, if_neg n3, min_eq_right (le_of_lt c), max_eq_left (le_of_lt c)]
    ring
  · subst c
    have n2 : ¬ j < j := by omega
    have n3 : ¬ (0 ≤ j ∧ j < j) := by omega
    rw [if_pos rfl, if_neg n2, if_neg n3, min_self, max_self]
    ring
  · have n1 : ¬ j = m := by omega
    have n2 : ¬ j < m := by omega
    have n3 : 0 ≤ m ∧ m < j := by omega
    rw [if_neg n1, if_neg n2, if_pos n3, min_eq_left (le_of_lt c), max_eq_right (le_of_lt c)]
    ring

/-- C19. The symv kernel forms `y := alpha*A*x + beta*y` for the symmetric
matrix that one triangle of `A` stands for: for every `N`, `lda`, every
(order, Uplo) and strides with `incY` not zero (in particular for positive
strides), the kernel returns normally and afterwards every element `k < N` of
`Y`, at offset `OFFSET(N,incY) + k*incY`, is
`beta * Y_in[k] + alpha * sum_{j<N} S[k][j] * X[j]`, where `S[k][j]` is
`A[lda*min(k,j) + max(k,j)]` for (RowMajor, Upper) and (ColMajor, Lower) and
`A[lda*max(k,j) + min(k,j)]` for (RowMajor, Lower) and (ColMajor, Upper). -/
theorem source_symv_computes (OFFSET : Nat → Int → Int) (order : CBLAS_ORDER)
    (Uplo : CBLAS_UPLO) (N : Nat) (alpha : ℚ) (A : Nat → ℚ) (lda : Nat) (X : Int → ℚ)
    (incX : Int) (beta : ℚ) (Y : Int → ℚ) (incY : Int) (h : incY ≠ 0) :
    ∃ Y' : Int → ℚ,
      source_symv OFFSET order Uplo N alpha A lda X incX beta Y incY = some Y' ∧
      ∀ k : Nat, k < N →
        Y' (OFFSET N incY + (k : Int) * incY)
          = beta * Y (OFFSET N incY + (k : Int) * incY)
            + alpha * ∑ j ∈ Finset.range N,
                symv_entry order Uplo A lda k j * X (OFFSET N incX + (j : Int) * incX) := by
  unfold source_symv
  by_cases hab : alpha = 0 ∧ beta = 1
  · rw [if_pos hab]
    refine ⟨Y, rfl, ?_⟩
    intro k _
    rw [hab.1, hab.2]
    ring
  · rw [if_neg hab]
    dsimp only
    by_cases ha : alpha = 0
    · rw [if_pos ha]
      refine ⟨_, rfl, ?_⟩
      intro k hk
      rw [symv_scaled beta incY h Y (OFFSET N incY) N k hk, ha]
      ring
    · rw [if_neg ha]
      by_cases hf : (order = CblasRowMajor ∧ Uplo = CblasUpper)
          ∨ (order = CblasColMajor ∧ Uplo = CblasLower)
      · rw [if_pos hf]
        refine ⟨_, rfl, ?_⟩
        intro k hk
        rw [(symv_upper_loop_spec OFFSET N alpha A lda X incX incY h _ N).2.2 k,
          symv_scaled beta incY h Y (OFFSET N incY) N k hk,
          symv_upper_sum A lda (fun j => X (OFFSET N incX + (j : Int) * incX)) N k hk]
        simp only [symv_entry, if_pos hf]
      · have hb : (order = CblasRowMajor ∧ Uplo = CblasLower)
            ∨ (order = CblasColMajor ∧ Uplo = CblasUpper) := by
          cases order <;> cases Uplo <;> simp at hf ⊢
        rw [if_neg hf, if_pos hb]
        refine ⟨_, rfl, ?_⟩
        intro k hk
        rw [(symv_lower_loop_spec OFFSET N alpha A lda X incX incY h _ N le_rfl).2.2 k,
          symv_scaled beta incY h Y (OFFSET N incY) N k hk,
          symv_lower_sum A lda (fun j => X (OFFSET N incX + (j : Int) * incX)) N k hk]
        simp only [symv_entry, if_neg hf]

/-- C19 on the upper triangle of the 3 x 3 block with rows `[1,2,3]`,
`[4,5,6]`, `[7,8,9]`, row-major, `alpha = 2`, `beta = 3`, `X = [1,10,100]` with
stride 1 and `Y = [7,8,9]` with stride 2: the sum for row `1` is
`2*1 + 5*10 + 6*100`. -/
theorem source_symv_computes_witness :
    (2 : Int) ≠ 0 ∧
    (∃ Y' : Int → ℚ,
      source_symv test_OFFSET CblasRowMajor CblasUpper 3 2 test_A 3 test_X 1 3 test_Y 2
        = some Y' ∧
      ∀ k : Nat, k < 3 →
        Y' (test_OFFSET 3 2 + (k : Int) * 2)
          = 3 * test_Y (test_OFFSET 3 2 + (k : Int) * 2)
            + 2 * ∑ j ∈ Finset.range 3,
                symv_entry CblasRowMajor CblasUpper test_A 3 k j
                  * test_X (test_OFFSET 3 1 + (j : Int) * 1)) ∧
    ∑ j ∈ Finset.range 3,
      symv_entry CblasRowMajor CblasUpper test_A 3 1 j * test_X (test_OFFSET 3 1 + (j : Int) * 1)
      = 652 := by
  refine ⟨by decide,
    source_symv_computes test_OFFSET CblasRowMajor CblasUpper 3 2 test_A 3 test_X 1 3 test_Y 2
      (by decide), ?_⟩
  norm_num [Finset.sum_range_succ, symv_entry, test_A, test_X, test_OFFSET, Steffen.ofList]

/-! ## The triangle the kernel reads -/

/-- The inner loop only reads `A` at the positions `lda*i + j` of the columns it
passes. -/
theorem symv_inner_congr (A A' : Nat → ℚ) (lda : Nat) (X : Int → ℚ) (incX incY : Int)
    (temp1 : ℚ) (i j_min : Nat) (s : symv_inner_state) :
    ∀ t : Nat, (∀ j, j_min ≤ j → j < j_min + t → A (lda * i + j) = A' (lda * i + j)) →
      symv_inner A lda X incX incY temp1 i j_min t s
        = symv_inner A' lda X incX incY temp1 i j_min t s := by
  intro t
  induction t with
  | zero =>
    intro _
    rfl
  | succ n ih =>
    intro hA
    have e := ih (fun j h1 h2 => hA j h1 (by omega))
    have e2 := hA (j_min + n) (by omega) (by omega)
    simp only [symv_inner, e, e2]

/-- The body of an outer loop only reads `A` on the diagonal of its row and at
the columns of its range. -/
theorem symv_row_congr (OFFSET : Nat → Int → Int) (N : Nat) (alpha : ℚ) (A A' : Nat → ℚ)
    (lda : Nat) (X : Int → ℚ) (incX incY : Int) (i j_min j_max : Nat) (Y : Int → ℚ)
    (ix iy : Int) (hd : A (lda * i + i) = A' (lda * i + i))
    (hA : ∀ j, j_min ≤ j → j < j_max → A (lda * i + j) = A' (lda * i + j)) :
    symv_row OFFSET N alpha A lda X incX incY i j_min j_max Y ix iy
      = symv_row OFFSET N alpha A' lda X incX incY i j_min j_max Y ix iy := by
  unfold symv_row
  simp only [hd]
  rw [symv_inner_congr A A' lda X incX incY _ i j_min _ (j_max - j_min)
    (fun j h1 h2 => hA j h1 (by omega))]

/-- The first branch only reads `A` at the positions `lda*i + j` with
`i <= j < N`. -/
theorem symv_upper_loop_congr (OFFSET : Nat → Int → Int) (N : Nat) (alpha : ℚ)
    (A A' : Nat → ℚ) (lda : Nat) (X : Int → ℚ) (incX incY : Int) (s : symv_outer_state)
    (hA : ∀ i j, i ≤ j → j < N → A (lda * i + j) = A' (lda * i + j)) :
    ∀ k : Nat, k ≤ N →
      symv_upper_loop OFFSET N alpha A lda X incX incY k s
        = symv_upper_loop OFFSET N alpha A' lda X incX incY k s := by
  intro k
  induction k with
  | zero =>
    intro _
    rfl
  | succ n ih =>
    intro hk
    simp only [symv_upper_loop, ih (by omega)]
    rw [symv_row_congr OFFSET N alpha A A' lda X incX incY n (n + 1) N _ _ _
      (hA n n le_rfl (by omega)) (fun j h1 h2 => hA n j (by omega) h2)]

/-- The second branch only reads `A` at the positions `lda*i + j` with
`j <= i < N`. -/
theorem symv_lower_loop_congr (OFFSET : Nat → Int → Int) (N : Nat) (alpha : ℚ)
    (A A' : Nat → ℚ) (lda : Nat) (X : Int → ℚ) (incX incY : Int) (s : symv_outer_state)
    (hA : ∀ i j, j ≤ i → i < N → A (lda * i + j) = A' (lda * i + j)) :
    ∀ k : Nat, k ≤ N →
      symv_lower_loop OFFSET N alpha A lda X incX incY k s
        = symv_lower_loop OFFSET N alpha A' lda X incX incY k s := by
  intro k
  induction k with
  | zero =>
    intro _
    rfl
  | succ n ih =>
    intro hk
    simp only [symv_lower_loop, ih (by omega)]
    rw [symv_row_congr OFFSET N alpha A A' lda X incX incY (N - 1 - n) 0 (N - 1 - n) _ _ _
      (hA (N - 1 - n) (N - 1 - n) le_rfl (by omega))
      (fun j _ h2 => hA (N - 1 - n) j (by omega) (by omega))]

/-- C29. The symv kernel reads only the referenced triangle of `A`: for every
`N`, `lda`, `alpha`, `beta`, `X`, `Y`, strides and (order, Uplo), two runs whose
matrices `A` and `A'` agree on the referenced triangle, diagonal included,
return the same block `Y`, whatever the other entries of `A` and `A'` are. -/
theorem source_symv_reads_triangle (OFFSET : Nat → Int → Int) (order : CBLAS_ORDER)
    (Uplo : CBLAS_UPLO) (N : Nat) (alpha : ℚ) (A A' : Nat → ℚ) (lda : Nat) (X : Int → ℚ)
    (incX : Int) (beta : ℚ) (Y : Int → ℚ) (incY : Int)
    (hA : agree_on_triangle order Uplo N lda A A') :
    source_symv OFFSET order Uplo N alpha A lda X incX beta Y incY
      = source_symv OFFSET order Uplo N alpha A' lda X incX beta Y incY := by
  unfold agree_on_triangle at hA
  unfold source_symv
  by_cases hf : (order = CblasRowMajor ∧ Uplo = CblasUpper)
      ∨ (order = CblasColMajor ∧ Uplo = CblasLower)
  · rw [if_pos hf] at hA
    simp only [if_pos hf]
    rw [symv_upper_loop_congr OFFSET N alpha A A' lda X incX incY _ hA N le_rfl]
  · rw [if_neg hf] at hA
    simp only [if_neg hf]
    rw [symv_lower_loop_congr OFFSET N alpha A A' lda X incX incY _ hA N le_rfl]

/-- C29 on two 3 x 3 blocks that agree on the upper triangle and differ below
it, row-major and upper. -/
theorem source_symv_reads_triangle_witness :
    agree_on_triangle CblasRowMajor CblasUpper 3 3 test_A test_A_upper ∧
    test_A 3 ≠ test_A_upper 3 ∧
    source_symv test_OFFSET CblasRowMajor CblasUpper 3 2 test_A 3 test_X 1 3 test_Y 2
      = source_symv test_OFFSET CblasRowMajor CblasUpper 3 2 test_A_upper 3 test_X 1 3 test_Y 2 := by
  have hA : agree_on_triangle CblasRowMajor CblasUpper 3 3 test_A test_A_upper := by
    unfold agree_on_triangle
    rw [if_pos (Or.inl ⟨rfl, rfl⟩)]
    intro i j hij hj
    have hj' : j = 0 ∨ j = 1 ∨ j = 2 := by omega
    have hi' : i = 0 ∨ i = 1 ∨ i = 2 := by omega
    rcases hi' with e | e | e <;> rcases hj' with f | f | f <;> subst e <;> subst f <;>
      first | omega | norm_num [test_A, test_A_upper, Steffen.ofList]
  exact ⟨hA, by norm_num [test_A, test_A_upper, Steffen.ofList],
    source_symv_reads_triangle test_OFFSET CblasRowMajor CblasUpper 3 2 test_A test_A_upper 3
      test_X 1 3 test_Y 2 hA⟩

/-! ## The two traversals on symmetric storage -/

/-- The inner loop leaves every offset untouched that is not an element
`m < N` of `Y`, as long as its columns stay below `N`. -/
theorem symv_inner_frame (A : Nat → ℚ) (lda : Nat) (X : Int → ℚ) (incX incY : Int)
    (h : incY ≠ 0) (temp1 : ℚ) (i j_min N : Nat) (ox oy : Int) (Y0 : Int → ℚ) (t0 : ℚ)
    (z : Int) (hz : ∀ m : Nat, m < N → z ≠ oy + (m : Int) * incY) :
    ∀ t : Nat, j_min + t ≤ N →
      (symv_inner A lda X incX incY temp1 i j_min t
          { Y := Y0, temp2 := t0, jx := ox + (j_min : Int) * incX,
            jy := oy + (j_min : Int) * incY }).Y z = Y0 z := by
  intro t
  induction t with
  | zero =>
    intro _
    rfl
  | succ n ih =>
    intro ht
    have hjy := (symv_inner_spec A lda X incX incY h temp1 i j_min ox oy Y0 t0 n).2.1
    simp only [symv_inner, hjy, Function.update_apply]
    rw [if_neg (hz (j_min + n) (by omega)), ih (by omega)]

/-- The body of an outer loop for a row `i < N` with columns below `N` leaves
every offset untouched that is not an element `m < N` of `Y`. -/
theorem symv_row_frame (OFFSET : Nat → Int → Int) (N : Nat) (alpha : ℚ) (A : Nat → ℚ)
    (lda : Nat) (X : Int → ℚ) (incX incY : Int) (h : incY ≠ 0) (i j_min j_max : Nat)
    (hi : i < N) (hj : j_max ≤ N) (Y : Int → ℚ) (ix : Int) (z : Int)
    (hz : ∀ m : Nat, m < N → z ≠ OFFSET N incY + (m : Int) * incY) :
    symv_row OFFSET N alpha A lda X incX incY i j_min j_max Y ix
        (OFFSET N incY + (i : Int) * incY) z = Y z := by
  unfold symv_row
  simp only [Function.update_apply]
  rw [if_neg (hz i hi)]
  by_cases hle : j_min ≤ j_max
  · rw [symv_inner_frame A lda X incX incY h _ i j_min N (OFFSET N incX) (OFFSET N incY) _ 0 z hz
      (j_max - j_min) (by omega), Function.update_apply, if_neg (hz i hi)]
  · have e : j_max - j_min = 0 := by omega
    rw [e]
    simp only [symv_inner, Function.update_apply]
    rw [if_neg (hz i hi)]

/-- The first branch leaves every offset untouched that is not an element
`m < N` of `Y`. -/
theorem symv_upper_loop_frame (OFFSET : Nat → Int → Int) (N : Nat) (alpha : ℚ) (A : Nat → ℚ)
    (lda : Nat) (X : Int → ℚ) (incX incY : Int) (h : incY ≠ 0) (Y1 : Int → ℚ) (z : Int)
    (hz : ∀ m : Nat, m < N → z ≠ OFFSET N incY + (m : Int) * incY) :
    ∀ k : Nat, k ≤ N →
      (symv_upper_loop OFFSET N alpha A lda X incX incY k
          { Y := Y1, ix := OFFSET N incX, iy := OFFSET N incY }).Y z = Y1 z := by
  intro k
  induction k with
  | zero =>
    intro _
    rfl
  | succ n ih =>
    intro hk
    have hiy := (symv_upper_loop_spec OFFSET N alpha A lda X incX incY h Y1 n).2.1
    simp only [symv_upper_loop, hiy]
    rw [symv_row_frame OFFSET N alpha A lda X incX incY h n (n + 1) N (by omega) le_rfl _ _ z hz,
      ih (by omega)]

/-- The second branch leaves every offset untouched that is not an element
`m < N` of `Y`. -/
theorem symv_lower_loop_frame (OFFSET : Nat → Int → Int) (N : Nat) (alpha : ℚ) (A : Nat → ℚ)
    (lda : Nat) (X : Int → ℚ) (incX incY : Int) (h : incY ≠ 0) (Y1 : Int → ℚ) (z : Int)
    (hz : ∀ m : Nat, m < N → z ≠ OFFSET N incY + (m : Int) * incY) :
    ∀ k : Nat, k ≤ N →
      (symv_lower_loop OFFSET N alpha A lda X incX incY k
          { Y := Y1, ix := OFFSET N incX + ((N : Int) - 1) * incX,
            iy := OFFSET N incY + ((N : Int) - 1) * incY }).Y z = Y1 z := by
  intro k
  induction k with
  | zero =>
    intro _
    rfl
  | succ n ih =>
    intro hk
    have hiy := (symv_lower_loop_spec OFFSET N alpha A lda X incX incY h Y1 n (by omega)).2.1
    have hcast : ((N - 1 - n : Nat) : Int) = (N : Int) - 1 - (n : Int) := by omega
    simp only [symv_lower_loop, hiy]
    rw [← hcast,
      symv_row_frame OFFSET N alpha A lda X incX incY h (N - 1 - n) 0 (N - 1 - n) (by omega)
        (by omega) _ _ z hz,
      ih (by omega)]

/-- On symmetric storage the two branches leave the same block `Y`. -/
theorem symv_upper_eq_lower (OFFSET : Nat → Int → Int) (N : Nat) (alpha : ℚ) (A : Nat → ℚ)
    (lda : Nat) (X : Int → ℚ) (incX incY : Int) (h : incY ≠ 0) (Y1 : Int → ℚ)
    (hsym : ∀ i j, i < N → j < N → A (lda * i + j) = A (lda * j + i)) :
    (symv_upper_loop OFFSET N alpha A lda X incX incY N
        { Y := Y1, ix := OFFSET N incX, iy := OFFSET N incY }).Y
      = (symv_lower_loop OFFSET N alpha A lda X incX incY N
        { Y := Y1, ix := OFFSET N incX + ((N : Int) - 1) * incX,
          iy := OFFSET N incY + ((N : Int) - 1) * incY }).Y := by
  funext z
  by_cases hz : ∃ m : Nat, m < N ∧ z = OFFSET N incY + (m : Int) * incY
  · obtain ⟨m, hm, rfl⟩ := hz
    rw [(symv_upper_loop_spec OFFSET N alpha A lda X incX incY h Y1 N).2.2 m,
      (symv_lower_loop_spec OFFSET N alpha A lda X incX incY h Y1 N le_rfl).2.2 m,
      symv_upper_sum A lda _ N m hm, symv_lower_sum A lda _ N m hm]
    congr 2
    apply Finset.sum_congr rfl
    intro j hj
    have hj' : j < N := Finset.mem_range.mp hj
    congr 1
    rcases le_total m j with c | c
    · rw [min_eq_left c, max_eq_right c]
      exact hsym m j hm hj'
    · rw [min_eq_right c, max_eq_left c]
      exact hsym j m hj' hm
  · have hz' : ∀ m : Nat, m < N → z ≠ OFFSET N incY + (m : Int) * incY :=
      fun m hm e => hz ⟨m, hm, e⟩
    rw [symv_upper_loop_frame OFFSET N alpha A lda X incX incY h Y1 z hz' N le_rfl,
      symv_lower_loop_frame OFFSET N alpha A lda X incX incY h Y1 z hz' N le_rfl]

/-- C30. The two triangle traversals agree on symmetric storage: for every
`N`, `lda`, `alpha`, `beta`, `X`, `Y_in`, every stride `incX` and every stride
`incY` that is not zero, and every stored matrix with
`A[lda*i + j] = A[lda*j + i]` for all `i, j < N`, the forward branch, taken for
(RowMajor, Upper) and (ColMajor, Lower), and the backward branch, taken for
(RowMajor, Lower) and (ColMajor, Upper), return the same block `Y`. -/
theorem source_symv_traversals_agree (OFFSET : Nat → Int → Int) (order order' : CBLAS_ORDER)
    (Uplo Uplo' : CBLAS_UPLO) (N : Nat) (alpha : ℚ) (A : Nat → ℚ) (lda : Nat) (X : Int → ℚ)
    (incX : Int) (beta : ℚ) (Y : Int → ℚ) (incY : Int) (h : incY ≠ 0)
    (hsym : ∀ i j, i < N → j < N → A (lda * i + j) = A (lda * j + i))
    (hf : (order = CblasRowMajor ∧ Uplo = CblasUpper)
      ∨ (order = CblasColMajor ∧ Uplo = CblasLower))
    (hb : (order' = CblasRowMajor ∧ Uplo' = CblasLower)
      ∨ (order' = CblasColMajor ∧ Uplo' = CblasUpper)) :
    source_symv OFFSET order Uplo N alpha A lda X incX beta Y incY
      = source_symv OFFSET order' Uplo' N alpha A lda X incX beta Y incY := by
  have hnf : ¬ ((order' = CblasRowMajor ∧ Uplo' = CblasUpper)
      ∨ (order' = CblasColMajor ∧ Uplo' = CblasLower)) := by
    rcases hb with ⟨e1, e2⟩ | ⟨e1, e2⟩ <;> subst e1 <;> subst e2 <;> simp
  unfold source_symv
  simp only [if_pos hf, if_neg hnf, if_pos hb]
  rw [symv_upper_eq_lower OFFSET N alpha A lda X incX incY h _ hsym]

/-- C30 on a symmetric 3 x 3 block: row-major upper against row-major lower. -/
theorem source_symv_traversals_agree_witness :
    (2 : Int) ≠ 0 ∧
    (∀ i j, i < 3 → j < 3 → test_A_sym (3 * i + j) = test_A_sym (3 * j + i)) ∧
    source_symv test_OFFSET CblasRowMajor CblasUpper 3 2 test_A_sym 3 test_X 1 3 test_Y 2
      = source_symv test_OFFSET CblasRowMajor CblasLower 3 2 test_A_sym 3 test_X 1 3 test_Y 2 := by
  have hsym : ∀ i j, i < 3 → j < 3 → test_A_sym (3 * i + j) = test_A_sym (3 * j + i) := by
    intro i j hi hj
    have hi' : i = 0 ∨ i = 1 ∨ i = 2 := by omega
    have hj' : j = 0 ∨ j = 1 ∨ j = 2 := by omega
    rcases hi' with e | e | e <;> rcases hj' with f | f | f <;> subst e <;> subst f <;>
      norm_num [test_A_sym, Steffen.ofList]
  exact ⟨by decide, hsym,
    source_symv_traversals_agree test_OFFSET CblasRowMajor CblasRowMajor CblasUpper CblasLower
      3 2 test_A_sym 3 test_X 1 3 test_Y 2 (by decide) hsym (Or.inl ⟨rfl, rfl⟩)
      (Or.inl ⟨rfl, rfl⟩)⟩

end Cblas

/-! # Theorems about the Gaussian variates -/

namespace Randist

/-- The two rejection loops are the same function of the generator. -/
theorem gsl_ran_bivariate_gaussian_loop_eq {gsl_rng : Type} (gsl_rng_uniform : gsl_rng → ℚ × gsl_rng) :
    ∀ (fuel : Nat) (r : gsl_rng), gsl_ran_bivariate_gaussian_loop gsl_rng_uniform fuel r
      = gsl_ran_gaussian_loop gsl_rng_uniform fuel r := by
  intro fuel
  induction fuel with
  | zero =>
    intro r
    rfl
  | succ n ih =>
    intro r
    simp only [gsl_ran_bivariate_gaussian_loop, gsl_ran_gaussian_loop, ih]

/-- A point on which the loop exits has `x*x + y*y = r2`, `r2 <= 1` and
`r2 != 0`. -/
theorem gsl_ran_gaussian_loop_exit {gsl_rng : Type} (gsl_rng_uniform : gsl_rng → ℚ × gsl_rng) :
    ∀ (fuel : Nat) (r : gsl_rng) (s : ℚ × ℚ × ℚ × gsl_rng),
      gsl_ran_gaussian_loop gsl_rng_uniform fuel r = some s →
      s.2.2.1 = s.1 * s.1 + s.2.1 * s.2.1 ∧ ¬ (s.2.2.1 > 1 ∨ s.2.2.1 = 0) := by
  intro fuel
  induction fuel with
  | zero =>
    intro r s h
    simp [gsl_ran_gaussian_loop] at h
  | succ n ih =>
    intro r s h
    simp only [gsl_ran_gaussian_loop] at h
    split_ifs at h with hc
    · exact ih _ s h
    · have e := Option.some.inj h
      subst e
      exact ⟨rfl, hc⟩

/-- More fuel does not change the point on which the loop exits. -/
theorem gsl_ran_gaussian_loop_fuel {gsl_rng : Type} (gsl_rng_uniform : gsl_rng → ℚ × gsl_rng) :
    ∀ (fuel : Nat) (r : gsl_rng) (s : ℚ × ℚ × ℚ × gsl_rng),
      gsl_ran_gaussian_loop gsl_rng_uniform fuel r = some s →
      ∀ more : Nat, gsl_ran_gaussian_loop gsl_rng_uniform (fuel + more) r = some s := by
  intro fuel
  induction fuel with
  | zero =>
    intro r s h
    simp [gsl_ran_gaussian_loop] at h
  | succ n ih =>
    intro r s h more
    have e : n + 1 + more = (n + more) + 1 := by omega
    rw [e]
    simp only [gsl_ran_gaussian_loop] at h ⊢
    split_ifs at h ⊢ with hc
    · exact ih _ s h more
    · exact h

/-- The loop does not end on a generator that always hands out `0`: every
point is `(-1, -1)` with `r2 = 2`. -/
theorem gsl_ran_gaussian_loop_test_rng_zero :
    ∀ (fuel r : Nat), gsl_ran_gaussian_loop test_rng_zero fuel r = none := by
  intro fuel
  induction fuel with
  | zero =>
    intro r
    rfl
  | succ n ih =>
    intro r
    simp only [gsl_ran_gaussian_loop, test_rng_zero, ih]
    norm_num

/-- A point on the unit circle is accepted: the draws `1/2`, `0` give the point
`(0, -1)` with `r2 = 1`, on which the loop exits. -/
theorem gsl_ran_gaussian_loop_accepts_boundary :
    gsl_ran_gaussian_loop test_rng_boundary 1 0 = some (0, -1, 1, 2) := by
  norm_num [gsl_ran_gaussian_loop, test_rng_boundary, Steffen.ofList]

/-- C32. The Gaussian rejection loop only accepts points of the punctured unit
disc: whenever the loop of `gsl_ran_gaussian` exits, with locals `x`, `y`, `r2`,
the loop of `gsl_ran_bivariate_gaussian` exits on the same draws with the same
locals, `r2 = x*x + y*y` satisfies `0 < r2 <= 1`, so the divisor `r2` is not
zero, the logarithm of `r2` is `<= 0` and `-2*log(r2)/r2 >= 0`, both for the
real logarithm and for every `log` on doubles that is `<= 0` on `(0, 1]`; and
`gsl_ran_gaussian` returns `y * sqrt(-2*log(r2)/r2)`, the value that
`gsl_ran_bivariate_gaussian` writes to `*y`, leaving the generator in the same
state. -/
theorem gsl_ran_gaussian_accepts_in_disc {gsl_rng : Type} (gsl_rng_uniform : gsl_rng → ℚ × gsl_rng)
    (sqrt log : ℚ → ℚ) (fuel : Nat) (r : gsl_rng) (x y r2 : ℚ) (r1 : gsl_rng)
    (hexit : gsl_ran_gaussian_loop gsl_rng_uniform fuel r = some (x, y, r2, r1)) :
    gsl_ran_bivariate_gaussian_loop gsl_rng_uniform fuel r = some (x, y, r2, r1) ∧
    r2 = x * x + y * y ∧ 0 < r2 ∧ r2 ≤ 1 ∧ r2 ≠ 0 ∧
    Real.log (r2 : ℝ) ≤ 0 ∧ 0 ≤ -2 * Real.log (r2 : ℝ) / (r2 : ℝ) ∧
    ((∀ t : ℚ, 0 < t → t ≤ 1 → log t ≤ 0) → log r2 ≤ 0 ∧ 0 ≤ -2 * log r2 / r2) ∧
    gsl_ran_gaussian gsl_rng_uniform sqrt log fuel r
      = some (y * sqrt (-2 * log r2 / r2), r1) ∧
    gsl_ran_bivariate_gaussian gsl_rng_uniform sqrt log fuel r
      = some (x * sqrt (-2 * log r2 / r2), y * sqrt (-2 * log r2 / r2), r1) ∧
    (gsl_ran_gaussian gsl_rng_uniform sqrt log fuel r).map (fun g => g.1)
      = (gsl_ran_bivariate_gaussian gsl_rng_uniform sqrt log fuel r).map (fun g => g.2.1) := by
  obtain ⟨hr2, hcond⟩ := gsl_ran_gaussian_loop_exit gsl_rng_uniform fuel r _ hexit
  simp only at hr2 hcond
  have hle : r2 ≤ 1 := not_lt.mp (fun h => hcond (Or.inl h))
  have hne : r2 ≠ 0 := fun h => hcond (Or.inr h)
  have hnn : 0 ≤ r2 := by
    rw [hr2]
    nlinarith [mul_self_nonneg x, mul_self_nonneg y]
  have hpos : 0 < r2 := lt_of_le_of_ne hnn (Ne.symm hne)
  have hposR : (0 : ℝ) < (r2 : ℝ) := by exact_mod_cast hpos
  have hleR : (r2 : ℝ) ≤ 1 := by exact_mod_cast hle
  have hlogR : Real.log (r2 : ℝ) ≤ 0 := Real.log_nonpos hposR.le hleR
  have hbiv := gsl_ran_bivariate_gaussian_loop_eq gsl_rng_uniform fuel r
  have hg : gsl_ran_gaussian gsl_rng_uniform sqrt log fuel r
      = some (y * sqrt (-2 * log r2 / r2), r1) := by
    unfold gsl_ran_gaussian
    rw [hexit]
  have hb : gsl_ran_bivariate_gaussian gsl_rng_uniform sqrt log fuel r
      = some (x * sqrt (-2 * log r2 / r2), y * sqrt (-2 * log r2 / r2), r1) := by
    unfold gsl_ran_bivariate_gaussian
    rw [hbiv, hexit]
  refine ⟨hbiv.trans hexit, hr2, hpos, hle, hne, hlogR, ?_, ?_, hg, hb, ?_⟩
  · apply div_nonneg _ hposR.le
    linarith
  · intro hlog
    have hl := hlog r2 hpos hle
    refine ⟨hl, ?_⟩
    apply div_nonneg _ hpos.le
    linarith
  · rw [hg, hb]
    rfl

/-- C32 on the generator that hands out `0, 0, 1/2, 1/2, 3/4, 3/4`: the points
`(-1, -1)` with `r2 = 2` and `(0, 0)` with `r2 = 0` are rejected and the loop
exits on `(1/2, 1/2)` with `r2 = 1/2`. -/
theorem gsl_ran_gaussian_accepts_in_disc_witness :
    gsl_ran_gaussian_loop test_rng 3 0 = some (1 / 2, 1 / 2, 1 / 2, 6) ∧
    gsl_ran_gaussian_loop test_rng 2 0 = none ∧
    gsl_ran_bivariate_gaussian_loop test_rng 3 0 = some (1 / 2, 1 / 2, 1 / 2, 6) ∧
    (0 : ℚ) < 1 / 2 ∧ (1 / 2 : ℚ) ≤ 1 ∧
    gsl_ran_gaussian test_rng test_sqrt test_log 3 0 = some (1 / 2 * (3 / 2), 6) ∧
    gsl_ran_bivariate_gaussian test_rng test_sqrt test_log 3 0
      = some (1 / 2 * (3 / 2), 1 / 2 * (3 / 2), 6) := by
  have hexit : gsl_ran_gaussian_loop test_rng 3 0 = some (1 / 2, 1 / 2, 1 / 2, 6) := by
    norm_num [gsl_ran_gaussian_loop, test_rng, Steffen.ofList]
  have hnone : gsl_ran_gaussian_loop test_rng 2 0 = none := by
    norm_num [gsl_ran_gaussian_loop, test_rng, Steffen.ofList]
  have h := gsl_ran_gaussian_accepts_in_disc test_rng test_sqrt test_log 3 0 (1 / 2) (1 / 2)
    (1 / 2) 6 hexit
  have e : test_sqrt (-2 * test_log (1 / 2) / (1 / 2)) = 3 / 2 := by
    norm_num [test_sqrt, test_log]
  obtain ⟨h1, -, h3, h4, -, -, -, -, h9, h10, -⟩ := h
  rw [e] at h9 h10
  exact ⟨hexit, hnone, h1, h3, h4, h9, h10⟩

end Randist
